import Mathlib

/-!
# Verification of the SPDK DIF/DIX codec specification

This development gives a shallow embedding of the DIF (Data Integrity Field)
codec declared in `include/spdk/dif.h` and settles the specification's claims
about it.  The repository ships only the public header; the function bodies
(`lib/util/dif.c`) are not part of the source tree, so the per-block engine,
the bulk operations and the stream engine are modelled from the specification
document (its data model §3, component design §4, interfaces §6), faithful to
its words.  Payloads are modelled as flat lists of bytes (`List Nat`, each
`< 256`): the scatter-gather list is only a memory-layout device — the spec's
block iterator "treats the concatenation as the logical payload".  Machine
integers are `Nat` with explicit reduction `% 2 ^ w` at the points where the C
types truncate.
-/

namespace SpdkDif

/-! ## Byte-array primitives

A payload is a flat `List Nat` of bytes.  `readBytes`/`writeBytes` are the
load/store primitives used by every operation. -/

/-- Read `n` bytes starting at byte offset `off`. -/
def readBytes (l : List Nat) (off n : Nat) : List Nat :=
  (l.drop off).take n

/-- Overwrite the bytes at offsets `[off, off + v.length)` with `v`. -/
def writeBytes (l : List Nat) (off : Nat) (v : List Nat) : List Nat :=
  l.take off ++ v ++ l.drop (off + v.length)

/-- Encode `v` as `n` big-endian bytes (truncating to the low `8 * n` bits). -/
def bePut : Nat → Nat → List Nat
  | 0, _ => []
  | n + 1, v => (v / 256 ^ n) % 256 :: bePut n (v % 256 ^ n)

/-- Decode a big-endian byte list. -/
def beVal (l : List Nat) : Nat :=
  l.foldl (fun acc b => acc * 256 + b) 0

/-- One CRC bit step: shift left, reducing by the polynomial when the top bit
falls out. -/
def crcShift1 (w p t : Nat) : Nat :=
  if 2 ^ (w - 1) ≤ t then ((2 * t) % 2 ^ w) ^^^ p else (2 * t) % 2 ^ w

/-- Fold one data byte into a running `w`-bit CRC state. -/
def crcByte (w p s b : Nat) : Nat :=
  (crcShift1 w p)^[8] (s ^^^ b * 2 ^ (w - 8))

/-- CRC of a byte list, chainable via the running `seed` state. -/
def crcBytes (w p seed : Nat) (data : List Nat) : Nat :=
  data.foldl (crcByte w p) seed

/-- `enum spdk_dif_type` (dif.h:37-42). -/
inductive DifType
  | disable
  | type1
  | type2
  | type3
deriving DecidableEq

/-- `enum spdk_dif_pi_format` (dif.h:50-54). -/
inductive PiFormat
  | fmt16
  | fmt32
  | fmt64
deriving DecidableEq

/-- The check bits of `dif_flags` (dif.h:27-30). -/
structure DifFlags where
  guardCheck : Bool
  apptagCheck : Bool
  reftagCheck : Bool
  pract : Bool
deriving DecidableEq

/-- `struct spdk_dif_ctx` (dif.h:65-119).  Field widths follow the C
declarations; `Nat` values are reduced modulo the declared width at the
points where the C code truncates. -/
structure DifCtx where
  blockSize : Nat
  guardInterval : Nat
  mdSize : Nat
  mdInterleave : Bool
  difType : DifType
  piFormat : PiFormat
  flags : DifFlags
  initRefTag : Nat
  appTag : Nat
  apptagMask : Nat
  dataOffset : Nat
  refTagOffset : Nat
  remappedInitRefTag : Nat
  lastGuard : Nat
  guardSeed : Nat
deriving DecidableEq

/-- `SPDK_DIF_APPTAG_IGNORE` (dif.h:25). -/
def APPTAG_IGNORE : Nat := 0xFFFF

/-- PI tuple size per format: 8 bytes for the 16-bit format, 16 bytes for the
32- and 64-bit formats (`spdk_dif_pi_format_get_size`, spec §3.2). -/
def piSize : PiFormat → Nat
  | .fmt16 => 8
  | .fmt32 => 16
  | .fmt64 => 16

/-- Guard field width in bytes (spec §3.2/§6.2). -/
def guardBytes : PiFormat → Nat
  | .fmt16 => 2
  | .fmt32 => 4
  | .fmt64 => 8

/-- Guard CRC width in bits. -/
def guardWidth (f : PiFormat) : Nat := 8 * guardBytes f

/-- Guard CRC polynomial (spec §6.2): CRC-16-T10, CRC-32C, CRC-64-NVMe. -/
def guardPoly : PiFormat → Nat
  | .fmt16 => 0x8BB7
  | .fmt32 => 0x1EDC6F41
  | .fmt64 => 0xAD93D23594C93659

/-- Byte offset of the reference-tag field inside the PI tuple (spec §6.2):
bytes [4..8) for the 16-bit format, [8..16) for the 32-bit format and
[10..16) for the 64-bit format. -/
def refOffset : PiFormat → Nat
  | .fmt16 => 4
  | .fmt32 => 8
  | .fmt64 => 10

/-- Byte size of the reference-tag field (spec §6.2). -/
def refBytes : PiFormat → Nat
  | .fmt16 => 4
  | .fmt32 => 8
  | .fmt64 => 6

/-- Significant bits of the reference tag (spec §3.2/§6.2: 32 for the 16-bit
format, 48 significant bits for the 32- and 64-bit formats). -/
def refSigBits : PiFormat → Nat
  | .fmt16 => 32
  | .fmt32 => 48
  | .fmt64 => 48

/-- The all-ones reference-tag "ignore" sentinel for the relevant width
(`SPDK_DIF_REFTAG_IGNORE` for the 16-bit format, spec §6.3).  -/
def refSentinel (f : PiFormat) : Nat := 2 ^ refSigBits f - 1

/-- Reference-tag arithmetic width (spec §3.4.7: low 32 bits for TYPE1 and
TYPE3 in every PI format; the full field width for TYPE2). -/
def refWidthBits (ctx : DifCtx) : Nat :=
  match ctx.difType with
  | .type2 => refSigBits ctx.piFormat
  | _ => 32

/-- Modelled from the spec: §3.4.5 — the expected reference tag of block `i`
is `init_ref_tag + ref_tag_offset + i` reduced modulo the ref-tag width
(the body lives in the missing `lib/util/dif.c`). -/
def expectedRefTag (ctx : DifCtx) (i : Nat) : Nat :=
  (ctx.initRefTag + ctx.refTagOffset + i) % 2 ^ refWidthBits ctx

/-- Modelled from the spec: §4.D step 3 — generation writes the expected
reference tag for TYPE1/TYPE2 and the all-ones sentinel for TYPE3. -/
def genRefTag (ctx : DifCtx) (i : Nat) : Nat :=
  match ctx.difType with
  | .type3 => refSentinel ctx.piFormat
  | _ => expectedRefTag ctx i

/-- `err_type` values of `struct spdk_dif_error` (dif.h:32-35). -/
inductive DifErrType
  | guard
  | apptag
  | reftag
  | data
deriving DecidableEq, Repr

/-- `struct spdk_dif_error` (dif.h:122-136). -/
structure DifError where
  errType : DifErrType
  expected : Nat
  actual : Nat
  errOffset : Nat
deriving DecidableEq, Repr

/-! ## PI codec on the flat payload

The PI tuple of block `i` sits at byte offset `guard_interval` inside the
block (spec §4.A: in interleaved mode the guard interval is exactly the byte
offset of the PI slot, whether the PI occupies the first or the last slot of
the metadata region). -/

/-- Byte offset of block `i`'s PI tuple in the flat payload. -/
def piBase (ctx : DifCtx) (i : Nat) : Nat :=
  i * ctx.blockSize + ctx.guardInterval

/-- Stored guard of block `i` (big-endian, spec §4.A). -/
def readGuard (ctx : DifCtx) (payload : List Nat) (i : Nat) : Nat :=
  beVal (readBytes payload (piBase ctx i) (guardBytes ctx.piFormat))

/-- Stored application tag of block `i` (2 bytes, right after the guard). -/
def readApp (ctx : DifCtx) (payload : List Nat) (i : Nat) : Nat :=
  beVal (readBytes payload (piBase ctx i + guardBytes ctx.piFormat) 2)

/-- Stored reference tag of block `i`. -/
def readRef (ctx : DifCtx) (payload : List Nat) (i : Nat) : Nat :=
  beVal (readBytes payload (piBase ctx i + refOffset ctx.piFormat)
    (refBytes ctx.piFormat))

/-- Write a PI tuple `(guard, app, ref)` into block `i`'s PI slot.  The
storage-tag bytes of the 32-bit format (PI bytes [6..8)) are passed through
untouched (spec §4.A). -/
def writePi (ctx : DifCtx) (payload : List Nat) (i g a r : Nat) : List Nat :=
  writeBytes
    (writeBytes
      (writeBytes payload (piBase ctx i) (bePut (guardBytes ctx.piFormat) g))
      (piBase ctx i + guardBytes ctx.piFormat) (bePut 2 a))
    (piBase ctx i + refOffset ctx.piFormat) (bePut (refBytes ctx.piFormat) r)

/-- Write only the reference-tag field of block `i` (used by remap, which
preserves guard and app tag byte-for-byte, spec §4.D). -/
def writeRef (ctx : DifCtx) (payload : List Nat) (i r : Nat) : List Nat :=
  writeBytes payload (piBase ctx i + refOffset ctx.piFormat)
    (bePut (refBytes ctx.piFormat) r)

/-! ## Per-block engine (spec §4.D), modelled from the spec -/

/-- Guard CRC over a byte list under this context's format, chained from
`seed`. -/
def ctxCrc (ctx : DifCtx) (seed : Nat) (data : List Nat) : Nat :=
  crcBytes (guardWidth ctx.piFormat) (guardPoly ctx.piFormat) seed data

/-- Modelled from the spec: §4.D step 1 — the guard of block `i` is the CRC
of the block's `guard_interval` bytes seeded with `guard_seed`. -/
def computedGuard (ctx : DifCtx) (payload : List Nat) (i : Nat) : Nat :=
  ctxCrc ctx ctx.guardSeed (readBytes payload (i * ctx.blockSize) ctx.guardInterval)

/-- The PI tuple written by generation, given an already-finalized guard
value `gval` (the stream engine finalizes the guard incrementally): guard if
the GUARD flag is set (else 0), the context's app tag if the APPTAG flag is
set (else the stored one is preserved), the generated reference tag if the
REFTAG flag is set (else 0) — spec §4.D `generate_one`. -/
def genPiBlockG (ctx : DifCtx) (payload : List Nat) (i gval : Nat) : List Nat :=
  let g := if ctx.flags.guardCheck then gval else 0
  let a := if ctx.flags.apptagCheck then ctx.appTag else readApp ctx payload i
  let r := if ctx.flags.reftagCheck then genRefTag ctx i else 0
  writePi ctx payload i g a r

/-- Modelled from the spec: §4.D `generate_one` — compute the guard over the
block's `guard_interval` bytes and write the PI tuple. -/
def genPiBlock (ctx : DifCtx) (payload : List Nat) (i : Nat) : List Nat :=
  genPiBlockG ctx payload i (computedGuard ctx payload i)

/-- Modelled from the spec: §3.4.6 — the whole PI check of a block is skipped
when the stored app tag is `0xFFFF`, and for TYPE1/TYPE3 additionally the
stored reference tag is the all-ones sentinel. -/
def skipPiCheck (ctx : DifCtx) (payload : List Nat) (i : Nat) : Prop :=
  readApp ctx payload i = APPTAG_IGNORE ∧
    (ctx.difType = .type2 ∨
      ((ctx.difType = .type1 ∨ ctx.difType = .type3) ∧
        readRef ctx payload i = refSentinel ctx.piFormat))

instance (ctx : DifCtx) (payload : List Nat) (i : Nat) :
    Decidable (skipPiCheck ctx payload i) := by
  unfold skipPiCheck
  infer_instance

/-- The GUARD subcheck against a given finalized guard value fails: flag
enabled and stored guard differs from it. -/
def guardSubFailsG (ctx : DifCtx) (payload : List Nat) (i gval : Nat) : Prop :=
  ctx.flags.guardCheck = true ∧ readGuard ctx payload i ≠ gval

instance (ctx : DifCtx) (payload : List Nat) (i gval : Nat) :
    Decidable (guardSubFailsG ctx payload i gval) := by
  unfold guardSubFailsG
  infer_instance

/-- The GUARD subcheck fails: flag enabled and stored guard differs from the
recomputed CRC. -/
def guardSubFails (ctx : DifCtx) (payload : List Nat) (i : Nat) : Prop :=
  guardSubFailsG ctx payload i (computedGuard ctx payload i)

instance (ctx : DifCtx) (payload : List Nat) (i : Nat) :
    Decidable (guardSubFails ctx payload i) := by
  unfold guardSubFails
  infer_instance

/-- The APPTAG subcheck fails: flag enabled, non-zero mask (spec §3.1: the
check is skipped per block when `apptag_mask == 0`) and masked mismatch. -/
def apptagSubFails (ctx : DifCtx) (payload : List Nat) (i : Nat) : Prop :=
  ctx.flags.apptagCheck = true ∧ ctx.apptagMask ≠ 0 ∧
    readApp ctx payload i &&& ctx.apptagMask ≠ ctx.appTag &&& ctx.apptagMask

instance (ctx : DifCtx) (payload : List Nat) (i : Nat) :
    Decidable (apptagSubFails ctx payload i) := by
  unfold apptagSubFails
  infer_instance

/-- The stored reference tag disagrees with what verification expects:
`init_ref_tag + ref_tag_offset + i` (mod width) for TYPE1/TYPE2; for TYPE3
the check is suppressed when the stored tag is the all-ones sentinel
(spec §3.4.5).  DISABLE never mismatches. -/
def refMismatch (ctx : DifCtx) (payload : List Nat) (i : Nat) : Prop :=
  ((ctx.difType = .type1 ∨ ctx.difType = .type2) ∧
      readRef ctx payload i ≠ expectedRefTag ctx i) ∨
    (ctx.difType = .type3 ∧ readRef ctx payload i ≠ refSentinel ctx.piFormat)

instance (ctx : DifCtx) (payload : List Nat) (i : Nat) :
    Decidable (refMismatch ctx payload i) := by
  unfold refMismatch
  infer_instance

/-- The REFTAG subcheck fails: flag enabled and reference-tag mismatch. -/
def reftagSubFails (ctx : DifCtx) (payload : List Nat) (i : Nat) : Prop :=
  ctx.flags.reftagCheck = true ∧ refMismatch ctx payload i

instance (ctx : DifCtx) (payload : List Nat) (i : Nat) :
    Decidable (reftagSubFails ctx payload i) := by
  unfold reftagSubFails
  infer_instance

/-- Per-block verification against a given finalized guard value `gval`
(used directly by the stream engine, whose guard is folded incrementally):
skip everything under the sentinel rule, otherwise run the enabled subchecks
in the order GUARD → APPTAG → REFTAG and report the first failure
(error-record conventions from spec §8 scenario 2: `expected` is the
stored / context value, `actual` the recomputed / stored one; `err_offset`
is block based). -/
def verifyBlockG (ctx : DifCtx) (payload : List Nat) (i gval : Nat) :
    Option DifError :=
  if skipPiCheck ctx payload i then none
  else if guardSubFailsG ctx payload i gval then
    some ⟨.guard, readGuard ctx payload i, gval, i⟩
  else if apptagSubFails ctx payload i then
    some ⟨.apptag, ctx.appTag &&& ctx.apptagMask,
      readApp ctx payload i &&& ctx.apptagMask, i⟩
  else if reftagSubFails ctx payload i then
    some ⟨.reftag, genRefTag ctx i, readRef ctx payload i, i⟩
  else none

/-- Modelled from the spec: §4.D `verify_one` — verification of one block
with the guard recomputed over the block's `guard_interval` bytes. -/
def verifyBlock (ctx : DifCtx) (payload : List Nat) (i : Nat) :
    Option DifError :=
  verifyBlockG ctx payload i (computedGuard ctx payload i)

/-! ## Bulk operations (spec §4.E), modelled from the spec

Each bulk operation walks the blocks in strictly ascending index.  Return
codes follow §6.4: `0` on success, `-EINVAL` (= -22) for size mismatches
before any mutation, `-1` with a filled error record for verification
failures, `-ENOTSUP` (= -95) for error injection without metadata,
`-ENOMEM` (= -12) for a too-small output iovec array. -/
def errEINVAL : Int := -22

def errENOMEM : Int := -12

def errENOTSUP : Int := -95

/-- Generate PI for blocks `i, i+1, ..., i+n-1` in ascending order. -/
def difGenerateBlocks (ctx : DifCtx) : Nat → Nat → List Nat → List Nat
  | _, 0, payload => payload
  | i, n + 1, payload => difGenerateBlocks ctx (i + 1) n (genPiBlock ctx payload i)

/-- Verify blocks `i, ..., i+n-1` in ascending order, stopping at the first
failing block (spec §3.3/§5). -/
def difVerifyBlocks (ctx : DifCtx) : Nat → Nat → List Nat → Option DifError
  | _, 0, _ => none
  | i, n + 1, payload =>
    match verifyBlock ctx payload i with
    | some e => some e
    | none => difVerifyBlocks ctx (i + 1) n payload

/-- Modelled from the spec: `spdk_dif_generate` (dif.h:193) — validate the
payload size (§3.4.3, §6.1), then generate PI block by block. -/
def spdk_dif_generate (ctx : DifCtx) (numBlocks : Nat) (payload : List Nat) :
    Int × List Nat :=
  if payload.length = numBlocks * ctx.blockSize then
    (0, difGenerateBlocks ctx 0 numBlocks payload)
  else (errEINVAL, payload)

/-- Modelled from the spec: `spdk_dif_verify` (dif.h:207) — validate the
payload size, then verify block by block, returning a negative status and
the error record of the lowest-indexed failing block. -/
def spdk_dif_verify (ctx : DifCtx) (numBlocks : Nat) (payload : List Nat) :
    Int × Option DifError :=
  if payload.length = numBlocks * ctx.blockSize then
    match difVerifyBlocks ctx 0 numBlocks payload with
    | none => (0, none)
    | some e => (-1, some e)
  else (errEINVAL, none)

/-! ## Reference-tag remapping (dif.h:455, 180), modelled from the spec -/

/-- `spdk_dif_ctx_set_remapped_init_ref_tag` (dif.h:180-181): the parameter
and the context field are `uint32_t`, so the stored value is the argument
reduced modulo `2^32`. -/
def spdk_dif_ctx_set_remapped_init_ref_tag (ctx : DifCtx) (v : Nat) : DifCtx :=
  { ctx with remappedInitRefTag := v % 2 ^ 32 }

/-- Modelled from the spec: §4.D `remap_one` uses the remapped initial
reference tag in place of the original; TYPE3's tag is the sentinel. -/
def remapRefTag (ctx : DifCtx) (i : Nat) : Nat :=
  match ctx.difType with
  | .type3 => refSentinel ctx.piFormat
  | _ => (ctx.remappedInitRefTag + ctx.refTagOffset + i) % 2 ^ refWidthBits ctx

/-- Modelled from the spec: §4.D `remap_one` — when `check` is set, first run
reference-tag verification with the original `init_ref_tag`; then rewrite
only the reference-tag field with the remapped tag. -/
def remapBlock (ctx : DifCtx) (payload : List Nat) (i : Nat) (check : Bool) :
    Except DifError (List Nat) :=
  if check ∧ refMismatch ctx payload i then
    .error ⟨.reftag, genRefTag ctx i, readRef ctx payload i, i⟩
  else .ok (writeRef ctx payload i (remapRefTag ctx i))

def difRemapBlocks (ctx : DifCtx) :
    Nat → Nat → List Nat → Bool → Int × List Nat × Option DifError
  | _, 0, payload, _ => (0, payload, none)
  | i, n + 1, payload, check =>
    match remapBlock ctx payload i check with
    | .error e => (-1, payload, some e)
    | .ok payload2 => difRemapBlocks ctx (i + 1) n payload2 check

/-- Modelled from the spec: `spdk_dif_remap_ref_tag` (dif.h:455-458). -/
def spdk_dif_remap_ref_tag (ctx : DifCtx) (numBlocks : Nat)
    (payload : List Nat) (check : Bool) : Int × List Nat × Option DifError :=
  if payload.length = numBlocks * ctx.blockSize then
    difRemapBlocks ctx 0 numBlocks payload check
  else (errEINVAL, payload, none)

/-! ## Error injection (dif.h:279), modelled from the spec -/

/-- The `inject_flags` bits `SPDK_DIF_REFTAG_ERROR`, `SPDK_DIF_APPTAG_ERROR`,
`SPDK_DIF_GUARD_ERROR`, `SPDK_DIF_DATA_ERROR` (dif.h:32-35). -/
structure InjectFlags where
  reftag : Bool
  apptag : Bool
  guard : Bool
  data : Bool
deriving DecidableEq

/-- The byte currently stored at offset `off` (0 when out of range). -/
def byteAt (payload : List Nat) (off : Nat) : Nat :=
  (payload[off]?).getD 0

/-- Flip bit 0 of the byte at offset `off`. -/
def flipBit (payload : List Nat) (off : Nat) : List Nat :=
  writeBytes payload off [byteAt payload off ^^^ 1]

/-- Modelled from the spec: §4.E `inject_error` — flip a single bit, chosen
deterministically within the region selected by each set flag (this model
flips bit 0 of the region's first byte in block 0); per set flag one flip is
performed, in the flag-bit order REFTAG, APPTAG, GUARD, DATA, and the
returned offset is the block index of the last flip.  Returns `-ENOTSUP`
when no metadata exists and `-EINVAL` on payload size mismatch. -/
def spdk_dif_inject_error (ctx : DifCtx) (numBlocks : Nat)
    (payload : List Nat) (flags : InjectFlags) :
    Int × List Nat × Option Nat :=
  if ctx.mdSize = 0 then (errENOTSUP, payload, none)
  else if payload.length ≠ numBlocks * ctx.blockSize then
    (errEINVAL, payload, none)
  else
    let s1 : List Nat × Option Nat :=
      if flags.reftag then
        (flipBit payload (piBase ctx 0 + refOffset ctx.piFormat), some 0)
      else (payload, none)
    let s2 : List Nat × Option Nat :=
      if flags.apptag then
        (flipBit s1.1 (piBase ctx 0 + guardBytes ctx.piFormat), some 0)
      else s1
    let s3 : List Nat × Option Nat :=
      if flags.guard then (flipBit s2.1 (piBase ctx 0), some 0) else s2
    let s4 : List Nat × Option Nat :=
      if flags.data then (flipBit s3.1 0, some 0) else s3
    (0, s4.1, s4.2)

/-! ## Layout helpers (spec §4.G), modelled from the spec -/

/-- Modelled from the spec: §4.G `length_with_md` — whole blocks expand to
`block_size`, a trailing partial block is not padded past the actual data
end plus its metadata region (`spdk_dif_get_length_with_md`, dif.h:437). -/
def spdk_dif_get_length_with_md (ctx : DifCtx) (dataLen : Nat) : Nat :=
  (dataLen / ctx.guardInterval) * ctx.blockSize +
    (if dataLen % ctx.guardInterval = 0 then 0
     else dataLen % ctx.guardInterval + ctx.mdSize)

/-- One iovec entry per touched block, skipping each block's metadata region:
fragment `k` covers the data bytes of one block (spec §4.G).  Structural
fuel: every step consumes at least one data byte. -/
def mdIovsAux (gi bs : Nat) : Nat → Nat → Nat → List (Nat × Nat)
  | 0, _, _ => []
  | _ + 1, _, 0 => []
  | fuel + 1, off, len =>
    if gi = 0 then []
    else
      let p := off % gi
      let t := min len (gi - p)
      ((off / gi) * bs + p, t) :: mdIovsAux gi bs fuel (off + t) (len - t)

/-- Modelled from the spec: `spdk_dif_set_md_interleave_iovs`
(dif.h:358-362) — build an iovec array whose fragments skip each block's
metadata region; returns the number of entries used (non-negative) together
with the entries and the mapped length, or `-ENOMEM` when the range cannot
be expressed in the caller-supplied array size (§4.G, §6.4). -/
def spdk_dif_set_md_interleave_iovs (ctx : DifCtx) (iovcnt : Nat)
    (dataOffset dataLen : Nat) : Int × List (Nat × Nat) × Nat :=
  let iovs := mdIovsAux ctx.guardInterval ctx.blockSize dataLen dataOffset dataLen
  if iovs.length ≤ iovcnt then
    ((iovs.length : Int), iovs, (iovs.map Prod.snd).sum)
  else (errENOMEM, [], 0)

/-! ## Context initialization (dif.h:160-163)

The declared parameter types are authoritative: `init_ref_tag` is a
`uint32_t` even though the context field (dif.h:92) is `uint64_t`. -/

/-- `spdk_dif_ctx_init` (dif.h:160-163): field assignment per the header's
declared parameter widths; `guard_interval` and `ref_tag_offset` are the
derived values of spec §3.1/§4.A (`dif_loc = true` places the PI in the
first PI-sized slot of the metadata, so the guard covers only the data
region; otherwise the PI sits in the last slot and the guard covers
everything before it). -/
def spdk_dif_ctx_init (blockSize mdSize : Nat) (mdInterleave difLoc : Bool)
    (difType : DifType) (flags : DifFlags)
    (initRefTag apptagMask appTag dataOffset guardSeed : Nat)
    (piFormat : PiFormat) : DifCtx :=
  let bs := blockSize % 2 ^ 32
  let md := mdSize % 2 ^ 32
  let gi := if difLoc then bs - md else bs - piSize piFormat
  { blockSize := bs
    guardInterval := gi
    mdSize := md
    mdInterleave := mdInterleave
    difType := difType
    piFormat := piFormat
    flags := flags
    initRefTag := initRefTag % 2 ^ 32
    appTag := appTag % 2 ^ 16
    apptagMask := apptagMask % 2 ^ 16
    dataOffset := dataOffset % 2 ^ 32
    refTagOffset := (dataOffset % 2 ^ 32) / gi
    remappedInitRefTag := 0
    lastGuard := guardSeed % 2 ^ 64
    guardSeed := guardSeed % 2 ^ 64 }

/-! ## Context well-formedness

The invariants of spec §3.4.1-2 plus the declared field widths. -/

/-- A well-formed context: non-empty guard interval containing the data
region, PI slot inside the block, and values within their declared C
widths. -/
def WfCtx (ctx : DifCtx) : Prop :=
  0 < ctx.guardInterval ∧
  ctx.guardInterval + piSize ctx.piFormat ≤ ctx.blockSize ∧
  ctx.blockSize - ctx.mdSize ≤ ctx.guardInterval ∧
  ctx.mdSize < ctx.blockSize ∧
  ctx.appTag < 2 ^ 16 ∧
  ctx.apptagMask < 2 ^ 16 ∧
  ctx.guardSeed < 2 ^ guardWidth ctx.piFormat

instance (ctx : DifCtx) : Decidable (WfCtx ctx) := by
  unfold WfCtx
  infer_instance

/-! ## Stream engine (spec §4.F), modelled from the spec

A stream call processes a `(data_offset, data_len)` slice of the logical
data range, in data-only coordinates where each block contributes
`guard_interval` bytes.  The loop of §4.F consumes
`take = min(data_len, guard_interval - p)` bytes per iteration, folds them
through the CRC (seeded with `guard_seed` at a block start, with the carried
`last_guard` otherwise), and on completing a block writes the PI (generate)
or checks it (verify).  Every iteration consumes at least one byte, so the
slice length itself serves as structural fuel. -/

/-- The fragment loop of `spdk_dif_generate_stream`: returns the updated
payload and the new `last_guard` state. -/
def streamGenAux (ctx : DifCtx) : Nat → List Nat → Nat → Nat → Nat → List Nat × Nat
  | 0, payload, _, _, lg => (payload, lg)
  | fuel + 1, payload, off, len, lg =>
    if len = 0 ∨ ctx.guardInterval = 0 then (payload, lg)
    else
      let gi := ctx.guardInterval
      let b := off / gi
      let p := off % gi
      let t := min len (gi - p)
      let seed := if p = 0 then ctx.guardSeed else lg
      let interim := ctxCrc ctx seed (readBytes payload (b * ctx.blockSize + p) t)
      if p + t = gi then
        streamGenAux ctx fuel (genPiBlockG ctx payload b interim) (off + t)
          (len - t) ctx.guardSeed
      else (payload, interim)

/-- The fragment loop of `spdk_dif_verify_stream`: returns the new
`last_guard` state, or the error record of the first failing block. -/
def streamVerAux (ctx : DifCtx) : Nat → List Nat → Nat → Nat → Nat → Except DifError Nat
  | 0, _, _, _, lg => .ok lg
  | fuel + 1, payload, off, len, lg =>
    if len = 0 ∨ ctx.guardInterval = 0 then .ok lg
    else
      let gi := ctx.guardInterval
      let b := off / gi
      let p := off % gi
      let t := min len (gi - p)
      let seed := if p = 0 then ctx.guardSeed else lg
      let interim := ctxCrc ctx seed (readBytes payload (b * ctx.blockSize + p) t)
      if p + t = gi then
        match verifyBlockG ctx payload b interim with
        | some e => .error e
        | none => streamVerAux ctx fuel payload (off + t) (len - t) ctx.guardSeed
      else .ok interim

/-- Modelled from the spec: `spdk_dif_generate_stream` (dif.h:381-383) —
process one slice, carrying `last_guard` and advancing `data_offset` in the
context (spec §4.F). -/
def spdk_dif_generate_stream (ctx : DifCtx) (payload : List Nat)
    (dataOffset dataLen : Nat) : List Nat × DifCtx :=
  let r := streamGenAux ctx dataLen payload dataOffset dataLen ctx.lastGuard
  (r.1, { ctx with lastGuard := r.2, dataOffset := ctx.dataOffset + dataLen })

/-- Modelled from the spec: `spdk_dif_verify_stream` (dif.h:396-399). -/
def spdk_dif_verify_stream (ctx : DifCtx) (payload : List Nat)
    (dataOffset dataLen : Nat) : Option DifError × DifCtx :=
  match streamVerAux ctx dataLen payload dataOffset dataLen ctx.lastGuard with
  | .error e => (some e, ctx)
  | .ok lg =>
    (none, { ctx with lastGuard := lg, dataOffset := ctx.dataOffset + dataLen })

/-- Apply `spdk_dif_generate_stream` once per fragment, in order. -/
def runGenStream : DifCtx → List Nat → List (Nat × Nat) → List Nat × DifCtx
  | ctx, payload, [] => (payload, ctx)
  | ctx, payload, f :: fs =>
    let r := spdk_dif_generate_stream ctx payload f.1 f.2
    runGenStream r.2 r.1 fs

/-- Apply `spdk_dif_verify_stream` once per fragment, in order, stopping at
the first reported error. -/
def runVerStream : DifCtx → List Nat → List (Nat × Nat) → Option DifError × DifCtx
  | ctx, _, [] => (none, ctx)
  | ctx, payload, f :: fs =>
    match spdk_dif_verify_stream ctx payload f.1 f.2 with
    | (some e, c) => (some e, c)
    | (none, c) => runVerStream c payload fs

/-- Fragments `(off_i, len_i)` partition a range in order, without overlap
and without gaps, starting at `c`. -/
def ConsecutiveFrom : Nat → List (Nat × Nat) → Prop
  | _, [] => True
  | c, f :: fs => f.1 = c ∧ ConsecutiveFrom (c + f.2) fs

instance (c : Nat) (fs : List (Nat × Nat)) : Decidable (ConsecutiveFrom c fs) := by
  induction fs generalizing c with
  | nil => exact .isTrue trivial
  | cons f fs ih =>
    unfold ConsecutiveFrom
    exact @instDecidableAnd _ _ _ (ih _)

/-- The `last_guard` state carried by the stream engine after `c` data bytes
(`guard_interval` bytes per block, spec §4.F): the guard seed at a block
boundary, otherwise the CRC of the current block's data prefix. -/
def streamState (ctx : DifCtx) (payload : List Nat) (c : Nat) : Nat :=
  if c % ctx.guardInterval = 0 then ctx.guardSeed
  else ctxCrc ctx ctx.guardSeed
    (readBytes payload (c / ctx.guardInterval * ctx.blockSize)
      (c % ctx.guardInterval))

/-! ## Supporting lemmas: PI geometry -/

/-- A small well-formed TYPE1 context: 16-bit PI format, 12-byte blocks with
8 bytes of metadata, PI in the first metadata slot (`guard_interval = 4`),
all three checks enabled. -/
def ctxT1 : DifCtx :=
  { blockSize := 12, guardInterval := 4, mdSize := 8, mdInterleave := true,
    difType := .type1, piFormat := .fmt16,
    flags := ⟨true, true, true, false⟩,
    initRefTag := 5, appTag := 0x1234, apptagMask := 0xFFFF,
    dataOffset := 0, refTagOffset := 0, remappedInitRefTag := 0,
    lastGuard := 0, guardSeed := 0 }

/-- A 24-byte all-zero payload (two `ctxT1` blocks). -/
def pay24 : List Nat := List.replicate 24 0

/-- The TYPE2 variant of `ctxT1`. -/
def ctxT2 : DifCtx := { ctxT1 with difType := .type2 }

/-- The TYPE3 variant of `ctxT1`. -/
def ctxT3 : DifCtx := { ctxT1 with difType := .type3 }

/-- The TYPE2 variant of `ctxT1` whose configured app tag is the `0xFFFF`
sentinel, so every generated block carries the app-tag skip sentinel. -/
def ctxT2FF : DifCtx := { ctxT2 with appTag := 0xFFFF }

/-- One `ctxT1` block whose stored app tag is the `0xFFFF` sentinel and whose
stored reference tag is all-ones, with garbage data and a wrong guard. -/
def payIgnore : List Nat :=
  [7, 7, 7, 7, 0xAB, 0xCD, 0xFF, 0xFF, 0xFF, 0xFF, 0xFF, 0xFF]

/-- `ctxT1` after `spdk_dif_ctx_set_remapped_init_ref_tag` with tag 77. -/
def ctxT1R : DifCtx := spdk_dif_ctx_set_remapped_init_ref_tag ctxT1 77

/-- `ctxT3` after `spdk_dif_ctx_set_remapped_init_ref_tag` with tag 77. -/
def ctxT3R : DifCtx := spdk_dif_ctx_set_remapped_init_ref_tag ctxT3 77

/-- The spec's scenario-5 context: 520-byte blocks, 8 bytes of metadata,
`guard_interval = 512`, TYPE1, 16-bit format, all checks. -/
def ctx520 : DifCtx :=
  { blockSize := 520, guardInterval := 512, mdSize := 8, mdInterleave := true,
    difType := .type1, piFormat := .fmt16,
    flags := ⟨true, true, true, false⟩,
    initRefTag := 0, appTag := 0x1234, apptagMask := 0xFFFF,
    dataOffset := 0, refTagOffset := 0, remappedInitRefTag := 0,
    lastGuard := 0, guardSeed := 0 }

/-! ## Claim C1 -/
theorem length_writeBytes (l : List Nat) (off : Nat) (v : List Nat)
    (h : off + v.length ≤ l.length) :
    (writeBytes l off v).length = l.length := by
  simp [writeBytes]
  omega

theorem writeBytes_getElem? (l : List Nat) (off : Nat) (v : List Nat)
    (h : off + v.length ≤ l.length) (i : Nat) :
    (writeBytes l off v)[i]? =
      if off ≤ i ∧ i < off + v.length then v[i - off]? else l[i]? := by
  simp only [writeBytes, List.getElem?_append, List.getElem?_take,
    List.getElem?_drop, List.length_append, List.length_take]
  have hmin : min off l.length = off := by omega
  rw [hmin]
  split_ifs <;> first | rfl | (exfalso; omega) | (congr 1; omega)

theorem readBytes_getElem? (l : List Nat) (off n i : Nat) :
    (readBytes l off n)[i]? = if i < n then l[off + i]? else none := by
  simp only [readBytes, List.getElem?_take, List.getElem?_drop]

theorem length_readBytes (l : List Nat) (off n : Nat)
    (h : off + n ≤ l.length) : (readBytes l off n).length = n := by
  simp only [readBytes, List.length_take, List.length_drop]
  omega

/-- Reading back exactly the written range returns the written value. -/
theorem readBytes_writeBytes_self (l : List Nat) (off : Nat) (v : List Nat)
    (h : off + v.length ≤ l.length) :
    readBytes (writeBytes l off v) off v.length = v := by
  apply List.ext_getElem?
  intro i
  rw [readBytes_getElem?, writeBytes_getElem? _ _ _ h]
  by_cases hi : i < v.length
  · rw [if_pos hi, if_pos (by omega)]
    congr 1
    omega
  · rw [if_neg hi, eq_comm, List.getElem?_eq_none_iff]
    omega

/-- A read whose range is disjoint from the written range is unaffected. -/
theorem readBytes_writeBytes_disjoint (l : List Nat) (off : Nat) (v : List Nat)
    (off2 n : Nat) (h : off + v.length ≤ l.length)
    (hdis : off2 + n ≤ off ∨ off + v.length ≤ off2) :
    readBytes (writeBytes l off v) off2 n = readBytes l off2 n := by
  apply List.ext_getElem?
  intro i
  rw [readBytes_getElem?, readBytes_getElem?]
  by_cases hi : i < n
  · rw [if_pos hi, if_pos hi, writeBytes_getElem? _ _ _ h, if_neg (by omega)]
  · rw [if_neg hi, if_neg hi]

/-! ## Big-endian field codec

Multi-byte PI fields are big-endian on the wire (spec §4.A, §6.2). -/
theorem length_bePut (n v : Nat) : (bePut n v).length = n := by
  induction n generalizing v with
  | zero => rfl
  | succ n ih => simp [bePut, ih]

theorem bePut_lt (n v : Nat) : ∀ b ∈ bePut n v, b < 256 := by
  induction n generalizing v with
  | zero => simp [bePut]
  | succ n ih =>
    simp only [bePut, List.mem_cons]
    rintro b (rfl | hb)
    · exact Nat.mod_lt _ (by norm_num)
    · exact ih _ b hb

theorem beVal_aux (l : List Nat) (acc : Nat) :
    l.foldl (fun acc b => acc * 256 + b) acc =
      acc * 256 ^ l.length + l.foldl (fun acc b => acc * 256 + b) 0 := by
  induction l generalizing acc with
  | nil => simp
  | cons b l ih =>
    simp only [List.foldl_cons, List.length_cons, Nat.zero_mul, Nat.zero_add]
    rw [ih (acc * 256 + b), ih b]
    ring

theorem beVal_lt (l : List Nat) (h : ∀ b ∈ l, b < 256) :
    beVal l < 256 ^ l.length := by
  induction l with
  | nil => simp [beVal]
  | cons b t ih =>
    have hb : b < 256 := h b (by simp)
    have ht := ih (fun x hx => h x (List.mem_cons_of_mem _ hx))
    simp only [beVal, List.foldl_cons, List.length_cons, Nat.zero_mul,
      Nat.zero_add] at *
    rw [beVal_aux]
    calc b * 256 ^ t.length + t.foldl (fun acc b => acc * 256 + b) 0
        < b * 256 ^ t.length + 256 ^ t.length := Nat.add_lt_add_left ht _
      _ = (b + 1) * 256 ^ t.length := by ring
      _ ≤ 256 ^ t.length * 256 := by
          rw [Nat.mul_comm (b + 1)]
          exact Nat.mul_le_mul_left _ (by omega)
      _ = 256 ^ (t.length + 1) := by rw [Nat.pow_succ]

theorem beVal_bePut (n v : Nat) : beVal (bePut n v) = v % 256 ^ n := by
  induction n generalizing v with
  | zero => simp [bePut, beVal, Nat.mod_one]
  | succ n ih =>
    simp only [bePut, beVal, List.foldl_cons, Nat.zero_mul, Nat.zero_add]
    rw [beVal_aux, length_bePut]
    have hih := ih (v % 256 ^ n)
    simp only [beVal] at hih
    rw [hih, Nat.mod_mod_of_dvd _ dvd_rfl, Nat.pow_succ, Nat.mod_mul]
    ring

/-! ## CRC guard primitives

The CRC-16-T10, CRC-32C and CRC-64-NVMe primitives are external collaborators
of the codec, "specified only by their seeds and polynomials" (spec §1, §6.2).
They are modelled bit-precisely as the standard MSB-first CRC over `w` bits
with polynomial `p`, chainable through a running seed. -/
theorem crcShift1_lt (w p t : Nat) (hp : p < 2 ^ w) :
    crcShift1 w p t < 2 ^ w := by
  have h2 : 0 < 2 ^ w := Nat.two_pow_pos w
  unfold crcShift1
  split
  · exact Nat.xor_lt_two_pow (Nat.mod_lt _ h2) hp
  · exact Nat.mod_lt _ h2

theorem crcShift1_inj (w p : Nat) (hw : 0 < w) (hp : p % 2 = 1)
    (t1 t2 : Nat) (h1 : t1 < 2 ^ w) (h2 : t2 < 2 ^ w)
    (heq : crcShift1 w p t1 = crcShift1 w p t2) : t1 = t2 := by
  have hw2 : 2 ^ w = 2 * 2 ^ (w - 1) := by
    conv_lhs => rw [show w = (w - 1) + 1 by omega]
    rw [Nat.pow_succ]
    ring
  unfold crcShift1 at heq
  split at heq <;> split at heq
  · have e1 : (2 * t1) % 2 ^ w = 2 * t1 - 2 ^ w := by
      rw [Nat.mod_eq_sub_mod (by omega)]
      exact Nat.mod_eq_of_lt (by omega)
    have e2 : (2 * t2) % 2 ^ w = 2 * t2 - 2 ^ w := by
      rw [Nat.mod_eq_sub_mod (by omega)]
      exact Nat.mod_eq_of_lt (by omega)
    have heq2 := congrArg (· ^^^ p) heq
    simp only [Nat.xor_cancel_right] at heq2
    rw [e1, e2] at heq2
    omega
  · have e1 : (2 * t1) % 2 ^ w = 2 * t1 - 2 ^ w := by
      rw [Nat.mod_eq_sub_mod (by omega)]
      exact Nat.mod_eq_of_lt (by omega)
    have e2 : (2 * t2) % 2 ^ w = 2 * t2 := Nat.mod_eq_of_lt (by omega)
    have hpar := congrArg (· % 2) heq
    simp only [Nat.xor_mod_two_eq] at hpar
    rw [e1, e2] at hpar
    omega
  · have e1 : (2 * t1) % 2 ^ w = 2 * t1 := Nat.mod_eq_of_lt (by omega)
    have e2 : (2 * t2) % 2 ^ w = 2 * t2 - 2 ^ w := by
      rw [Nat.mod_eq_sub_mod (by omega)]
      exact Nat.mod_eq_of_lt (by omega)
    have hpar := congrArg (· % 2) heq
    simp only [Nat.xor_mod_two_eq] at hpar
    rw [e1, e2] at hpar
    omega
  · have e1 : (2 * t1) % 2 ^ w = 2 * t1 := Nat.mod_eq_of_lt (by omega)
    have e2 : (2 * t2) % 2 ^ w = 2 * t2 := Nat.mod_eq_of_lt (by omega)
    rw [e1, e2] at heq
    omega

theorem crcShift1_iter_lt (w p t n : Nat) (hp : p < 2 ^ w) (ht : t < 2 ^ w) :
    (crcShift1 w p)^[n] t < 2 ^ w := by
  induction n generalizing t with
  | zero => simpa using ht
  | succ n ih =>
    rw [Function.iterate_succ_apply]
    exact ih _ (crcShift1_lt w p t hp)

theorem crcShift1_iter_inj (w p n : Nat) (hw : 0 < w) (hp : p % 2 = 1)
    (hplt : p < 2 ^ w) (t1 t2 : Nat) (h1 : t1 < 2 ^ w) (h2 : t2 < 2 ^ w)
    (heq : (crcShift1 w p)^[n] t1 = (crcShift1 w p)^[n] t2) : t1 = t2 := by
  induction n generalizing t1 t2 with
  | zero => simpa using heq
  | succ n ih =>
    rw [Function.iterate_succ_apply, Function.iterate_succ_apply] at heq
    exact crcShift1_inj w p hw hp t1 t2 h1 h2
      (ih _ _ (crcShift1_lt w p t1 hplt) (crcShift1_lt w p t2 hplt) heq)

theorem crcByte_lt (w p s b : Nat) (hw : 8 ≤ w) (hp : p < 2 ^ w)
    (hs : s < 2 ^ w) (hb : b < 256) : crcByte w p s b < 2 ^ w := by
  have hmul : b * 2 ^ (w - 8) < 2 ^ w := by
    calc b * 2 ^ (w - 8) < 256 * 2 ^ (w - 8) :=
          (Nat.mul_lt_mul_right (Nat.two_pow_pos _)).mpr hb
      _ = 2 ^ 8 * 2 ^ (w - 8) := by norm_num
      _ = 2 ^ w := by
          rw [← Nat.pow_add]
          congr 1
          omega
  exact crcShift1_iter_lt w p _ 8 hp (Nat.xor_lt_two_pow hs hmul)

theorem crcByte_inj_state (w p s1 s2 b : Nat) (hw : 8 ≤ w) (hp : p % 2 = 1)
    (hplt : p < 2 ^ w) (h1 : s1 < 2 ^ w) (h2 : s2 < 2 ^ w) (hb : b < 256)
    (heq : crcByte w p s1 b = crcByte w p s2 b) : s1 = s2 := by
  have hmul : b * 2 ^ (w - 8) < 2 ^ w := by
    calc b * 2 ^ (w - 8) < 256 * 2 ^ (w - 8) :=
          (Nat.mul_lt_mul_right (Nat.two_pow_pos _)).mpr hb
      _ = 2 ^ 8 * 2 ^ (w - 8) := by norm_num
      _ = 2 ^ w := by
          rw [← Nat.pow_add]
          congr 1
          omega
  have := crcShift1_iter_inj w p 8 (by omega) hp hplt _ _
    (Nat.xor_lt_two_pow h1 hmul) (Nat.xor_lt_two_pow h2 hmul) heq
  have h3 := congrArg (· ^^^ b * 2 ^ (w - 8)) this
  simpa only [Nat.xor_cancel_right] using h3

theorem crcByte_inj_byte (w p s b1 b2 : Nat) (hw : 8 ≤ w) (hp : p % 2 = 1)
    (hplt : p < 2 ^ w) (hs : s < 2 ^ w) (hb1 : b1 < 256) (hb2 : b2 < 256)
    (heq : crcByte w p s b1 = crcByte w p s b2) : b1 = b2 := by
  have hmul : ∀ b, b < 256 → b * 2 ^ (w - 8) < 2 ^ w := by
    intro b hb
    calc b * 2 ^ (w - 8) < 256 * 2 ^ (w - 8) :=
          (Nat.mul_lt_mul_right (Nat.two_pow_pos _)).mpr hb
      _ = 2 ^ 8 * 2 ^ (w - 8) := by norm_num
      _ = 2 ^ w := by
          rw [← Nat.pow_add]
          congr 1
          omega
  have := crcShift1_iter_inj w p 8 (by omega) hp hplt _ _
    (Nat.xor_lt_two_pow hs (hmul b1 hb1)) (Nat.xor_lt_two_pow hs (hmul b2 hb2)) heq
  have h3 := Nat.xor_right_injective this
  exact Nat.eq_of_mul_eq_mul_right (Nat.two_pow_pos _) h3

theorem crcBytes_append (w p s : Nat) (a b : List Nat) :
    crcBytes w p s (a ++ b) = crcBytes w p (crcBytes w p s a) b := by
  simp [crcBytes, List.foldl_append]

theorem crcBytes_lt (w p s : Nat) (l : List Nat) (hw : 8 ≤ w) (hp : p < 2 ^ w)
    (hs : s < 2 ^ w) (hl : ∀ b ∈ l, b < 256) : crcBytes w p s l < 2 ^ w := by
  induction l generalizing s with
  | nil => simpa [crcBytes] using hs
  | cons b t ih =>
    simp only [crcBytes, List.foldl_cons]
    exact ih _ (crcByte_lt w p s b hw hp hs (hl b (by simp)))
      (fun x hx => hl x (List.mem_cons_of_mem _ hx))

theorem crcBytes_inj_state (w p s1 s2 : Nat) (l : List Nat) (hw : 8 ≤ w)
    (hp : p % 2 = 1) (hplt : p < 2 ^ w) (h1 : s1 < 2 ^ w) (h2 : s2 < 2 ^ w)
    (hl : ∀ b ∈ l, b < 256)
    (heq : crcBytes w p s1 l = crcBytes w p s2 l) : s1 = s2 := by
  induction l generalizing s1 s2 with
  | nil => simpa [crcBytes] using heq
  | cons b t ih =>
    simp only [crcBytes, List.foldl_cons] at heq
    have hb : b < 256 := hl b (by simp)
    exact crcByte_inj_state w p s1 s2 b hw hp hplt h1 h2 hb
      (ih _ _ (crcByte_lt w p s1 b hw hplt h1 hb)
        (crcByte_lt w p s2 b hw hplt h2 hb)
        (fun x hx => hl x (List.mem_cons_of_mem _ hx)) heq)

/-- A CRC with an odd polynomial detects any single changed byte. -/
theorem crcBytes_flip_ne (w p s : Nat) (xs ys : List Nat) (b b' : Nat)
    (hw : 8 ≤ w) (hp : p % 2 = 1) (hplt : p < 2 ^ w) (hs : s < 2 ^ w)
    (hxs : ∀ x ∈ xs, x < 256) (hys : ∀ x ∈ ys, x < 256)
    (hb : b < 256) (hb' : b' < 256) (hne : b ≠ b') :
    crcBytes w p s (xs ++ b :: ys) ≠ crcBytes w p s (xs ++ b' :: ys) := by
  intro heq
  rw [crcBytes_append, crcBytes_append] at heq
  set s1 := crcBytes w p s xs with hs1
  have hs1lt : s1 < 2 ^ w := crcBytes_lt w p s xs hw hplt hs hxs
  simp only [crcBytes, List.foldl_cons] at heq
  have hstep : crcByte w p s1 b = crcByte w p s1 b' := by
    refine crcBytes_inj_state w p _ _ ys hw hp hplt ?_ ?_ hys heq
    · exact crcByte_lt w p s1 b hw hplt hs1lt hb
    · exact crcByte_lt w p s1 b' hw hplt hs1lt hb'
  exact hne (crcByte_inj_byte w p s1 b b' hw hp hplt hs1lt hb hb' hstep)

/-! ## DIF data model (dif.h: `spdk_dif_type`, `spdk_dif_pi_format`,
`spdk_dif_ctx`, `spdk_dif_error`) -/
theorem fmt_geom (f : PiFormat) :
    guardBytes f + 2 ≤ refOffset f ∧ refOffset f + refBytes f ≤ piSize f ∧
      8 ≤ guardWidth f ∧ refSigBits f ≤ 8 * refBytes f ∧ 0 < guardBytes f := by
  cases f <;> decide

theorem poly_facts (f : PiFormat) :
    guardPoly f % 2 = 1 ∧ guardPoly f < 2 ^ guardWidth f := by
  cases f <;> decide

theorem refWidth_le_sig (ctx : DifCtx) :
    refWidthBits ctx ≤ refSigBits ctx.piFormat := by
  unfold refWidthBits
  cases ctx.difType <;> cases ctx.piFormat <;> decide

theorem two_pow_8mul (n : Nat) : (256 : Nat) ^ n = 2 ^ (8 * n) := by
  rw [show (256 : Nat) = 2 ^ 8 from rfl, ← pow_mul]

/-- The generated reference tag always fits the on-wire field. -/
theorem genRefTag_lt (ctx : DifCtx) (i : Nat) :
    genRefTag ctx i < 2 ^ (8 * refBytes ctx.piFormat) := by
  have hsig : refSigBits ctx.piFormat ≤ 8 * refBytes ctx.piFormat :=
    (fmt_geom ctx.piFormat).2.2.2.1
  have hw : refWidthBits ctx ≤ refSigBits ctx.piFormat := refWidth_le_sig ctx
  have hmono := Nat.pow_le_pow_right (by norm_num : 0 < 2) hsig
  have hmono2 := Nat.pow_le_pow_right (by norm_num : 0 < 2) hw
  unfold genRefTag
  cases hty : ctx.difType
  all_goals simp only []
  case type3 =>
    unfold refSentinel
    have := Nat.two_pow_pos (refSigBits ctx.piFormat)
    omega
  all_goals
    unfold expectedRefTag
    have := Nat.mod_lt (ctx.initRefTag + ctx.refTagOffset + i)
      (Nat.two_pow_pos (refWidthBits ctx))
    omega

/-- `crcByte` is bounded whatever its inputs: the final shift step already
reduces modulo `2 ^ w`. -/
theorem crcByte_ltu (w p s b : Nat) (hp : p < 2 ^ w) :
    crcByte w p s b < 2 ^ w := by
  unfold crcByte
  rw [show (8 : Nat) = 7 + 1 from rfl, Function.iterate_succ_apply']
  exact crcShift1_lt w p _ hp

theorem crcBytes_ltu (w p s : Nat) (l : List Nat) (hp : p < 2 ^ w)
    (hs : s < 2 ^ w) : crcBytes w p s l < 2 ^ w := by
  induction l generalizing s with
  | nil => simpa [crcBytes] using hs
  | cons b t ih =>
    simp only [crcBytes, List.foldl_cons]
    exact ih _ (crcByte_ltu w p s b hp)

/-- The recomputed guard always fits the on-wire field. -/
theorem computedGuard_lt (ctx : DifCtx) (payload : List Nat) (i : Nat)
    (hseed : ctx.guardSeed < 2 ^ guardWidth ctx.piFormat) :
    computedGuard ctx payload i < 2 ^ guardWidth ctx.piFormat := by
  unfold computedGuard ctxCrc
  exact crcBytes_ltu _ _ _ _ (poly_facts ctx.piFormat).2 hseed

/-! ## Supporting lemmas: reading back written PI tuples -/
theorem length_writePi (ctx : DifCtx) (payload : List Nat) (i g a r : Nat)
    (h : piBase ctx i + piSize ctx.piFormat ≤ payload.length) :
    (writePi ctx payload i g a r).length = payload.length := by
  obtain ⟨h1, h2, h3, h4, h5⟩ := fmt_geom ctx.piFormat
  have e1 := length_writeBytes payload (piBase ctx i)
    (bePut (guardBytes ctx.piFormat) g) (by (try rw [length_bePut]); omega)
  have e2 := length_writeBytes
    (writeBytes payload (piBase ctx i) (bePut (guardBytes ctx.piFormat) g))
    (piBase ctx i + guardBytes ctx.piFormat) (bePut 2 a)
    (by rw [length_bePut, e1]; omega)
  have e3 := length_writeBytes
    (writeBytes
      (writeBytes payload (piBase ctx i) (bePut (guardBytes ctx.piFormat) g))
      (piBase ctx i + guardBytes ctx.piFormat) (bePut 2 a))
    (piBase ctx i + refOffset ctx.piFormat) (bePut (refBytes ctx.piFormat) r)
    (by rw [length_bePut, e2, e1]; omega)
  unfold writePi
  rw [e3, e2, e1]

theorem readGuard_writePi (ctx : DifCtx) (payload : List Nat) (i g a r : Nat)
    (h : piBase ctx i + piSize ctx.piFormat ≤ payload.length) :
    readGuard ctx (writePi ctx payload i g a r) i =
      g % 2 ^ (8 * guardBytes ctx.piFormat) := by
  obtain ⟨h1, h2, h3, h4, h5⟩ := fmt_geom ctx.piFormat
  have e1 := length_writeBytes payload (piBase ctx i)
    (bePut (guardBytes ctx.piFormat) g) (by (try rw [length_bePut]); omega)
  have e2 := length_writeBytes
    (writeBytes payload (piBase ctx i) (bePut (guardBytes ctx.piFormat) g))
    (piBase ctx i + guardBytes ctx.piFormat) (bePut 2 a)
    (by rw [length_bePut, e1]; omega)
  unfold readGuard writePi
  rw [readBytes_writeBytes_disjoint _ _ _ _ _
      (by rw [length_bePut, e2, e1]; omega)
      (Or.inl (by (try rw [length_bePut]); omega)),
    readBytes_writeBytes_disjoint _ _ _ _ _
      (by rw [length_bePut, e1]; omega)
      (Or.inl (by (try rw [length_bePut]); omega))]
  have := readBytes_writeBytes_self payload (piBase ctx i)
    (bePut (guardBytes ctx.piFormat) g) (by (try rw [length_bePut]); omega)
  rw [length_bePut] at this
  rw [this, beVal_bePut, two_pow_8mul]

theorem readApp_writePi (ctx : DifCtx) (payload : List Nat) (i g a r : Nat)
    (h : piBase ctx i + piSize ctx.piFormat ≤ payload.length) :
    readApp ctx (writePi ctx payload i g a r) i = a % 2 ^ 16 := by
  obtain ⟨h1, h2, h3, h4, h5⟩ := fmt_geom ctx.piFormat
  have e1 := length_writeBytes payload (piBase ctx i)
    (bePut (guardBytes ctx.piFormat) g) (by (try rw [length_bePut]); omega)
  have e2 := length_writeBytes
    (writeBytes payload (piBase ctx i) (bePut (guardBytes ctx.piFormat) g))
    (piBase ctx i + guardBytes ctx.piFormat) (bePut 2 a)
    (by rw [length_bePut, e1]; omega)
  unfold readApp writePi
  rw [readBytes_writeBytes_disjoint _ _ _ _ _
      (by rw [length_bePut, e2, e1]; omega)
      (Or.inl (by (try rw [length_bePut]); omega))]
  have := readBytes_writeBytes_self
    (writeBytes payload (piBase ctx i) (bePut (guardBytes ctx.piFormat) g))
    (piBase ctx i + guardBytes ctx.piFormat) (bePut 2 a)
    (by rw [length_bePut, e1]; omega)
  rw [length_bePut] at this
  rw [this, beVal_bePut]
  norm_num

theorem readRef_writePi (ctx : DifCtx) (payload : List Nat) (i g a r : Nat)
    (h : piBase ctx i + piSize ctx.piFormat ≤ payload.length) :
    readRef ctx (writePi ctx payload i g a r) i =
      r % 2 ^ (8 * refBytes ctx.piFormat) := by
  obtain ⟨h1, h2, h3, h4, h5⟩ := fmt_geom ctx.piFormat
  have e1 := length_writeBytes payload (piBase ctx i)
    (bePut (guardBytes ctx.piFormat) g) (by (try rw [length_bePut]); omega)
  have e2 := length_writeBytes
    (writeBytes payload (piBase ctx i) (bePut (guardBytes ctx.piFormat) g))
    (piBase ctx i + guardBytes ctx.piFormat) (bePut 2 a)
    (by rw [length_bePut, e1]; omega)
  unfold readRef writePi
  have := readBytes_writeBytes_self
    (writeBytes
      (writeBytes payload (piBase ctx i) (bePut (guardBytes ctx.piFormat) g))
      (piBase ctx i + guardBytes ctx.piFormat) (bePut 2 a))
    (piBase ctx i + refOffset ctx.piFormat) (bePut (refBytes ctx.piFormat) r)
    (by rw [length_bePut, e2, e1]; omega)
  rw [length_bePut] at this
  rw [this, beVal_bePut, two_pow_8mul]

/-- Any read disjoint from block `i`'s PI slot is unaffected by `writePi`. -/
theorem readBytes_writePi_disjoint (ctx : DifCtx) (payload : List Nat)
    (i g a r off n : Nat)
    (h : piBase ctx i + piSize ctx.piFormat ≤ payload.length)
    (hdis : off + n ≤ piBase ctx i ∨
      piBase ctx i + piSize ctx.piFormat ≤ off) :
    readBytes (writePi ctx payload i g a r) off n = readBytes payload off n := by
  obtain ⟨h1, h2, h3, h4, h5⟩ := fmt_geom ctx.piFormat
  have e1 := length_writeBytes payload (piBase ctx i)
    (bePut (guardBytes ctx.piFormat) g) (by (try rw [length_bePut]); omega)
  have e2 := length_writeBytes
    (writeBytes payload (piBase ctx i) (bePut (guardBytes ctx.piFormat) g))
    (piBase ctx i + guardBytes ctx.piFormat) (bePut 2 a)
    (by rw [length_bePut, e1]; omega)
  unfold writePi
  rw [readBytes_writeBytes_disjoint _ _ _ _ _
      (by rw [length_bePut, e2, e1]; omega)
      (by (try rw [length_bePut]); omega),
    readBytes_writeBytes_disjoint _ _ _ _ _
      (by rw [length_bePut, e1]; omega)
      (by (try rw [length_bePut]); omega),
    readBytes_writeBytes_disjoint _ _ _ _ _
      (by (try rw [length_bePut]); omega)
      (by (try rw [length_bePut]); omega)]

/-! ## Supporting lemmas: block geometry and generation -/
theorem piBase_fits (ctx : DifCtx) (hwf : WfCtx ctx) (i num : Nat)
    (hi : i < num) :
    piBase ctx i + piSize ctx.piFormat ≤ num * ctx.blockSize := by
  obtain ⟨_, h2, _, _, _, _, _⟩ := hwf
  have hmul : (i + 1) * ctx.blockSize ≤ num * ctx.blockSize :=
    Nat.mul_le_mul_right _ hi
  rw [Nat.succ_mul] at hmul
  unfold piBase
  omega

theorem length_genPiBlockG (ctx : DifCtx) (payload : List Nat) (i gval : Nat)
    (h : piBase ctx i + piSize ctx.piFormat ≤ payload.length) :
    (genPiBlockG ctx payload i gval).length = payload.length :=
  length_writePi ctx payload i _ _ _ h

theorem readGuard_genPiBlockG (ctx : DifCtx) (payload : List Nat) (i gval : Nat)
    (h : piBase ctx i + piSize ctx.piFormat ≤ payload.length) :
    readGuard ctx (genPiBlockG ctx payload i gval) i =
      (if ctx.flags.guardCheck then gval else 0) %
        2 ^ (8 * guardBytes ctx.piFormat) :=
  readGuard_writePi ctx payload i _ _ _ h

theorem readApp_genPiBlockG (ctx : DifCtx) (payload : List Nat) (i gval : Nat)
    (h : piBase ctx i + piSize ctx.piFormat ≤ payload.length) :
    readApp ctx (genPiBlockG ctx payload i gval) i =
      (if ctx.flags.apptagCheck then ctx.appTag else readApp ctx payload i) %
        2 ^ 16 :=
  readApp_writePi ctx payload i _ _ _ h

theorem readRef_genPiBlockG (ctx : DifCtx) (payload : List Nat) (i gval : Nat)
    (h : piBase ctx i + piSize ctx.piFormat ≤ payload.length) :
    readRef ctx (genPiBlockG ctx payload i gval) i =
      (if ctx.flags.reftagCheck then genRefTag ctx i else 0) %
        2 ^ (8 * refBytes ctx.piFormat) :=
  readRef_writePi ctx payload i _ _ _ h

theorem readBytes_genPiBlockG_disjoint (ctx : DifCtx) (payload : List Nat)
    (i gval off n : Nat)
    (h : piBase ctx i + piSize ctx.piFormat ≤ payload.length)
    (hdis : off + n ≤ piBase ctx i ∨
      piBase ctx i + piSize ctx.piFormat ≤ off) :
    readBytes (genPiBlockG ctx payload i gval) off n =
      readBytes payload off n :=
  readBytes_writePi_disjoint ctx payload i _ _ _ off n h hdis

/-- Writing block `j`'s PI never touches any block's first `guard_interval`
bytes, so recomputed guards are invariant. -/
theorem computedGuard_genPiBlockG (ctx : DifCtx) (payload : List Nat)
    (j gval i : Nat) (hwf : WfCtx ctx)
    (h : piBase ctx j + piSize ctx.piFormat ≤ payload.length) :
    computedGuard ctx (genPiBlockG ctx payload j gval) i =
      computedGuard ctx payload i := by
  obtain ⟨hgi, h2, h3, h4, _, _, _⟩ := hwf
  unfold computedGuard
  congr 1
  apply readBytes_genPiBlockG_disjoint ctx payload j gval _ _ h
  unfold piBase
  rcases le_or_lt i j with hij | hij
  · have hmul : i * ctx.blockSize ≤ j * ctx.blockSize :=
      Nat.mul_le_mul_right _ hij
    omega
  · have hmul : (j + 1) * ctx.blockSize ≤ i * ctx.blockSize :=
      Nat.mul_le_mul_right _ hij
    rw [Nat.succ_mul] at hmul
    omega

/-- Reads inside block `i`'s PI slot are unaffected by generating block
`j ≠ i`. -/
theorem readBytes_genPiBlockG_inPi_other (ctx : DifCtx) (payload : List Nat)
    (j gval i o n : Nat) (hij : i ≠ j) (hwf : WfCtx ctx)
    (hon : o + n ≤ piSize ctx.piFormat)
    (h : piBase ctx j + piSize ctx.piFormat ≤ payload.length) :
    readBytes (genPiBlockG ctx payload j gval) (piBase ctx i + o) n =
      readBytes payload (piBase ctx i + o) n := by
  obtain ⟨hgi, h2, h3, h4, _, _, _⟩ := hwf
  apply readBytes_genPiBlockG_disjoint ctx payload j gval _ _ h
  unfold piBase
  rcases Nat.lt_or_ge i j with hij2 | hij2
  · have hmul : (i + 1) * ctx.blockSize ≤ j * ctx.blockSize :=
      Nat.mul_le_mul_right _ hij2
    rw [Nat.succ_mul] at hmul
    omega
  · have hij3 : j < i := by omega
    have hmul : (j + 1) * ctx.blockSize ≤ i * ctx.blockSize :=
      Nat.mul_le_mul_right _ hij3
    rw [Nat.succ_mul] at hmul
    omega

theorem readGuard_genPiBlockG_other (ctx : DifCtx) (payload : List Nat)
    (j gval i : Nat) (hij : i ≠ j) (hwf : WfCtx ctx)
    (h : piBase ctx j + piSize ctx.piFormat ≤ payload.length) :
    readGuard ctx (genPiBlockG ctx payload j gval) i = readGuard ctx payload i := by
  obtain ⟨hg1, hg2, _, _, hg5⟩ := fmt_geom ctx.piFormat
  unfold readGuard
  rw [show piBase ctx i = piBase ctx i + 0 from rfl,
    readBytes_genPiBlockG_inPi_other ctx payload j gval i 0 _ hij hwf
      (by omega) h]

theorem readApp_genPiBlockG_other (ctx : DifCtx) (payload : List Nat)
    (j gval i : Nat) (hij : i ≠ j) (hwf : WfCtx ctx)
    (h : piBase ctx j + piSize ctx.piFormat ≤ payload.length) :
    readApp ctx (genPiBlockG ctx payload j gval) i = readApp ctx payload i := by
  obtain ⟨hg1, hg2, _, _, hg5⟩ := fmt_geom ctx.piFormat
  unfold readApp
  rw [readBytes_genPiBlockG_inPi_other ctx payload j gval i _ _ hij hwf
    (by omega) h]

theorem readRef_genPiBlockG_other (ctx : DifCtx) (payload : List Nat)
    (j gval i : Nat) (hij : i ≠ j) (hwf : WfCtx ctx)
    (h : piBase ctx j + piSize ctx.piFormat ≤ payload.length) :
    readRef ctx (genPiBlockG ctx payload j gval) i = readRef ctx payload i := by
  obtain ⟨hg1, hg2, _, _, hg5⟩ := fmt_geom ctx.piFormat
  unfold readRef
  rw [readBytes_genPiBlockG_inPi_other ctx payload j gval i _ _ hij hwf
    (by omega) h]

theorem length_difGenerateBlocks (ctx : DifCtx) (hwf : WfCtx ctx) (n : Nat) :
    ∀ (i : Nat) (payload : List Nat),
      (i + n) * ctx.blockSize ≤ payload.length →
      (difGenerateBlocks ctx i n payload).length = payload.length := by
  induction n with
  | zero => intro i payload _; rfl
  | succ n ih =>
    intro i payload h
    have h' : (i + n + 1) * ctx.blockSize ≤ payload.length := by
      rw [show i + n + 1 = i + (n + 1) by omega]
      exact h
    have hfit : piBase ctx i + piSize ctx.piFormat ≤ payload.length :=
      le_trans (piBase_fits ctx hwf i (i + n + 1) (by omega)) h'
    have hq : (genPiBlock ctx payload i).length = payload.length := by
      unfold genPiBlock
      exact length_genPiBlockG ctx payload i _ hfit
    simp only [difGenerateBlocks]
    rw [ih (i + 1) (genPiBlock ctx payload i)
      (by rw [hq]; rw [show i + 1 + n = i + n + 1 by omega]; exact h'), hq]

theorem readBytes_difGenerateBlocks_disjoint (ctx : DifCtx) (hwf : WfCtx ctx)
    (n : Nat) :
    ∀ (i : Nat) (payload : List Nat) (off m : Nat),
      (i + n) * ctx.blockSize ≤ payload.length →
      (∀ j, i ≤ j → j < i + n →
        off + m ≤ piBase ctx j ∨ piBase ctx j + piSize ctx.piFormat ≤ off) →
      readBytes (difGenerateBlocks ctx i n payload) off m =
        readBytes payload off m := by
  induction n with
  | zero => intro i payload off m _ _; rfl
  | succ n ih =>
    intro i payload off m h hdis
    have h' : (i + n + 1) * ctx.blockSize ≤ payload.length := by
      rw [show i + n + 1 = i + (n + 1) by omega]
      exact h
    have hfit : piBase ctx i + piSize ctx.piFormat ≤ payload.length :=
      le_trans (piBase_fits ctx hwf i (i + n + 1) (by omega)) h'
    have hq : (genPiBlock ctx payload i).length = payload.length := by
      unfold genPiBlock
      exact length_genPiBlockG ctx payload i _ hfit
    simp only [difGenerateBlocks]
    rw [ih (i + 1) (genPiBlock ctx payload i) off m
      (by rw [hq]; rw [show i + 1 + n = i + n + 1 by omega]; exact h')
      (fun j hj1 hj2 => hdis j (by omega) (by omega))]
    unfold genPiBlock
    exact readBytes_genPiBlockG_disjoint ctx payload i _ off m hfit
      (hdis i le_rfl (by omega))

/-- Recomputed guards are invariant under bulk generation. -/
theorem computedGuard_difGenerateBlocks (ctx : DifCtx) (hwf : WfCtx ctx)
    (n i k : Nat) (payload : List Nat)
    (h : (i + n) * ctx.blockSize ≤ payload.length) :
    computedGuard ctx (difGenerateBlocks ctx i n payload) k =
      computedGuard ctx payload k := by
  have h2 := hwf.2.1
  unfold computedGuard
  congr 1
  apply readBytes_difGenerateBlocks_disjoint ctx hwf n i payload _ _ h
  intro j hj1 hj2
  unfold piBase
  rcases le_or_lt k j with hkj | hkj
  · have hmul : k * ctx.blockSize ≤ j * ctx.blockSize :=
      Nat.mul_le_mul_right _ hkj
    omega
  · have hmul : (j + 1) * ctx.blockSize ≤ k * ctx.blockSize :=
      Nat.mul_le_mul_right _ hkj
    rw [Nat.succ_mul] at hmul
    omega

/-- Reads inside block `k`'s PI slot with `k < i` are unaffected by
generating blocks `i, ..., i+n-1`. -/
theorem readBytes_difGenerateBlocks_inPi_lt (ctx : DifCtx) (hwf : WfCtx ctx)
    (n i k o m : Nat) (payload : List Nat) (hk : k < i)
    (hom : o + m ≤ piSize ctx.piFormat)
    (h : (i + n) * ctx.blockSize ≤ payload.length) :
    readBytes (difGenerateBlocks ctx i n payload) (piBase ctx k + o) m =
      readBytes payload (piBase ctx k + o) m := by
  have h2 := hwf.2.1
  apply readBytes_difGenerateBlocks_disjoint ctx hwf n i payload _ _ h
  intro j hj1 hj2
  unfold piBase
  have hkj : k < j := by omega
  have hmul : (k + 1) * ctx.blockSize ≤ j * ctx.blockSize :=
    Nat.mul_le_mul_right _ hkj
  rw [Nat.succ_mul] at hmul
  omega

theorem readGuard_difGenerateBlocks_lt (ctx : DifCtx) (hwf : WfCtx ctx)
    (n i k : Nat) (payload : List Nat) (hk : k < i)
    (h : (i + n) * ctx.blockSize ≤ payload.length) :
    readGuard ctx (difGenerateBlocks ctx i n payload) k =
      readGuard ctx payload k := by
  obtain ⟨hg1, hg2, _, _, hg5⟩ := fmt_geom ctx.piFormat
  unfold readGuard
  rw [show piBase ctx k = piBase ctx k + 0 from rfl,
    readBytes_difGenerateBlocks_inPi_lt ctx hwf n i k 0 _ payload hk
      (by omega) h]

theorem readApp_difGenerateBlocks_lt (ctx : DifCtx) (hwf : WfCtx ctx)
    (n i k : Nat) (payload : List Nat) (hk : k < i)
    (h : (i + n) * ctx.blockSize ≤ payload.length) :
    readApp ctx (difGenerateBlocks ctx i n payload) k =
      readApp ctx payload k := by
  obtain ⟨hg1, hg2, _, _, hg5⟩ := fmt_geom ctx.piFormat
  unfold readApp
  rw [readBytes_difGenerateBlocks_inPi_lt ctx hwf n i k _ _ payload hk
    (by omega) h]

theorem readRef_difGenerateBlocks_lt (ctx : DifCtx) (hwf : WfCtx ctx)
    (n i k : Nat) (payload : List Nat) (hk : k < i)
    (h : (i + n) * ctx.blockSize ≤ payload.length) :
    readRef ctx (difGenerateBlocks ctx i n payload) k =
      readRef ctx payload k := by
  obtain ⟨hg1, hg2, _, _, hg5⟩ := fmt_geom ctx.piFormat
  unfold readRef
  rw [readBytes_difGenerateBlocks_inPi_lt ctx hwf n i k _ _ payload hk
    (by omega) h]

/-! ## Supporting lemmas: characterizing per-block verification -/
theorem verifyBlockG_eq_none_iff (ctx : DifCtx) (payload : List Nat)
    (i g : Nat) :
    verifyBlockG ctx payload i g = none ↔
      (skipPiCheck ctx payload i ∨
        (¬guardSubFailsG ctx payload i g ∧ ¬apptagSubFails ctx payload i ∧
          ¬reftagSubFails ctx payload i)) := by
  unfold verifyBlockG
  split_ifs with h1 h2 h3 h4 <;> simp_all

theorem verifyBlockG_eq_some_iff (ctx : DifCtx) (payload : List Nat)
    (i g : Nat) (e : DifError) :
    verifyBlockG ctx payload i g = some e ↔
      ¬skipPiCheck ctx payload i ∧
        ((guardSubFailsG ctx payload i g ∧
            e = ⟨.guard, readGuard ctx payload i, g, i⟩) ∨
          (¬guardSubFailsG ctx payload i g ∧ apptagSubFails ctx payload i ∧
            e = ⟨.apptag, ctx.appTag &&& ctx.apptagMask,
              readApp ctx payload i &&& ctx.apptagMask, i⟩) ∨
          (¬guardSubFailsG ctx payload i g ∧ ¬apptagSubFails ctx payload i ∧
            reftagSubFails ctx payload i ∧
            e = ⟨.reftag, genRefTag ctx i, readRef ctx payload i, i⟩)) := by
  unfold verifyBlockG
  split_ifs with h1 h2 h3 h4 <;>
    simp_all <;>
    (try tauto)

/-- A freshly generated block always verifies (all checks enabled). -/
theorem verifyBlock_after_generate (ctx : DifCtx) (hwf : WfCtx ctx)
    (payload payload2 : List Nat) (i : Nat)
    (hg : readGuard ctx payload2 i =
      computedGuard ctx payload i % 2 ^ (8 * guardBytes ctx.piFormat))
    (ha : readApp ctx payload2 i = ctx.appTag % 2 ^ 16)
    (hr : readRef ctx payload2 i =
      genRefTag ctx i % 2 ^ (8 * refBytes ctx.piFormat))
    (hc : computedGuard ctx payload2 i = computedGuard ctx payload i) :
    verifyBlock ctx payload2 i = none := by
  have hseed := hwf.2.2.2.2.2.2
  have happ : ctx.appTag < 2 ^ 16 := hwf.2.2.2.2.1
  have hglt : computedGuard ctx payload i < 2 ^ (8 * guardBytes ctx.piFormat) := by
    have := computedGuard_lt ctx payload i hseed
    unfold guardWidth at this
    exact this
  have hrlt := genRefTag_lt ctx i
  unfold verifyBlock
  rw [verifyBlockG_eq_none_iff]
  by_cases hskip : skipPiCheck ctx payload2 i
  · exact Or.inl hskip
  · refine Or.inr ⟨?_, ?_, ?_⟩
    · intro hgf
      exact hgf.2 (by rw [hg, hc, Nat.mod_eq_of_lt hglt])
    · intro haf
      exact haf.2.2 (by rw [ha, Nat.mod_eq_of_lt happ])
    · intro hrf
      have hre : readRef ctx payload2 i = genRefTag ctx i := by
        rw [hr, Nat.mod_eq_of_lt hrlt]
      rcases hrf.2 with ⟨hty, hne⟩ | ⟨hty, hne⟩
      · apply hne
        rw [hre]
        unfold genRefTag
        rcases hty with h | h <;> rw [h]
      · apply hne
        rw [hre]
        unfold genRefTag
        rw [hty]

/-- Bulk verification succeeds on a bulk-generated payload (all three checks
enabled). -/
theorem difVerifyBlocks_generated (ctx : DifCtx) (hwf : WfCtx ctx)
    (hG : ctx.flags.guardCheck = true) (hA : ctx.flags.apptagCheck = true)
    (hR : ctx.flags.reftagCheck = true) (n : Nat) :
    ∀ (i : Nat) (payload : List Nat),
      (i + n) * ctx.blockSize ≤ payload.length →
      difVerifyBlocks ctx i n (difGenerateBlocks ctx i n payload) = none := by
  induction n with
  | zero => intro i payload _; rfl
  | succ n ih =>
    intro i payload h
    have h' : (i + n + 1) * ctx.blockSize ≤ payload.length := by
      rw [show i + n + 1 = i + (n + 1) by omega]
      exact h
    have hfit : piBase ctx i + piSize ctx.piFormat ≤ payload.length :=
      le_trans (piBase_fits ctx hwf i (i + n + 1) (by omega)) h'
    have hq : (genPiBlock ctx payload i).length = payload.length := by
      unfold genPiBlock
      exact length_genPiBlockG ctx payload i _ hfit
    have hlenq : (i + 1 + n) * ctx.blockSize ≤
        (genPiBlock ctx payload i).length := by
      rw [hq, show i + 1 + n = i + n + 1 by omega]
      exact h'
    simp only [difGenerateBlocks, difVerifyBlocks]
    have hv : verifyBlock ctx
        (difGenerateBlocks ctx (i + 1) n (genPiBlock ctx payload i)) i = none := by
      apply verifyBlock_after_generate ctx hwf payload _ i
      · rw [readGuard_difGenerateBlocks_lt ctx hwf n (i + 1) i _ (by omega) hlenq]
        show readGuard ctx
          (genPiBlockG ctx payload i (computedGuard ctx payload i)) i = _
        rw [readGuard_genPiBlockG ctx payload i _ hfit, hG]
        simp
      · rw [readApp_difGenerateBlocks_lt ctx hwf n (i + 1) i _ (by omega) hlenq]
        show readApp ctx
          (genPiBlockG ctx payload i (computedGuard ctx payload i)) i = _
        rw [readApp_genPiBlockG ctx payload i _ hfit, hA]
        simp
      · rw [readRef_difGenerateBlocks_lt ctx hwf n (i + 1) i _ (by omega) hlenq]
        show readRef ctx
          (genPiBlockG ctx payload i (computedGuard ctx payload i)) i = _
        rw [readRef_genPiBlockG ctx payload i _ hfit, hR]
        simp
      · rw [computedGuard_difGenerateBlocks ctx hwf n (i + 1) i _ hlenq]
        show computedGuard ctx
          (genPiBlockG ctx payload i (computedGuard ctx payload i)) i = _
        exact computedGuard_genPiBlockG ctx payload i _ i hwf hfit
    rw [hv]
    exact ih (i + 1) (genPiBlock ctx payload i) hlenq

/-! ## Supporting lemmas: first-failure structure of bulk verification -/
theorem difVerifyBlocks_eq_none_iff (ctx : DifCtx) (n : Nat) :
    ∀ (i : Nat) (payload : List Nat),
      difVerifyBlocks ctx i n payload = none ↔
        ∀ j, i ≤ j → j < i + n → verifyBlock ctx payload j = none := by
  induction n with
  | zero =>
    intro i payload
    simp only [difVerifyBlocks]
    constructor
    · intro _ j hj1 hj2
      omega
    · intro _
      trivial
  | succ n ih =>
    intro i payload
    simp only [difVerifyBlocks]
    rcases hv : verifyBlock ctx payload i with _ | e
    · simp only [ih (i + 1) payload]
      constructor
      · intro hall j hj1 hj2
        rcases Nat.eq_or_lt_of_le hj1 with rfl | hj
        · exact hv
        · exact hall j hj (by omega)
      · intro hall j hj1 hj2
        exact hall j (by omega) (by omega)
    · simp only []
      constructor
      · intro h
        cases h
      · intro hall
        have := hall i le_rfl (by omega)
        rw [hv] at this
        cases this

theorem difVerifyBlocks_eq_some_iff (ctx : DifCtx) (n : Nat) :
    ∀ (i : Nat) (payload : List Nat) (e : DifError),
      difVerifyBlocks ctx i n payload = some e ↔
        ∃ j, i ≤ j ∧ j < i + n ∧ verifyBlock ctx payload j = some e ∧
          ∀ k, i ≤ k → k < j → verifyBlock ctx payload k = none := by
  induction n with
  | zero =>
    intro i payload e
    simp only [difVerifyBlocks]
    constructor
    · intro h
      cases h
    · rintro ⟨j, hj1, hj2, _, _⟩
      omega
  | succ n ih =>
    intro i payload e
    simp only [difVerifyBlocks]
    rcases hv : verifyBlock ctx payload i with _ | e0
    · rw [ih (i + 1) payload e]
      constructor
      · rintro ⟨j, hj1, hj2, hje, hnone⟩
        refine ⟨j, by omega, by omega, hje, ?_⟩
        intro k hk1 hk2
        rcases Nat.eq_or_lt_of_le hk1 with rfl | hk
        · exact hv
        · exact hnone k hk hk2
      · rintro ⟨j, hj1, hj2, hje, hnone⟩
        have hij : i ≠ j := by
          intro h
          subst h
          rw [hv] at hje
          cases hje
        refine ⟨j, by omega, by omega, hje, ?_⟩
        intro k hk1 hk2
        exact hnone k (by omega) hk2
    · simp only [Option.some.injEq]
      constructor
      · rintro rfl
        exact ⟨i, le_rfl, by omega, hv, fun k hk1 hk2 => by omega⟩
      · rintro ⟨j, hj1, hj2, hje, hnone⟩
        rcases Nat.eq_or_lt_of_le hj1 with rfl | hj
        · rw [hv] at hje
          exact Option.some.inj hje
        · have := hnone i le_rfl hj
          rw [hv] at this
          cases this

/-! ## Supporting lemmas: stored PI fields of a bulk-generated payload -/
theorem readGuard_difGenerateBlocks_self (ctx : DifCtx) (hwf : WfCtx ctx)
    (hG : ctx.flags.guardCheck = true) (n : Nat) :
    ∀ (i k : Nat) (payload : List Nat), i ≤ k → k < i + n →
      (i + n) * ctx.blockSize ≤ payload.length →
      readGuard ctx (difGenerateBlocks ctx i n payload) k =
        computedGuard ctx payload k := by
  induction n with
  | zero => intro i k payload h1 h2 _; omega
  | succ n ih =>
    intro i k payload hk1 hk2 h
    have h' : (i + n + 1) * ctx.blockSize ≤ payload.length := by
      rw [show i + n + 1 = i + (n + 1) by omega]
      exact h
    have hfit : piBase ctx i + piSize ctx.piFormat ≤ payload.length :=
      le_trans (piBase_fits ctx hwf i (i + n + 1) (by omega)) h'
    have hq : (genPiBlock ctx payload i).length = payload.length := by
      unfold genPiBlock
      exact length_genPiBlockG ctx payload i _ hfit
    have hlenq : (i + 1 + n) * ctx.blockSize ≤
        (genPiBlock ctx payload i).length := by
      rw [hq, show i + 1 + n = i + n + 1 by omega]
      exact h'
    simp only [difGenerateBlocks]
    rcases Nat.eq_or_lt_of_le hk1 with rfl | hk
    · rw [readGuard_difGenerateBlocks_lt ctx hwf n (i + 1) i _ (by omega) hlenq]
      show readGuard ctx
        (genPiBlockG ctx payload i (computedGuard ctx payload i)) i = _
      rw [readGuard_genPiBlockG ctx payload i _ hfit, hG]
      simp only [if_true]
      exact Nat.mod_eq_of_lt (by
        have := computedGuard_lt ctx payload i hwf.2.2.2.2.2.2
        unfold guardWidth at this
        exact this)
    · rw [ih (i + 1) k (genPiBlock ctx payload i) (by omega) (by omega) hlenq]
      exact computedGuard_genPiBlockG ctx payload i _ k hwf hfit

theorem readApp_difGenerateBlocks_self (ctx : DifCtx) (hwf : WfCtx ctx)
    (hA : ctx.flags.apptagCheck = true) (n : Nat) :
    ∀ (i k : Nat) (payload : List Nat), i ≤ k → k < i + n →
      (i + n) * ctx.blockSize ≤ payload.length →
      readApp ctx (difGenerateBlocks ctx i n payload) k = ctx.appTag := by
  induction n with
  | zero => intro i k payload h1 h2 _; omega
  | succ n ih =>
    intro i k payload hk1 hk2 h
    have h' : (i + n + 1) * ctx.blockSize ≤ payload.length := by
      rw [show i + n + 1 = i + (n + 1) by omega]
      exact h
    have hfit : piBase ctx i + piSize ctx.piFormat ≤ payload.length :=
      le_trans (piBase_fits ctx hwf i (i + n + 1) (by omega)) h'
    have hq : (genPiBlock ctx payload i).length = payload.length := by
      unfold genPiBlock
      exact length_genPiBlockG ctx payload i _ hfit
    have hlenq : (i + 1 + n) * ctx.blockSize ≤
        (genPiBlock ctx payload i).length := by
      rw [hq, show i + 1 + n = i + n + 1 by omega]
      exact h'
    simp only [difGenerateBlocks]
    rcases Nat.eq_or_lt_of_le hk1 with rfl | hk
    · rw [readApp_difGenerateBlocks_lt ctx hwf n (i + 1) i _ (by omega) hlenq]
      show readApp ctx
        (genPiBlockG ctx payload i (computedGuard ctx payload i)) i = _
      rw [readApp_genPiBlockG ctx payload i _ hfit, hA]
      simp only [if_true]
      exact Nat.mod_eq_of_lt hwf.2.2.2.2.1
    · exact ih (i + 1) k (genPiBlock ctx payload i) (by omega) (by omega) hlenq

theorem readRef_difGenerateBlocks_self (ctx : DifCtx) (hwf : WfCtx ctx)
    (hR : ctx.flags.reftagCheck = true) (n : Nat) :
    ∀ (i k : Nat) (payload : List Nat), i ≤ k → k < i + n →
      (i + n) * ctx.blockSize ≤ payload.length →
      readRef ctx (difGenerateBlocks ctx i n payload) k = genRefTag ctx k := by
  induction n with
  | zero => intro i k payload h1 h2 _; omega
  | succ n ih =>
    intro i k payload hk1 hk2 h
    have h' : (i + n + 1) * ctx.blockSize ≤ payload.length := by
      rw [show i + n + 1 = i + (n + 1) by omega]
      exact h
    have hfit : piBase ctx i + piSize ctx.piFormat ≤ payload.length :=
      le_trans (piBase_fits ctx hwf i (i + n + 1) (by omega)) h'
    have hq : (genPiBlock ctx payload i).length = payload.length := by
      unfold genPiBlock
      exact length_genPiBlockG ctx payload i _ hfit
    have hlenq : (i + 1 + n) * ctx.blockSize ≤
        (genPiBlock ctx payload i).length := by
      rw [hq, show i + 1 + n = i + n + 1 by omega]
      exact h'
    simp only [difGenerateBlocks]
    rcases Nat.eq_or_lt_of_le hk1 with rfl | hk
    · rw [readRef_difGenerateBlocks_lt ctx hwf n (i + 1) i _ (by omega) hlenq]
      show readRef ctx
        (genPiBlockG ctx payload i (computedGuard ctx payload i)) i = _
      rw [readRef_genPiBlockG ctx payload i _ hfit, hR]
      simp only [if_true]
      exact Nat.mod_eq_of_lt (genRefTag_lt ctx i)
    · exact ih (i + 1) k (genPiBlock ctx payload i) (by omega) (by omega) hlenq

/-! ## Concrete instances used by witnesses -/


/-- C1: with all three checks enabled, `spdk_dif_verify` succeeds on the
result of `spdk_dif_generate` over the same payload and context, and
generation leaves every byte of each block's data region (the first
`block_size - md_size` bytes) unchanged. -/
theorem C1_generate_verify_roundtrip (ctx : DifCtx) (num : Nat)
    (payload : List Nat) (hwf : WfCtx ctx)
    (hG : ctx.flags.guardCheck = true) (hA : ctx.flags.apptagCheck = true)
    (hR : ctx.flags.reftagCheck = true)
    (hlen : payload.length = num * ctx.blockSize) :
    spdk_dif_verify ctx num (spdk_dif_generate ctx num payload).2 = (0, none) ∧
      ∀ i, i < num →
        readBytes (spdk_dif_generate ctx num payload).2
            (i * ctx.blockSize) (ctx.blockSize - ctx.mdSize) =
          readBytes payload (i * ctx.blockSize) (ctx.blockSize - ctx.mdSize) := by
  have hbulk : (0 + num) * ctx.blockSize ≤ payload.length := by
    rw [Nat.zero_add, hlen]
  have hlen2 : (difGenerateBlocks ctx 0 num payload).length = payload.length :=
    length_difGenerateBlocks ctx hwf num 0 payload hbulk
  constructor
  · simp only [spdk_dif_generate, if_pos hlen]
    unfold spdk_dif_verify
    rw [if_pos (by rw [hlen2]; exact hlen),
      difVerifyBlocks_generated ctx hwf hG hA hR num 0 payload hbulk]
  · intro i hi
    simp only [spdk_dif_generate, if_pos hlen]
    apply readBytes_difGenerateBlocks_disjoint ctx hwf num 0 payload _ _ hbulk
    intro j hj1 hj2
    have h2 := hwf.2.1
    have h3 := hwf.2.2.1
    unfold piBase
    rcases le_or_lt i j with hij | hij
    · have hmul : i * ctx.blockSize ≤ j * ctx.blockSize :=
        Nat.mul_le_mul_right _ hij
      omega
    · have hmul : (j + 1) * ctx.blockSize ≤ i * ctx.blockSize :=
        Nat.mul_le_mul_right _ hij
      rw [Nat.succ_mul] at hmul
      omega

/-- Witness for C1 at a concrete context and payload. -/
theorem C1_witness :
    spdk_dif_verify ctxT1 2 (spdk_dif_generate ctxT1 2 pay24).2 = (0, none) ∧
      ∀ i, i < 2 →
        readBytes (spdk_dif_generate ctxT1 2 pay24).2
            (i * ctxT1.blockSize) (ctxT1.blockSize - ctxT1.mdSize) =
          readBytes pay24 (i * ctxT1.blockSize) (ctxT1.blockSize - ctxT1.mdSize) :=
  C1_generate_verify_roundtrip ctxT1 2 pay24 (by decide) rfl rfl rfl (by decide)

/-! ## Claim C4 -/

/-- C4: for every block whose stored application tag equals `0xFFFF` — and,
for TYPE1 and TYPE3, whose stored reference tag additionally equals the
all-ones sentinel — verification skips all three subchecks, so the payload
verifies successfully regardless of guard mismatches or corruption of its
data regions. -/
theorem C4_sentinel_suppression (ctx : DifCtx) (num : Nat)
    (payload : List Nat) (hwf : WfCtx ctx) (hty : ctx.difType ≠ .disable)
    (hlen : payload.length = num * ctx.blockSize)
    (hsent : ∀ i, i < num → readApp ctx payload i = APPTAG_IGNORE ∧
      (ctx.difType = .type2 ∨ readRef ctx payload i = refSentinel ctx.piFormat)) :
    spdk_dif_verify ctx num payload = (0, none) := by
  unfold spdk_dif_verify
  rw [if_pos hlen]
  have hnone : difVerifyBlocks ctx 0 num payload = none := by
    rw [difVerifyBlocks_eq_none_iff]
    intro j _ hj2
    obtain ⟨ha, hor⟩ := hsent j (by omega)
    have hskip : skipPiCheck ctx payload j := by
      refine ⟨ha, ?_⟩
      rcases hty2 : ctx.difType with _ | _ | _ | _
      · exact absurd hty2 hty
      · rcases hor with h | h
        · rw [hty2] at h
          cases h
        · exact Or.inr ⟨Or.inl rfl, h⟩
      · exact Or.inl rfl
      · rcases hor with h | h
        · rw [hty2] at h
          cases h
        · exact Or.inr ⟨Or.inr rfl, h⟩
    unfold verifyBlock verifyBlockG
    rw [if_pos hskip]
  rw [hnone]

/-- Witness for C4: a TYPE1 block with sentinel tags, corrupted data and a
wrong stored guard still verifies. -/
theorem C4_witness : spdk_dif_verify ctxT1 1 payIgnore = (0, none) :=
  C4_sentinel_suppression ctxT1 1 payIgnore (by decide) (by decide)
    (by decide) (by decide)

/-! ## Claim C3 -/

/-- C3: reference-tag semantics.  (1) For TYPE1/TYPE2 with the reference-tag
check enabled, a block (not sentinel-skipped, guard and app subchecks
passing) verifies exactly when its stored reference tag equals
`init_ref_tag + ref_tag_offset + i` reduced modulo the ref-tag width.
(2) For TYPE3, generation writes the all-ones sentinel into the
reference-tag field.  (3) For TYPE3, verification never reports a REFTAG
error on a block whose stored reference tag is the sentinel. -/
theorem C3_reftag_semantics (ctx : DifCtx) (hwf : WfCtx ctx) :
    (∀ payload i, (ctx.difType = .type1 ∨ ctx.difType = .type2) →
      ctx.flags.reftagCheck = true → ¬skipPiCheck ctx payload i →
      ¬guardSubFails ctx payload i → ¬apptagSubFails ctx payload i →
      (verifyBlock ctx payload i = none ↔
        readRef ctx payload i =
          (ctx.initRefTag + ctx.refTagOffset + i) % 2 ^ refWidthBits ctx)) ∧
    (∀ num payload i, ctx.difType = .type3 → ctx.flags.reftagCheck = true →
      i < num → payload.length = num * ctx.blockSize →
      readRef ctx (spdk_dif_generate ctx num payload).2 i =
        refSentinel ctx.piFormat) ∧
    (∀ payload i e, ctx.difType = .type3 →
      readRef ctx payload i = refSentinel ctx.piFormat →
      verifyBlock ctx payload i = some e → e.errType ≠ .reftag) := by
  refine ⟨?_, ?_, ?_⟩
  · intro payload i hty hR hskip hg ha
    unfold verifyBlock at *
    rw [verifyBlockG_eq_none_iff]
    unfold guardSubFails at hg
    constructor
    · intro hor
      show readRef ctx payload i = expectedRefTag ctx i
      rcases hor with h | ⟨_, _, hr⟩
      · exact absurd h hskip
      · by_contra hne
        exact hr ⟨hR, Or.inl ⟨hty, hne⟩⟩
    · intro heq
      refine Or.inr ⟨hg, ha, ?_⟩
      intro hrf
      rcases hrf.2 with ⟨_, hne⟩ | ⟨hty3, _⟩
      · exact hne heq
      · rcases hty with h | h <;> rw [h] at hty3 <;> cases hty3
  · intro num payload i hty hR hi hlen
    simp only [spdk_dif_generate, if_pos hlen]
    rw [readRef_difGenerateBlocks_self ctx hwf hR num 0 i payload (by omega)
      (by omega) (by rw [Nat.zero_add, hlen])]
    unfold genRefTag
    rw [hty]
  · intro payload i e hty hsent hsome hrt
    unfold verifyBlock at hsome
    rw [verifyBlockG_eq_some_iff] at hsome
    rcases hsome.2 with ⟨_, he⟩ | ⟨_, _, he⟩ | ⟨_, _, hrf, he⟩
    · rw [he] at hrt
      simp at hrt
    · rw [he] at hrt
      simp at hrt
    · unfold reftagSubFails refMismatch at hrf
      rcases hrf.2 with ⟨hty12, _⟩ | ⟨_, hne⟩
      · rcases hty12 with h | h <;> rw [hty] at h <;> cases h
      · exact hne hsent

/-- Witness for C3: part (1) at a TYPE1 context on a generated block (whose
stored tag is 5), parts (2)-(3) at the TYPE3 variant. -/
theorem C3_witness :
    (verifyBlock ctxT1 (spdk_dif_generate ctxT1 1 (List.replicate 12 0)).2 0 =
        none ↔
      readRef ctxT1 (spdk_dif_generate ctxT1 1 (List.replicate 12 0)).2 0 =
        (ctxT1.initRefTag + ctxT1.refTagOffset + 0) % 2 ^ refWidthBits ctxT1) ∧
    readRef ctxT3 (spdk_dif_generate ctxT3 1 (List.replicate 12 0)).2 0 =
      refSentinel ctxT3.piFormat ∧
    (∀ e, verifyBlock ctxT3 payIgnore 0 = some e → e.errType ≠ .reftag) :=
  ⟨(C3_reftag_semantics ctxT1 (by decide)).1
      (spdk_dif_generate ctxT1 1 (List.replicate 12 0)).2 0 (Or.inl rfl) rfl
      (by decide) (by decide) (by decide),
    (C3_reftag_semantics ctxT3 (by decide)).2.1 1 (List.replicate 12 0) 0 rfl
      rfl (by decide) (by decide),
    fun e => (C3_reftag_semantics ctxT3 (by decide)).2.2 payIgnore 0 e rfl
      (by decide)⟩

/-! ## Claim C5 -/
theorem readBytes_readBytes (l : List Nat) (a n o m : Nat) (hom : o + m ≤ n) :
    readBytes (readBytes l a n) o m = readBytes l (a + o) m := by
  apply List.ext_getElem?
  intro i
  rw [readBytes_getElem?, readBytes_getElem?, readBytes_getElem?]
  by_cases hi : i < m
  · rw [if_pos hi, if_pos hi, if_pos (by omega)]
    congr 1
    omega
  · rw [if_neg hi, if_neg hi]

/-- Per-block verification only depends on the block's own bytes. -/
theorem verifyBlock_congr (ctx : DifCtx) (payload payload2 : List Nat)
    (k : Nat) (hwf : WfCtx ctx)
    (hb : readBytes payload2 (k * ctx.blockSize) ctx.blockSize =
      readBytes payload (k * ctx.blockSize) ctx.blockSize) :
    verifyBlock ctx payload2 k = verifyBlock ctx payload k := by
  obtain ⟨hg1, hg2, _, _, hg5⟩ := fmt_geom ctx.piFormat
  have hgi2 := hwf.2.1
  have hsub : ∀ o m, o + m ≤ ctx.blockSize →
      readBytes payload2 (k * ctx.blockSize + o) m =
        readBytes payload (k * ctx.blockSize + o) m := by
    intro o m hom
    rw [← readBytes_readBytes payload2 (k * ctx.blockSize) ctx.blockSize o m hom,
      hb, readBytes_readBytes payload (k * ctx.blockSize) ctx.blockSize o m hom]
  have h1 : readGuard ctx payload2 k = readGuard ctx payload k := by
    unfold readGuard piBase
    rw [show k * ctx.blockSize + ctx.guardInterval =
        k * ctx.blockSize + ctx.guardInterval from rfl,
      hsub ctx.guardInterval (guardBytes ctx.piFormat) (by omega)]
  have h2 : readApp ctx payload2 k = readApp ctx payload k := by
    unfold readApp piBase
    rw [show k * ctx.blockSize + ctx.guardInterval + guardBytes ctx.piFormat =
        k * ctx.blockSize + (ctx.guardInterval + guardBytes ctx.piFormat) by omega,
      hsub (ctx.guardInterval + guardBytes ctx.piFormat) 2 (by omega)]
  have h3 : readRef ctx payload2 k = readRef ctx payload k := by
    unfold readRef piBase
    rw [show k * ctx.blockSize + ctx.guardInterval + refOffset ctx.piFormat =
        k * ctx.blockSize + (ctx.guardInterval + refOffset ctx.piFormat) by omega,
      hsub (ctx.guardInterval + refOffset ctx.piFormat)
        (refBytes ctx.piFormat) (by omega)]
  have h4 : computedGuard ctx payload2 k = computedGuard ctx payload k := by
    unfold computedGuard
    rw [show k * ctx.blockSize = k * ctx.blockSize + 0 from rfl,
      hsub 0 ctx.guardInterval (by omega)]
  have hskip : skipPiCheck ctx payload2 k ↔ skipPiCheck ctx payload k := by
    unfold skipPiCheck
    rw [h2, h3]
  have hgf : ∀ g, guardSubFailsG ctx payload2 k g ↔
      guardSubFailsG ctx payload k g := by
    intro g
    unfold guardSubFailsG
    rw [h1]
  have haf : apptagSubFails ctx payload2 k ↔ apptagSubFails ctx payload k := by
    unfold apptagSubFails
    rw [h2]
  have hrf : reftagSubFails ctx payload2 k ↔ reftagSubFails ctx payload k := by
    unfold reftagSubFails refMismatch
    rw [h3]
  rcases hv : verifyBlock ctx payload k with _ | e
  · unfold verifyBlock at hv ⊢
    rw [verifyBlockG_eq_none_iff] at hv ⊢
    rw [h4, hskip, hgf, haf, hrf]
    exact hv
  · unfold verifyBlock at hv ⊢
    rw [verifyBlockG_eq_some_iff] at hv ⊢
    rw [h1, h2, h3, h4, hskip, hgf, haf, hrf]
    exact hv

/-- The error record carries the failing block's index. -/
theorem verifyBlock_errOffset (ctx : DifCtx) (payload : List Nat) (i : Nat)
    (e : DifError) (h : verifyBlock ctx payload i = some e) :
    e.errOffset = i := by
  unfold verifyBlock at h
  rw [verifyBlockG_eq_some_iff] at h
  rcases h.2 with ⟨_, he⟩ | ⟨_, _, he⟩ | ⟨_, _, _, he⟩ <;> rw [he]

/-- C5: verification processes blocks in ascending order and reports the
lowest failing block: the error record is that block's `verifyBlock` output
(with its block-based `err_offset`), all earlier blocks pass, and the result
does not depend on any block after the failing one; within a block the
subchecks run in the order GUARD → APPTAG → REFTAG, the first failure
fixing `err_type`. -/
theorem C5_first_failure (ctx : DifCtx) (num : Nat) (payload : List Nat)
    (hwf : WfCtx ctx) (hlen : payload.length = num * ctx.blockSize) :
    (∀ e, spdk_dif_verify ctx num payload = (-1, some e) →
      e.errOffset < num ∧ verifyBlock ctx payload e.errOffset = some e ∧
      (∀ j, j < e.errOffset → verifyBlock ctx payload j = none) ∧
      (∀ payload2, payload2.length = num * ctx.blockSize →
        (∀ k, k ≤ e.errOffset →
          readBytes payload2 (k * ctx.blockSize) ctx.blockSize =
            readBytes payload (k * ctx.blockSize) ctx.blockSize) →
        spdk_dif_verify ctx num payload2 = (-1, some e))) ∧
    ((∃ i, i < num ∧ verifyBlock ctx payload i ≠ none) →
      ∃ e, spdk_dif_verify ctx num payload = (-1, some e)) ∧
    (∀ i e, verifyBlock ctx payload i = some e →
      e.errOffset = i ∧
      (e.errType = .guard ↔ guardSubFails ctx payload i) ∧
      (e.errType = .apptag ↔
        ¬guardSubFails ctx payload i ∧ apptagSubFails ctx payload i) ∧
      (e.errType = .reftag ↔
        ¬guardSubFails ctx payload i ∧ ¬apptagSubFails ctx payload i ∧
          reftagSubFails ctx payload i)) := by
  refine ⟨?_, ?_, ?_⟩
  · intro e he
    unfold spdk_dif_verify at he
    rw [if_pos hlen] at he
    rcases hd : difVerifyBlocks ctx 0 num payload with _ | e0
    · rw [hd] at he
      simp at he
    · rw [hd] at he
      simp only [Prod.mk.injEq, Option.some.injEq] at he
      obtain ⟨-, rfl⟩ := he
      rw [difVerifyBlocks_eq_some_iff] at hd
      obtain ⟨j, -, hj2, hje, hnone⟩ := hd
      have hoff : e0.errOffset = j := verifyBlock_errOffset ctx payload j e0 hje
      refine ⟨by omega, by rw [hoff]; exact hje, ?_, ?_⟩
      · intro k hk
        exact hnone k (by omega) (by omega)
      · intro payload2 hlen2 hagree
        unfold spdk_dif_verify
        rw [if_pos hlen2]
        have hd2 : difVerifyBlocks ctx 0 num payload2 = some e0 := by
          rw [difVerifyBlocks_eq_some_iff]
          refine ⟨j, by omega, by omega, ?_, ?_⟩
          · rw [verifyBlock_congr ctx payload payload2 j hwf
              (hagree j (by omega))]
            exact hje
          · intro k hk1 hk2
            rw [verifyBlock_congr ctx payload payload2 k hwf
              (hagree k (by omega))]
            exact hnone k (by omega) (by omega)
        rw [hd2]
  · rintro ⟨i, hi, hne⟩
    unfold spdk_dif_verify
    rw [if_pos hlen]
    rcases hd : difVerifyBlocks ctx 0 num payload with _ | e0
    · rw [difVerifyBlocks_eq_none_iff] at hd
      exact absurd (hd i (by omega) (by omega)) hne
    · exact ⟨e0, rfl⟩
  · intro i e he
    refine ⟨verifyBlock_errOffset ctx payload i e he, ?_⟩
    unfold verifyBlock at he
    rw [verifyBlockG_eq_some_iff] at he
    rcases he.2 with ⟨hf, rfl⟩ | ⟨hnf, hf, rfl⟩ | ⟨hnf, hna, hf, rfl⟩ <;>
      refine ⟨?_, ?_, ?_⟩ <;> simp_all <;> tauto

/-- Witness for C5: a single-block TYPE1 payload with a flipped data byte
yields a GUARD error at block 0 whose record and stability properties hold. -/
theorem C5_witness :
    ((⟨.guard, 0, 33461, 0⟩ : DifError).errOffset < 1 ∧
      verifyBlock ctxT1 [1, 0, 0, 0, 0, 0, 0x12, 0x34, 0, 0, 0, 5] 0 =
        some ⟨.guard, 0, 33461, 0⟩ ∧
      (∀ j, j < (⟨.guard, 0, 33461, 0⟩ : DifError).errOffset →
        verifyBlock ctxT1 [1, 0, 0, 0, 0, 0, 0x12, 0x34, 0, 0, 0, 5] j = none) ∧
      (∀ payload2, payload2.length = 1 * ctxT1.blockSize →
        (∀ k, k ≤ (⟨.guard, 0, 33461, 0⟩ : DifError).errOffset →
          readBytes payload2 (k * ctxT1.blockSize) ctxT1.blockSize =
            readBytes [1, 0, 0, 0, 0, 0, 0x12, 0x34, 0, 0, 0, 5]
              (k * ctxT1.blockSize) ctxT1.blockSize) →
        spdk_dif_verify ctxT1 1 payload2 = (-1, some ⟨.guard, 0, 33461, 0⟩))) ∧
    ((⟨.guard, 0, 33461, 0⟩ : DifError).errType = .guard ↔
      guardSubFails ctxT1 [1, 0, 0, 0, 0, 0, 0x12, 0x34, 0, 0, 0, 5] 0) :=
  ⟨(C5_first_failure ctxT1 1 [1, 0, 0, 0, 0, 0, 0x12, 0x34, 0, 0, 0, 5]
      (by decide) (by decide)).1 ⟨.guard, 0, 33461, 0⟩ (by decide),
    ((C5_first_failure ctxT1 1 [1, 0, 0, 0, 0, 0, 0x12, 0x34, 0, 0, 0, 5]
      (by decide) (by decide)).2.2 0 ⟨.guard, 0, 33461, 0⟩ (by decide)).2.1⟩

/-! ## Claim C6: supporting lemmas for remapping -/
theorem remapRefTag_lt (ctx : DifCtx) (i : Nat) :
    remapRefTag ctx i < 2 ^ (8 * refBytes ctx.piFormat) := by
  have hsig : refSigBits ctx.piFormat ≤ 8 * refBytes ctx.piFormat :=
    (fmt_geom ctx.piFormat).2.2.2.1
  have hw : refWidthBits ctx ≤ refSigBits ctx.piFormat := refWidth_le_sig ctx
  have hmono := Nat.pow_le_pow_right (by norm_num : 0 < 2) hsig
  have hmono2 := Nat.pow_le_pow_right (by norm_num : 0 < 2) hw
  unfold remapRefTag
  cases hty : ctx.difType
  all_goals simp only []
  case type3 =>
    unfold refSentinel
    have := Nat.two_pow_pos (refSigBits ctx.piFormat)
    omega
  all_goals
    have := Nat.mod_lt (ctx.remappedInitRefTag + ctx.refTagOffset + i)
      (Nat.two_pow_pos (refWidthBits ctx))
    omega

theorem length_writeRef (ctx : DifCtx) (payload : List Nat) (i r : Nat)
    (h : piBase ctx i + piSize ctx.piFormat ≤ payload.length) :
    (writeRef ctx payload i r).length = payload.length := by
  obtain ⟨h1, h2, _, _, h5⟩ := fmt_geom ctx.piFormat
  unfold writeRef
  exact length_writeBytes _ _ _ (by rw [length_bePut]; omega)

theorem readBytes_writeRef_disjoint (ctx : DifCtx) (payload : List Nat)
    (i r off n : Nat)
    (h : piBase ctx i + piSize ctx.piFormat ≤ payload.length)
    (hdis : off + n ≤ piBase ctx i + refOffset ctx.piFormat ∨
      piBase ctx i + refOffset ctx.piFormat + refBytes ctx.piFormat ≤ off) :
    readBytes (writeRef ctx payload i r) off n = readBytes payload off n := by
  obtain ⟨h1, h2, _, _, h5⟩ := fmt_geom ctx.piFormat
  unfold writeRef
  exact readBytes_writeBytes_disjoint _ _ _ _ _
    (by rw [length_bePut]; omega) (by rw [length_bePut]; omega)

theorem readRef_writeRef_self (ctx : DifCtx) (payload : List Nat) (i r : Nat)
    (h : piBase ctx i + piSize ctx.piFormat ≤ payload.length) :
    readRef ctx (writeRef ctx payload i r) i =
      r % 2 ^ (8 * refBytes ctx.piFormat) := by
  obtain ⟨h1, h2, _, _, h5⟩ := fmt_geom ctx.piFormat
  unfold readRef writeRef
  have := readBytes_writeBytes_self payload
    (piBase ctx i + refOffset ctx.piFormat) (bePut (refBytes ctx.piFormat) r)
    (by rw [length_bePut]; omega)
  rw [length_bePut] at this
  rw [this, beVal_bePut, two_pow_8mul]

theorem readRef_writeRef_other (ctx : DifCtx) (payload : List Nat)
    (j r k : Nat) (hkj : k ≠ j) (hwf : WfCtx ctx)
    (h : piBase ctx j + piSize ctx.piFormat ≤ payload.length) :
    readRef ctx (writeRef ctx payload j r) k = readRef ctx payload k := by
  obtain ⟨h1, h2, _, _, h5⟩ := fmt_geom ctx.piFormat
  have hgi2 := hwf.2.1
  unfold readRef
  congr 1
  apply readBytes_writeRef_disjoint ctx payload j r _ _ h
  unfold piBase
  rcases Nat.lt_or_ge k j with hk | hk
  · have hmul : (k + 1) * ctx.blockSize ≤ j * ctx.blockSize :=
      Nat.mul_le_mul_right _ hk
    rw [Nat.succ_mul] at hmul
    omega
  · have hk2 : j < k := by omega
    have hmul : (j + 1) * ctx.blockSize ≤ k * ctx.blockSize :=
      Nat.mul_le_mul_right _ hk2
    rw [Nat.succ_mul] at hmul
    omega

/-- When every checked block matches, remapping succeeds, rewrites every
reference tag to the remapped expected tag, and touches nothing else. -/
theorem difRemapBlocks_ok (ctx : DifCtx) (hwf : WfCtx ctx) (check : Bool)
    (n : Nat) :
    ∀ (i : Nat) (payload : List Nat),
      (i + n) * ctx.blockSize ≤ payload.length →
      (∀ k, i ≤ k → k < i + n → ¬(check = true ∧ refMismatch ctx payload k)) →
      (difRemapBlocks ctx i n payload check).1 = 0 ∧
      (difRemapBlocks ctx i n payload check).2.2 = none ∧
      (difRemapBlocks ctx i n payload check).2.1.length = payload.length ∧
      (∀ k, i ≤ k → k < i + n →
        readRef ctx (difRemapBlocks ctx i n payload check).2.1 k =
          remapRefTag ctx k) ∧
      (∀ off m, (∀ k, i ≤ k → k < i + n →
          off + m ≤ piBase ctx k + refOffset ctx.piFormat ∨
          piBase ctx k + refOffset ctx.piFormat + refBytes ctx.piFormat ≤ off) →
        readBytes (difRemapBlocks ctx i n payload check).2.1 off m =
          readBytes payload off m) := by
  induction n with
  | zero =>
    intro i payload _ _
    refine ⟨rfl, rfl, rfl, ?_, ?_⟩
    · intro k h1 h2
      omega
    · intro off m _
      rfl
  | succ n ih =>
    intro i payload h hnomis
    have h' : (i + n + 1) * ctx.blockSize ≤ payload.length := by
      rw [show i + n + 1 = i + (n + 1) by omega]
      exact h
    have hfit : piBase ctx i + piSize ctx.piFormat ≤ payload.length :=
      le_trans (piBase_fits ctx hwf i (i + n + 1) (by omega)) h'
    have hok : remapBlock ctx payload i check =
        .ok (writeRef ctx payload i (remapRefTag ctx i)) := by
      unfold remapBlock
      rw [if_neg]
      intro hc
      exact hnomis i le_rfl (by omega) ⟨hc.1, hc.2⟩
    have hq : (writeRef ctx payload i (remapRefTag ctx i)).length =
        payload.length := length_writeRef ctx payload i _ hfit
    have hlenq : (i + 1 + n) * ctx.blockSize ≤
        (writeRef ctx payload i (remapRefTag ctx i)).length := by
      rw [hq, show i + 1 + n = i + n + 1 by omega]
      exact h'
    have hnomis2 : ∀ k, i + 1 ≤ k → k < i + 1 + n →
        ¬(check = true ∧
          refMismatch ctx (writeRef ctx payload i (remapRefTag ctx i)) k) := by
      intro k hk1 hk2 hc
      apply hnomis k (by omega) (by omega)
      refine ⟨hc.1, ?_⟩
      have hrr : readRef ctx (writeRef ctx payload i (remapRefTag ctx i)) k =
          readRef ctx payload k :=
        readRef_writeRef_other ctx payload i _ k (by omega) hwf hfit
      unfold refMismatch at hc ⊢
      rw [hrr] at hc
      exact hc.2
    obtain ⟨ih1, ih2, ih3, ih4, ih5⟩ :=
      ih (i + 1) (writeRef ctx payload i (remapRefTag ctx i)) hlenq hnomis2
    simp only [difRemapBlocks, hok]
    refine ⟨ih1, ih2, by rw [ih3, hq], ?_, ?_⟩
    · intro k hk1 hk2
      rcases Nat.eq_or_lt_of_le hk1 with rfl | hk
      · obtain ⟨hg1, hg2, _, _, hg5⟩ := fmt_geom ctx.piFormat
        have hrd : readBytes
            (difRemapBlocks ctx (i + 1) n
              (writeRef ctx payload i (remapRefTag ctx i)) check).2.1
            (piBase ctx i + refOffset ctx.piFormat) (refBytes ctx.piFormat) =
            readBytes (writeRef ctx payload i (remapRefTag ctx i))
              (piBase ctx i + refOffset ctx.piFormat) (refBytes ctx.piFormat) := by
          apply ih5
          intro k hk1 hk2
          have hgi2 := hwf.2.1
          unfold piBase
          have hk3 : i < k := by omega
          have hmul : (i + 1) * ctx.blockSize ≤ k * ctx.blockSize :=
            Nat.mul_le_mul_right _ hk3
          rw [Nat.succ_mul] at hmul
          omega
        unfold readRef
        rw [hrd]
        have := readRef_writeRef_self ctx payload i (remapRefTag ctx i) hfit
        unfold readRef at this
        rw [this, Nat.mod_eq_of_lt (remapRefTag_lt ctx i)]
      · exact ih4 k hk (by omega)
    · intro off m hdis
      rw [ih5 off m (fun k hk1 hk2 => hdis k (by omega) (by omega))]
      exact readBytes_writeRef_disjoint ctx payload i _ off m hfit
        (hdis i le_rfl (by omega))

/-- Remapping, successful or not, never touches bytes outside the
reference-tag fields. -/
theorem difRemapBlocks_preserves (ctx : DifCtx) (hwf : WfCtx ctx)
    (check : Bool) (n : Nat) :
    ∀ (i : Nat) (payload : List Nat) (off m : Nat),
      (i + n) * ctx.blockSize ≤ payload.length →
      (∀ k, i ≤ k → k < i + n →
        off + m ≤ piBase ctx k + refOffset ctx.piFormat ∨
        piBase ctx k + refOffset ctx.piFormat + refBytes ctx.piFormat ≤ off) →
      readBytes (difRemapBlocks ctx i n payload check).2.1 off m =
        readBytes payload off m := by
  induction n with
  | zero => intro i payload off m _ _; rfl
  | succ n ih =>
    intro i payload off m h hdis
    have h' : (i + n + 1) * ctx.blockSize ≤ payload.length := by
      rw [show i + n + 1 = i + (n + 1) by omega]
      exact h
    have hfit : piBase ctx i + piSize ctx.piFormat ≤ payload.length :=
      le_trans (piBase_fits ctx hwf i (i + n + 1) (by omega)) h'
    simp only [difRemapBlocks]
    rcases hrb : remapBlock ctx payload i check with e | q
    · rfl
    · have hq : q = writeRef ctx payload i (remapRefTag ctx i) := by
        unfold remapBlock at hrb
        split_ifs at hrb with hc
        injection hrb with hrb
        exact hrb.symm
      subst hq
      have hlenq : (i + 1 + n) * ctx.blockSize ≤
          (writeRef ctx payload i (remapRefTag ctx i)).length := by
        rw [length_writeRef ctx payload i _ hfit,
          show i + 1 + n = i + n + 1 by omega]
        exact h'
      rw [ih (i + 1) _ off m hlenq (fun k hk1 hk2 => hdis k (by omega) (by omega))]
      exact readBytes_writeRef_disjoint ctx payload i _ off m hfit
        (hdis i le_rfl (by omega))

theorem refWidth_ge_32 (ctx : DifCtx) : 32 ≤ refWidthBits ctx := by
  unfold refWidthBits
  cases ctx.difType <;> cases ctx.piFormat <;> decide

/-- The tag written by remap is exactly what generation would write under
the remapped initial reference tag. -/
theorem remapRefTag_eq_genRefTag (ctx : DifCtx) (i : Nat) :
    remapRefTag ctx i =
      genRefTag { ctx with initRefTag := ctx.remappedInitRefTag } i := by
  obtain ⟨bs, gi, md, mi, ty, fmt, fl, irt, atag, am, doff, rto, rit, lg, gs⟩ := ctx
  cases ty <;> rfl

/-- Generated blocks never trip the remap check. -/
theorem noRefMismatch_of_generated (ctx : DifCtx) (hwf : WfCtx ctx)
    (hR : ctx.flags.reftagCheck = true) (num : Nat) (payload : List Nat)
    (hlen : payload.length = num * ctx.blockSize) (k : Nat) (hk : k < num) :
    ¬refMismatch ctx (difGenerateBlocks ctx 0 num payload) k := by
  have hrd : readRef ctx (difGenerateBlocks ctx 0 num payload) k =
      genRefTag ctx k :=
    readRef_difGenerateBlocks_self ctx hwf hR num 0 k payload (by omega)
      (by omega) (by rw [Nat.zero_add, hlen])
  intro hmis
  rcases hmis with ⟨hty, hne⟩ | ⟨hty, hne⟩
  · apply hne
    rw [hrd]
    unfold genRefTag
    rcases hty with h | h <;> rw [h]
  · apply hne
    rw [hrd]
    unfold genRefTag
    rw [hty]

/-- C6: remap composition.  (1) After generating under `init_ref_tag = A`,
setting the remapped initial reference tag to `B` and remapping with
`check_ref_tag = true` succeeds, and the result verifies under a context
with `init_ref_tag = B`.  (2) For TYPE1/TYPE2, remapping with check enabled
a payload generated under `C ≠ A` reports a REFTAG error at block 0.
(3) Remapping rewrites only the reference-tag field: the guard and app-tag
bytes of every block are preserved byte-for-byte. -/
theorem C6_remap_composition (ctx ctx2 : DifCtx) (num : Nat)
    (payload : List Nat) (B C : Nat) (hwf : WfCtx ctx)
    (hG : ctx.flags.guardCheck = true) (hA : ctx.flags.apptagCheck = true)
    (hR : ctx.flags.reftagCheck = true)
    (hB : B < 2 ^ 32) (hA32 : ctx.initRefTag < 2 ^ 32)
    (hctx2 : ctx2 = spdk_dif_ctx_set_remapped_init_ref_tag ctx B)
    (hlen : payload.length = num * ctx.blockSize) :
    ((spdk_dif_remap_ref_tag ctx2 num
        (spdk_dif_generate ctx2 num payload).2 true).1 = 0 ∧
      spdk_dif_verify { ctx2 with initRefTag := B } num
        (spdk_dif_remap_ref_tag ctx2 num
          (spdk_dif_generate ctx2 num payload).2 true).2.1 = (0, none)) ∧
    ((ctx.difType = .type1 ∨ ctx.difType = .type2) → C < 2 ^ 32 →
      C ≠ ctx.initRefTag → 0 < num →
      (spdk_dif_remap_ref_tag ctx2 num
        (spdk_dif_generate { ctx2 with initRefTag := C } num payload).2
        true).1 = -1 ∧
      ∃ e, (spdk_dif_remap_ref_tag ctx2 num
          (spdk_dif_generate { ctx2 with initRefTag := C } num payload).2
          true).2.2 = some e ∧ e.errType = .reftag ∧ e.errOffset = 0) ∧
    (∀ (check : Bool) (payload2 : List Nat),
      payload2.length = num * ctx.blockSize → ∀ i, i < num →
      readBytes (spdk_dif_remap_ref_tag ctx2 num payload2 check).2.1
          (piBase ctx2 i) (guardBytes ctx2.piFormat + 2) =
        readBytes payload2 (piBase ctx2 i) (guardBytes ctx2.piFormat + 2)) := by
  subst hctx2
  set S := spdk_dif_ctx_set_remapped_init_ref_tag ctx B with hS
  have hwf2 : WfCtx S := hwf
  have hBB : S.remappedInitRefTag = B := Nat.mod_eq_of_lt hB
  have hlen2 : payload.length = num * S.blockSize := hlen
  obtain ⟨hgm1, hgm2, hgm3, hgm4, hgm5⟩ := fmt_geom S.piFormat
  have hgi2 := hwf2.2.1
  have hblockdis : ∀ (j o m : Nat), o + m ≤ refOffset S.piFormat →
      ∀ k, 0 ≤ k → k < 0 + num →
        piBase S j + o + m ≤ piBase S k + refOffset S.piFormat ∨
        piBase S k + refOffset S.piFormat + refBytes S.piFormat ≤
          piBase S j + o := by
    intro j o m hom k _ _
    unfold piBase
    rcases le_or_lt j k with hjk | hjk
    · have hmul : j * S.blockSize ≤ k * S.blockSize :=
        Nat.mul_le_mul_right _ hjk
      omega
    · have hmul : (k + 1) * S.blockSize ≤ j * S.blockSize :=
        Nat.mul_le_mul_right _ hjk
      rw [Nat.succ_mul] at hmul
      omega
  have hdatadis : ∀ (j : Nat),
      ∀ k, 0 ≤ k → k < 0 + num →
        j * S.blockSize + S.guardInterval ≤ piBase S k + refOffset S.piFormat ∨
        piBase S k + refOffset S.piFormat + refBytes S.piFormat ≤
          j * S.blockSize := by
    intro j k _ _
    unfold piBase
    rcases le_or_lt j k with hjk | hjk
    · have hmul : j * S.blockSize ≤ k * S.blockSize :=
        Nat.mul_le_mul_right _ hjk
      omega
    · have hmul : (k + 1) * S.blockSize ≤ j * S.blockSize :=
        Nat.mul_le_mul_right _ hjk
      rw [Nat.succ_mul] at hmul
      omega
  refine ⟨?_, ?_, ?_⟩
  · -- part 1: remap of a generated payload succeeds and verifies under B
    have hgen : (spdk_dif_generate S num payload).2 =
        difGenerateBlocks S 0 num payload := by
      unfold spdk_dif_generate
      rw [if_pos hlen2]
    set gen := difGenerateBlocks S 0 num payload with hgendef
    have hbulk : (0 + num) * S.blockSize ≤ payload.length := by
      rw [Nat.zero_add]
      exact le_of_eq hlen2.symm
    have hlengen : gen.length = payload.length :=
      length_difGenerateBlocks S hwf2 num 0 payload hbulk
    have hnomis : ∀ k, 0 ≤ k → k < 0 + num →
        ¬(true = true ∧ refMismatch S gen k) := by
      intro k _ hk hc
      exact noRefMismatch_of_generated S hwf2 hR num payload hlen2 k
        (by omega) hc.2
    obtain ⟨hrc, herr, hlenr, href, hpres⟩ :=
      difRemapBlocks_ok S hwf2 true num 0 gen
        (by rw [hlengen]; exact hbulk) hnomis
    have hremap : spdk_dif_remap_ref_tag S num gen true =
        difRemapBlocks S 0 num gen true := by
      unfold spdk_dif_remap_ref_tag
      rw [if_pos (by rw [hlengen]; exact hlen2)]
    rw [hgen, hremap]
    set res := (difRemapBlocks S 0 num gen true).2.1 with hresdef
    refine ⟨hrc, ?_⟩
    have hlenres : res.length = num * S.blockSize := by
      rw [hlenr, hlengen]
      exact hlen2
    unfold spdk_dif_verify
    rw [if_pos (show res.length =
      num * ({ S with initRefTag := B } : DifCtx).blockSize from hlenres)]
    have hnone : difVerifyBlocks { S with initRefTag := B } 0 num res = none := by
      rw [difVerifyBlocks_eq_none_iff]
      intro j _ hj
      apply verifyBlock_after_generate { S with initRefTag := B } hwf payload res j
      · show readGuard S res j =
          computedGuard S payload j % 2 ^ (8 * guardBytes S.piFormat)
        have e1 : readGuard S res j = readGuard S gen j := by
          unfold readGuard
          congr 1
          exact hpres _ _ (hblockdis j 0 (guardBytes S.piFormat) (by omega))
        rw [e1, readGuard_difGenerateBlocks_self S hwf2 hG num 0 j payload
          (by omega) (by omega) hbulk]
        rw [Nat.mod_eq_of_lt (by
          have := computedGuard_lt S payload j hwf2.2.2.2.2.2.2
          unfold guardWidth at this
          exact this)]
      · show readApp S res j = S.appTag % 2 ^ 16
        have e1 : readApp S res j = readApp S gen j := by
          unfold readApp
          congr 1
          exact hpres _ _ (hblockdis j (guardBytes S.piFormat) 2 (by omega))
        rw [e1, readApp_difGenerateBlocks_self S hwf2 hA num 0 j payload
          (by omega) (by omega) hbulk,
          Nat.mod_eq_of_lt hwf2.2.2.2.2.1]
      · show readRef S res j =
          genRefTag { S with initRefTag := B } j % 2 ^ (8 * refBytes S.piFormat)
        rw [href j (by omega) (by omega), remapRefTag_eq_genRefTag, hBB]
        exact (Nat.mod_eq_of_lt (genRefTag_lt _ j)).symm
      · show computedGuard S res j = computedGuard S payload j
        have e1 : computedGuard S res j = computedGuard S gen j := by
          unfold computedGuard
          congr 1
          exact hpres _ _ (hdatadis j)
        rw [e1]
        exact computedGuard_difGenerateBlocks S hwf2 num 0 j payload hbulk
    rw [hnone]
  · -- part 2: wrong original tag is caught at block 0
    intro hty12 hC hCA hnum
    set ctxC : DifCtx := { S with initRefTag := C } with hctxC
    have hwfC : WfCtx ctxC := hwf
    have hlenC : payload.length = num * ctxC.blockSize := hlen
    have hgenC : (spdk_dif_generate ctxC num payload).2 =
        difGenerateBlocks ctxC 0 num payload := by
      unfold spdk_dif_generate
      rw [if_pos hlenC]
    set genC := difGenerateBlocks ctxC 0 num payload with hgenCdef
    have hbulkC : (0 + num) * ctxC.blockSize ≤ payload.length := by
      rw [Nat.zero_add]
      exact le_of_eq hlenC.symm
    have hlengenC : genC.length = payload.length :=
      length_difGenerateBlocks ctxC hwfC num 0 payload hbulkC
    have hrdC : readRef ctxC genC 0 = genRefTag ctxC 0 :=
      readRef_difGenerateBlocks_self ctxC hwfC hR num 0 0 payload (by omega)
        (by omega) hbulkC
    have hwge := refWidth_ge_32 S
    have hmis : refMismatch S genC 0 := by
      refine Or.inl ⟨hty12, ?_⟩
      have hrdC2 : readRef S genC 0 = genRefTag ctxC 0 := hrdC
      rw [hrdC2]
      intro heq
      have hgenRef : genRefTag ctxC 0 = expectedRefTag ctxC 0 := by
        unfold genRefTag
        rcases hty12 with h | h <;>
          (show (match ctxC.difType with
            | DifType.type3 => refSentinel ctxC.piFormat
            | _ => expectedRefTag ctxC 0) = expectedRefTag ctxC 0) <;>
          rw [show ctxC.difType = ctx.difType from rfl, h]
      rw [hgenRef] at heq
      have heq2 : (C + S.refTagOffset + 0) % 2 ^ refWidthBits S =
          (S.initRefTag + S.refTagOffset + 0) % 2 ^ refWidthBits S := heq
      have hmod : C ≡ S.initRefTag [MOD 2 ^ refWidthBits S] :=
        Nat.ModEq.add_right_cancel' (S.refTagOffset + 0) (by
          unfold Nat.ModEq
          rw [show C + (S.refTagOffset + 0) = C + S.refTagOffset + 0 by omega,
            show S.initRefTag + (S.refTagOffset + 0) =
              S.initRefTag + S.refTagOffset + 0 by omega]
          exact heq2)
      have hpow : (2 : Nat) ^ 32 ≤ 2 ^ refWidthBits S :=
        Nat.pow_le_pow_right (by norm_num) hwge
      have hSA : S.initRefTag = ctx.initRefTag := rfl
      unfold Nat.ModEq at hmod
      rw [Nat.mod_eq_of_lt (by omega), Nat.mod_eq_of_lt (by omega)] at hmod
      rw [hSA] at hmod
      exact hCA hmod
    rw [hgenC]
    unfold spdk_dif_remap_ref_tag
    rw [if_pos (by rw [hlengenC]; exact hlen2)]
    obtain ⟨m, rfl⟩ : ∃ m, num = m + 1 := ⟨num - 1, by omega⟩
    have hrb : remapBlock S genC 0 true =
        .error ⟨.reftag, genRefTag S 0, readRef S genC 0, 0⟩ := by
      unfold remapBlock
      rw [if_pos ⟨rfl, hmis⟩]
    refine ⟨?_, ⟨.reftag, genRefTag S 0, readRef S genC 0, 0⟩, ?_, rfl, rfl⟩
    · simp [difRemapBlocks, hrb]
    · simp [difRemapBlocks, hrb]
  · -- part 3: remap preserves guard and app-tag bytes
    intro check payload2 hlen2' i hi
    unfold spdk_dif_remap_ref_tag
    rw [if_pos (show payload2.length = num * S.blockSize from hlen2')]
    apply difRemapBlocks_preserves S hwf2 check num 0 payload2 _ _
      (by rw [Nat.zero_add]; exact le_of_eq hlen2'.symm)
    intro k hk1 hk2
    have := hblockdis i 0 (guardBytes S.piFormat + 2) (by omega) k hk1 hk2
    omega
/-- Witness for C6 at a concrete TYPE1 context: generate with tag 5, remap
5 → 77, verify under 77; remap a payload generated with tag 9 fails with a
REFTAG error at block 0; remap preserves guard and app-tag bytes. -/
theorem C6_witness :
    ((spdk_dif_remap_ref_tag ctxT1R 1
        (spdk_dif_generate ctxT1R 1 (List.replicate 12 0)).2 true).1 = 0 ∧
      spdk_dif_verify { ctxT1R with initRefTag := 77 } 1
        (spdk_dif_remap_ref_tag ctxT1R 1
          (spdk_dif_generate ctxT1R 1 (List.replicate 12 0)).2 true).2.1 =
        (0, none)) ∧
    ((spdk_dif_remap_ref_tag ctxT1R 1
        (spdk_dif_generate { ctxT1R with initRefTag := 9 } 1
          (List.replicate 12 0)).2 true).1 = -1 ∧
      ∃ e, (spdk_dif_remap_ref_tag ctxT1R 1
          (spdk_dif_generate { ctxT1R with initRefTag := 9 } 1
            (List.replicate 12 0)).2 true).2.2 = some e ∧
        e.errType = .reftag ∧ e.errOffset = 0) ∧
    readBytes (spdk_dif_remap_ref_tag ctxT1R 1 (List.replicate 12 0) true).2.1
        (piBase ctxT1R 0) (guardBytes ctxT1R.piFormat + 2) =
      readBytes (List.replicate 12 0) (piBase ctxT1R 0)
        (guardBytes ctxT1R.piFormat + 2) := by
  have H := C6_remap_composition ctxT1 ctxT1R 1 (List.replicate 12 0) 77 9
    (by decide) rfl rfl rfl (by decide) (by decide) rfl (by decide)
  exact ⟨H.1, H.2.1 (Or.inl rfl) (by decide) (by decide) (by decide),
    H.2.2 true (List.replicate 12 0) (by decide) 0 (by decide)⟩

/-- C9 counterexample: contrary to the claim, a caller cannot configure an
initial reference tag larger than `0xFFFFFFFF` through context
initialization even in the 64-bit PI format: `spdk_dif_ctx_init` declares
the `init_ref_tag` parameter as `uint32_t` (dif.h:162), so the argument
`0x123456789` is truncated to `0x23456789` in the stored context. -/
theorem C9_counterexample :
    (spdk_dif_ctx_init 520 8 true true .type2 ⟨true, true, true, false⟩
        0x123456789 0xFFFF 0x1234 0 0 .fmt64).initRefTag = 0x23456789 ∧
      (0x23456789 : Nat) < 0x100000000 := by
  constructor
  · rfl
  · decide

/-- C9 (amended): the context declares `init_ref_tag` as a 64-bit field for
every PI format (dif.h:92), but `spdk_dif_ctx_init` takes the initial
reference tag as a `uint32_t` (dif.h:162), so for every PI format — the
64-bit one included — the stored initial reference tag is the argument
reduced modulo `2^32` and can never exceed `0xFFFFFFFF`. -/
theorem C9_init_ref_tag_width (blockSize mdSize : Nat)
    (mdInterleave difLoc : Bool) (difType : DifType) (flags : DifFlags)
    (initRefTag apptagMask appTag dataOffset guardSeed : Nat)
    (piFormat : PiFormat) :
    (spdk_dif_ctx_init blockSize mdSize mdInterleave difLoc difType flags
        initRefTag apptagMask appTag dataOffset guardSeed piFormat).initRefTag =
      initRefTag % 2 ^ 32 ∧
    (spdk_dif_ctx_init blockSize mdSize mdInterleave difLoc difType flags
        initRefTag apptagMask appTag dataOffset guardSeed piFormat).initRefTag <
      2 ^ 32 := by
  refine ⟨rfl, ?_⟩
  show initRefTag % 2 ^ 32 < 2 ^ 32
  exact Nat.mod_lt _ (Nat.two_pow_pos 32)

/-- C10: `spdk_dif_ctx_set_remapped_init_ref_tag` takes a `uint32_t`
parameter and the context stores `remapped_init_ref_tag` in a `uint32_t`
field (dif.h:107, 180-181), so the installed remapped initial reference tag
is the argument reduced modulo `2^32` and a value above `0xFFFFFFFF` cannot
be expressed through the public interface, whatever the PI format. -/
theorem C10_remapped_ref_tag_width (ctx : DifCtx) (v : Nat) :
    (spdk_dif_ctx_set_remapped_init_ref_tag ctx v).remappedInitRefTag =
      v % 2 ^ 32 ∧
    (spdk_dif_ctx_set_remapped_init_ref_tag ctx v).remappedInitRefTag <
      2 ^ 32 := by
  refine ⟨rfl, ?_⟩
  show v % 2 ^ 32 < 2 ^ 32
  exact Nat.mod_lt _ (Nat.two_pow_pos 32)

/-- C6 counterexample: for TYPE3, generation writes the all-ones sentinel
independently of `init_ref_tag`, so remapping (with check enabled) a payload
generated with `C = 9 ≠ 5 = A` succeeds with no REFTAG error, contradicting
the claim's universally quantified detection clause. -/
theorem C6_counterexample :
    (9 : Nat) ≠ ctxT3R.initRefTag ∧
    (spdk_dif_remap_ref_tag ctxT3R 1
      (spdk_dif_generate { ctxT3R with initRefTag := 9 } 1
        (List.replicate 12 0)).2 true).1 = 0 ∧
    (spdk_dif_remap_ref_tag ctxT3R 1
      (spdk_dif_generate { ctxT3R with initRefTag := 9 } 1
        (List.replicate 12 0)).2 true).2.2 = none := by
  refine ⟨by decide, ?_, ?_⟩ <;> decide

/-! ## Claim C7 -/

theorem difRemapBlocks_rc (ctx : DifCtx) (check : Bool) (n : Nat) :
    ∀ (i : Nat) (payload : List Nat),
      (difRemapBlocks ctx i n payload check).1 = 0 ∨
        (difRemapBlocks ctx i n payload check).1 = -1 := by
  induction n with
  | zero => intro i payload; exact Or.inl rfl
  | succ n ih =>
    intro i payload
    simp only [difRemapBlocks]
    rcases remapBlock ctx payload i check with e | q
    · exact Or.inr rfl
    · exact ih (i + 1) q

/-- C7 counterexample: `spdk_dif_set_md_interleave_iovs` does not return 0
on success — per its declared contract (dif.h:355-356) it returns the
number of iovec entries used.  At the spec's own scenario 5 it succeeds and
returns 2. -/
theorem C7_counterexample :
    spdk_dif_set_md_interleave_iovs ctx520 10 0 1024 =
      (2, [(0, 512), (520, 512)], 1024) ∧ (2 : Int) ≠ 0 := by
  refine ⟨?_, by decide⟩
  decide

/-- C7 (amended): the mutating, verifying and injecting operations return 0
on success and a negative status on failure — `-EINVAL` (-22) for a payload
size mismatch, returned with the payload unmutated, `-ENOTSUP` (-95) for
error injection when no metadata exists, `-1` with a filled error record
for verification/check failures — while `spdk_dif_set_md_interleave_iovs`
returns the non-negative number of iovec entries used on success and
`-ENOMEM` (-12) when the caller-supplied iovec array is too small. -/
theorem C7_return_codes (ctx : DifCtx) (num : Nat) (payload : List Nat)
    (flags : InjectFlags) (check : Bool) (iovcnt dataOffset dataLen : Nat) :
    (((spdk_dif_generate ctx num payload).1 = 0 ∧
        payload.length = num * ctx.blockSize) ∨
      ((spdk_dif_generate ctx num payload).1 = errEINVAL ∧
        (spdk_dif_generate ctx num payload).2 = payload ∧
        payload.length ≠ num * ctx.blockSize)) ∧
    ((spdk_dif_verify ctx num payload).1 = 0 ∨
      (spdk_dif_verify ctx num payload).1 = -1 ∨
      ((spdk_dif_verify ctx num payload).1 = errEINVAL ∧
        payload.length ≠ num * ctx.blockSize)) ∧
    ((spdk_dif_remap_ref_tag ctx num payload check).1 = 0 ∨
      (spdk_dif_remap_ref_tag ctx num payload check).1 = -1 ∨
      ((spdk_dif_remap_ref_tag ctx num payload check).1 = errEINVAL ∧
        (spdk_dif_remap_ref_tag ctx num payload check).2.1 = payload)) ∧
    (ctx.mdSize = 0 →
      spdk_dif_inject_error ctx num payload flags =
        (errENOTSUP, payload, none)) ∧
    (ctx.mdSize ≠ 0 → payload.length ≠ num * ctx.blockSize →
      spdk_dif_inject_error ctx num payload flags =
        (errEINVAL, payload, none)) ∧
    (ctx.mdSize ≠ 0 → payload.length = num * ctx.blockSize →
      (spdk_dif_inject_error ctx num payload flags).1 = 0) ∧
    ((mdIovsAux ctx.guardInterval ctx.blockSize dataLen dataOffset
        dataLen).length ≤ iovcnt →
      (spdk_dif_set_md_interleave_iovs ctx iovcnt dataOffset dataLen).1 =
        ((mdIovsAux ctx.guardInterval ctx.blockSize dataLen dataOffset
          dataLen).length : Int)) ∧
    (¬(mdIovsAux ctx.guardInterval ctx.blockSize dataLen dataOffset
        dataLen).length ≤ iovcnt →
      (spdk_dif_set_md_interleave_iovs ctx iovcnt dataOffset dataLen).1 =
        errENOMEM) ∧
    errEINVAL < 0 ∧ errENOMEM < 0 ∧ errENOTSUP < 0 := by
  refine ⟨?_, ?_, ?_, ?_, ?_, ?_, ?_, ?_, by decide, by decide, by decide⟩
  · unfold spdk_dif_generate
    by_cases h : payload.length = num * ctx.blockSize
    · rw [if_pos h]
      exact Or.inl ⟨rfl, h⟩
    · rw [if_neg h]
      exact Or.inr ⟨rfl, rfl, h⟩
  · unfold spdk_dif_verify
    by_cases h : payload.length = num * ctx.blockSize
    · rw [if_pos h]
      rcases difVerifyBlocks ctx 0 num payload with _ | e
      · exact Or.inl rfl
      · exact Or.inr (Or.inl rfl)
    · rw [if_neg h]
      exact Or.inr (Or.inr ⟨rfl, h⟩)
  · unfold spdk_dif_remap_ref_tag
    by_cases h : payload.length = num * ctx.blockSize
    · rw [if_pos h]
      rcases difRemapBlocks_rc ctx check num 0 payload with h0 | h1
      · exact Or.inl h0
      · exact Or.inr (Or.inl h1)
    · rw [if_neg h]
      exact Or.inr (Or.inr ⟨rfl, rfl⟩)
  · intro h
    unfold spdk_dif_inject_error
    rw [if_pos h]
  · intro h1 h2
    unfold spdk_dif_inject_error
    rw [if_neg h1, if_pos h2]
  · intro h1 h2
    unfold spdk_dif_inject_error
    rw [if_neg h1, if_neg (by simpa using h2)]
  · intro h
    unfold spdk_dif_set_md_interleave_iovs
    rw [if_pos h]
  · intro h
    unfold spdk_dif_set_md_interleave_iovs
    rw [if_neg h]

/-- Witness for C7: `-ENOTSUP` without metadata, `-EINVAL` on a size
mismatch with the payload returned unmutated, `-ENOMEM` when the iovec
array is too small. -/
theorem C7_witness :
    spdk_dif_inject_error { ctxT1 with mdSize := 0 } 2 pay24
        ⟨false, false, true, false⟩ = (errENOTSUP, pay24, none) ∧
    spdk_dif_inject_error ctxT1 2 (List.replicate 12 0)
        ⟨false, false, true, false⟩ =
      (errEINVAL, List.replicate 12 0, none) ∧
    (spdk_dif_set_md_interleave_iovs ctx520 1 0 1024).1 = errENOMEM :=
  ⟨(C7_return_codes { ctxT1 with mdSize := 0 } 2 pay24
      ⟨false, false, true, false⟩ true 1 0 1024).2.2.2.1 rfl,
    (C7_return_codes ctxT1 2 (List.replicate 12 0)
      ⟨false, false, true, false⟩ true 1 0 1024).2.2.2.2.1 (by decide)
      (by decide),
    (C7_return_codes ctx520 2 pay24 ⟨false, false, true, false⟩ true 1 0
      1024).2.2.2.2.2.2.2.1 (by decide)⟩

/-! ## Supporting lemmas: single-bit flips (error injection, dif.h:279) -/

theorem xor_one_ne (b : Nat) : b ^^^ 1 ≠ b := by
  intro h
  have h1 : (b ^^^ 1) ^^^ b = 0 := by rw [h, Nat.xor_self]
  rw [Nat.xor_comm b 1, Nat.xor_assoc, Nat.xor_self, Nat.xor_zero] at h1
  cases h1

theorem byteAt_lt (p : List Nat) (off : Nat) (h : ∀ b ∈ p, b < 256) :
    byteAt p off < 256 := by
  unfold byteAt
  rcases hp : p[off]? with _ | v
  · simp
  · simpa using h v (List.getElem?_mem hp)

theorem length_flipBit (p : List Nat) (off : Nat) (h : off < p.length) :
    (flipBit p off).length = p.length := by
  unfold flipBit
  exact length_writeBytes p off _
    (by simp only [List.length_cons, List.length_nil]; omega)

/-- Peel the first byte off a read. -/
theorem readBytes_cons (p : List Nat) (off n : Nat) (hoff : off < p.length)
    (hn : 1 ≤ n) :
    readBytes p off n = byteAt p off :: readBytes p (off + 1) (n - 1) := by
  apply List.ext_getElem?
  intro i
  rw [readBytes_getElem?]
  cases i with
  | zero =>
    rw [if_pos (by omega)]
    simp only [List.getElem?_cons_zero, Nat.add_zero, byteAt,
      List.getElem?_eq_getElem hoff, Option.getD_some]
  | succ i =>
    simp only [List.getElem?_cons_succ]
    rw [readBytes_getElem?]
    by_cases hi : i < n - 1
    · rw [if_pos hi, if_pos (by omega)]
      congr 1
      omega
    · rw [if_neg (by omega), if_neg hi]

/-- Reading a range that starts at the flipped byte: the head byte comes
back with bit 0 flipped, the tail is unchanged. -/
theorem readBytes_flipBit_head (p : List Nat) (off n : Nat)
    (hoff : off < p.length) (hn : 1 ≤ n) :
    readBytes (flipBit p off) off n =
      (byteAt p off ^^^ 1) :: readBytes p (off + 1) (n - 1) := by
  have hw : off + ([byteAt p off ^^^ 1] : List Nat).length ≤ p.length := by
    simp only [List.length_cons, List.length_nil]
    omega
  apply List.ext_getElem?
  intro i
  rw [readBytes_getElem?]
  cases i with
  | zero =>
    rw [if_pos (by omega)]
    simp only [List.getElem?_cons_zero, Nat.add_zero, flipBit]
    rw [writeBytes_getElem? _ _ _ hw,
      if_pos ⟨le_rfl, by simp only [List.length_cons, List.length_nil]; omega⟩]
    simp
  | succ i =>
    simp only [List.getElem?_cons_succ]
    rw [readBytes_getElem?]
    by_cases hi : i < n - 1
    · rw [if_pos (by omega)]
      simp only [flipBit]
      rw [writeBytes_getElem? _ _ _ hw,
        if_neg (by simp only [List.length_cons, List.length_nil]; omega),
        if_pos hi]
      congr 1
      omega
    · rw [if_neg (by omega), if_neg hi]

/-- A read disjoint from the flipped byte is unaffected. -/
theorem readBytes_flipBit_disjoint (p : List Nat) (off off2 n : Nat)
    (hoff : off < p.length) (hdis : off2 + n ≤ off ∨ off + 1 ≤ off2) :
    readBytes (flipBit p off) off2 n = readBytes p off2 n := by
  unfold flipBit
  apply readBytes_writeBytes_disjoint
  · simp only [List.length_cons, List.length_nil]
    omega
  · simp only [List.length_cons, List.length_nil]
    omega

theorem beVal_cons (b : Nat) (t : List Nat) :
    beVal (b :: t) = b * 256 ^ t.length + beVal t := by
  simp only [beVal, List.foldl_cons, Nat.zero_mul, Nat.zero_add]
  exact beVal_aux t b

/-- Big-endian values with different head bytes over the same tail differ. -/
theorem beVal_cons_ne (b b' : Nat) (t : List Nat) (hne : b ≠ b') :
    beVal (b :: t) ≠ beVal (b' :: t) := by
  rw [beVal_cons, beVal_cons]
  intro h
  have h2 : b * 256 ^ t.length = b' * 256 ^ t.length := Nat.add_right_cancel h
  exact hne (Nat.eq_of_mul_eq_mul_right
    (Nat.pow_pos (by norm_num : (0 : Nat) < 256)) h2)

theorem beVal_pair (a b : Nat) : beVal [a, b] = a * 256 + b := by
  rw [beVal_cons, beVal_cons]
  simp [beVal]

theorem mem_readBytes (p : List Nat) (off n b : Nat)
    (h : b ∈ readBytes p off n) : b ∈ p := by
  unfold readBytes at h
  exact List.mem_of_mem_drop (List.mem_of_mem_take h)

theorem mem_writeBytes_lt (l v : List Nat) (off : Nat)
    (hl : ∀ b ∈ l, b < 256) (hv : ∀ b ∈ v, b < 256) :
    ∀ b ∈ writeBytes l off v, b < 256 := by
  intro b hb
  unfold writeBytes at hb
  rcases List.mem_append.mp hb with hb1 | hb2
  · rcases List.mem_append.mp hb1 with h | h
    · exact hl b (List.mem_of_mem_take h)
    · exact hv b h
  · exact hl b (List.mem_of_mem_drop hb2)

theorem mem_writePi_lt (ctx : DifCtx) (payload : List Nat) (i g a r : Nat)
    (h : ∀ b ∈ payload, b < 256) :
    ∀ b ∈ writePi ctx payload i g a r, b < 256 := by
  unfold writePi
  exact mem_writeBytes_lt _ _ _
    (mem_writeBytes_lt _ _ _
      (mem_writeBytes_lt _ _ _ h (bePut_lt _ _)) (bePut_lt _ _)) (bePut_lt _ _)

theorem mem_genPiBlock_lt (ctx : DifCtx) (payload : List Nat) (i : Nat)
    (h : ∀ b ∈ payload, b < 256) : ∀ b ∈ genPiBlock ctx payload i, b < 256 := by
  unfold genPiBlock genPiBlockG
  exact mem_writePi_lt ctx payload i _ _ _ h

/-- Bulk generation writes only byte values, so byte-ranged payloads stay
byte-ranged. -/
theorem mem_difGenerateBlocks_lt (ctx : DifCtx) (n : Nat) :
    ∀ (i : Nat) (payload : List Nat), (∀ b ∈ payload, b < 256) →
      ∀ b ∈ difGenerateBlocks ctx i n payload, b < 256 := by
  induction n with
  | zero =>
    intro i payload h
    simp only [difGenerateBlocks]
    exact h
  | succ n ih =>
    intro i payload h
    simp only [difGenerateBlocks]
    exact ih (i + 1) _ (mem_genPiBlock_lt ctx payload i h)

theorem readBytes_one (p : List Nat) (off : Nat) (hoff : off < p.length) :
    readBytes p off 1 = [byteAt p off] := by
  rw [readBytes_cons p off 1 hoff le_rfl]
  rfl

theorem readBytes_two (p : List Nat) (off : Nat) (h : off + 1 < p.length) :
    readBytes p off 2 = [byteAt p off, byteAt p (off + 1)] := by
  rw [readBytes_cons p off 2 (by omega) (by omega),
    show (2 : Nat) - 1 = 1 from rfl, readBytes_one p (off + 1) (by omega)]

/-! ## Supporting lemmas: stream engine (spec §4.F) -/

theorem readBytes_split (l : List Nat) (a m n : Nat) :
    readBytes l a (m + n) = readBytes l a m ++ readBytes l (a + m) n := by
  unfold readBytes
  rw [List.take_add]
  congr 1
  rw [List.drop_drop]

theorem ctxCrc_append (ctx : DifCtx) (s : Nat) (l1 l2 : List Nat) :
    ctxCrc ctx s (l1 ++ l2) = ctxCrc ctx (ctxCrc ctx s l1) l2 := by
  unfold ctxCrc
  exact crcBytes_append _ _ _ _ _

/-- Quotient and remainder after the stream loop completes a block. -/
theorem stream_div_complete (gi c t : Nat) (hgi : 0 < gi)
    (h : c % gi + t = gi) :
    (c + t) / gi = c / gi + 1 ∧ (c + t) % gi = 0 := by
  have hdm : gi * (c / gi) + c % gi = c := Nat.div_add_mod c gi
  have hct : c + t = gi * (c / gi + 1) := by
    rw [Nat.mul_succ]
    omega
  rw [hct]
  exact ⟨Nat.mul_div_cancel_left _ hgi, Nat.mul_mod_right _ _⟩

/-- Quotient and remainder after the stream loop consumes a partial block. -/
theorem stream_div_partial (gi c len : Nat) (hgi : 0 < gi)
    (h : c % gi + len < gi) :
    (c + len) / gi = c / gi ∧ (c + len) % gi = c % gi + len := by
  have hdm : gi * (c / gi) + c % gi = c := Nat.div_add_mod c gi
  have hct : c + len = gi * (c / gi) + (c % gi + len) := by omega
  rw [hct]
  constructor
  · rw [Nat.mul_add_div hgi, Nat.div_eq_of_lt h, Nat.add_zero]
  · rw [Nat.mul_add_mod, Nat.mod_eq_of_lt h]

theorem stream_div_lt (gi c num : Nat) (hgi : 0 < gi) (h : c < num * gi) :
    c / gi < num := by
  by_contra hcon
  push_neg at hcon
  have h1 : num * gi ≤ c / gi * gi := Nat.mul_le_mul_right _ hcon
  have h2 : c / gi * gi ≤ c := Nat.div_mul_le_self c gi
  omega

/-- Bulk generation advances one block at a time, at the high end. -/
theorem difGenerateBlocks_snoc (ctx : DifCtx) (n : Nat) :
    ∀ (i : Nat) (payload : List Nat),
      difGenerateBlocks ctx i (n + 1) payload =
        genPiBlock ctx (difGenerateBlocks ctx i n payload) (i + n) := by
  induction n with
  | zero =>
    intro i payload
    simp only [difGenerateBlocks, Nat.add_zero]
  | succ n ih =>
    intro i payload
    rw [show i + (n + 1) = i + 1 + n by omega]
    simp only [difGenerateBlocks]
    exact ih (i + 1) (genPiBlock ctx payload i)

/-- Bulk verification splits at any block boundary: the first error of
`m + k` blocks is the first error of the first `m`, else of the last `k`. -/
theorem difVerifyBlocks_add (ctx : DifCtx) (m k : Nat) :
    ∀ (i : Nat) (payload : List Nat),
      difVerifyBlocks ctx i (m + k) payload =
        match difVerifyBlocks ctx i m payload with
        | some e => some e
        | none => difVerifyBlocks ctx (i + m) k payload := by
  induction m with
  | zero =>
    intro i payload
    simp only [difVerifyBlocks, Nat.zero_add, Nat.add_zero]
  | succ m ih =>
    intro i payload
    rw [show m + 1 + k = (m + k) + 1 by omega]
    simp only [difVerifyBlocks]
    rcases hv : verifyBlock ctx payload i with _ | e
    · rw [ih (i + 1) payload, show i + 1 + m = i + (m + 1) by omega]
    · rfl

/-- Reads inside the data region of block `b` are unaffected by generating
PI for the blocks before `b`. -/
theorem readBytes_difGenerateBlocks_data (ctx : DifCtx) (hwf : WfCtx ctx)
    (b o m : Nat) (payload : List Nat)
    (hb : b * ctx.blockSize ≤ payload.length) :
    readBytes (difGenerateBlocks ctx 0 b payload)
        (b * ctx.blockSize + o) m =
      readBytes payload (b * ctx.blockSize + o) m := by
  apply readBytes_difGenerateBlocks_disjoint ctx hwf b 0 payload _ _
    (by rw [Nat.zero_add]; exact hb)
  intro j hj0 hjb
  rw [Nat.zero_add] at hjb
  right
  unfold piBase
  have hpi := hwf.2.1
  have hmul : (j + 1) * ctx.blockSize ≤ b * ctx.blockSize :=
    Nat.mul_le_mul_right _ (by omega)
  rw [Nat.succ_mul] at hmul
  omega

/-- The stream-generate loop ignores the context's `lastGuard` and
`dataOffset` fields (the running guard is threaded as an argument). -/
theorem streamGenAux_ctx_update (ctx : DifCtx) (lg' doff : Nat)
    (fuel : Nat) :
    ∀ (payload : List Nat) (off len lg : Nat),
      streamGenAux { ctx with lastGuard := lg', dataOffset := doff } fuel
          payload off len lg =
        streamGenAux ctx fuel payload off len lg := by
  induction fuel with
  | zero => intro payload off len lg; rfl
  | succ f ih =>
    intro payload off len lg
    have h1 : ({ ctx with lastGuard := lg', dataOffset := doff } :
        DifCtx).guardInterval = ctx.guardInterval := rfl
    have h2 : ({ ctx with lastGuard := lg', dataOffset := doff } :
        DifCtx).blockSize = ctx.blockSize := rfl
    have h3 : ({ ctx with lastGuard := lg', dataOffset := doff } :
        DifCtx).guardSeed = ctx.guardSeed := rfl
    have h4 : ctxCrc { ctx with lastGuard := lg', dataOffset := doff } =
        ctxCrc ctx := rfl
    have h5 : genPiBlockG { ctx with lastGuard := lg', dataOffset := doff } =
        genPiBlockG ctx := rfl
    simp only [streamGenAux, h1, h2, h3, h4, h5, ih]

/-- The stream-verify loop ignores `lastGuard` and `dataOffset` as well. -/
theorem streamVerAux_ctx_update (ctx : DifCtx) (lg' doff : Nat)
    (fuel : Nat) :
    ∀ (payload : List Nat) (off len lg : Nat),
      streamVerAux { ctx with lastGuard := lg', dataOffset := doff } fuel
          payload off len lg =
        streamVerAux ctx fuel payload off len lg := by
  induction fuel with
  | zero => intro payload off len lg; rfl
  | succ f ih =>
    intro payload off len lg
    have h1 : ({ ctx with lastGuard := lg', dataOffset := doff } :
        DifCtx).guardInterval = ctx.guardInterval := rfl
    have h2 : ({ ctx with lastGuard := lg', dataOffset := doff } :
        DifCtx).blockSize = ctx.blockSize := rfl
    have h3 : ({ ctx with lastGuard := lg', dataOffset := doff } :
        DifCtx).guardSeed = ctx.guardSeed := rfl
    have h4 : ctxCrc { ctx with lastGuard := lg', dataOffset := doff } =
        ctxCrc ctx := rfl
    have h5 : verifyBlockG { ctx with lastGuard := lg', dataOffset := doff } =
        verifyBlockG ctx := rfl
    simp only [streamVerAux, h1, h2, h3, h4, h5, ih]

/-- Stream-generate invariant (spec §4.F vs §4.E): starting from a payload
whose first `c / guard_interval` blocks are bulk-generated, at data offset
`c`, carrying the stream state, the loop yields the bulk generation of every
block the next `len` data bytes complete, plus the state at `c + len`. -/
theorem streamGenAux_inv (ctx : DifCtx) (hwf : WfCtx ctx) (num : Nat)
    (payload : List Nat) (hlen : payload.length = num * ctx.blockSize) :
    ∀ (len fuel c : Nat), len ≤ fuel →
      c + len ≤ num * ctx.guardInterval →
      streamGenAux ctx fuel
          (difGenerateBlocks ctx 0 (c / ctx.guardInterval) payload) c len
          (streamState ctx payload c) =
        (difGenerateBlocks ctx 0 ((c + len) / ctx.guardInterval) payload,
          streamState ctx payload (c + len)) := by
  intro len
  induction len using Nat.strong_induction_on with
  | _ len ih =>
    intro fuel c hfuel hbound
    have hgi : 0 < ctx.guardInterval := hwf.1
    rcases Nat.eq_zero_or_pos len with rfl | hpos
    · cases fuel with
      | zero =>
        rw [Nat.add_zero]
        rfl
      | succ f =>
        simp [streamGenAux]
    · obtain ⟨f, rfl⟩ : ∃ f, fuel = f + 1 := ⟨fuel - 1, by omega⟩
      have hplt : c % ctx.guardInterval < ctx.guardInterval := Nat.mod_lt _ hgi
      have hbnum : c / ctx.guardInterval < num :=
        stream_div_lt ctx.guardInterval c num hgi (by omega)
      have hblen : c / ctx.guardInterval * ctx.blockSize ≤ payload.length := by
        rw [hlen]
        exact Nat.mul_le_mul_right _ (Nat.le_of_lt hbnum)
      simp only [streamGenAux]
      rw [if_neg (by omega)]
      by_cases hcomp : c % ctx.guardInterval +
          min len (ctx.guardInterval - c % ctx.guardInterval) =
            ctx.guardInterval
      · rw [if_pos hcomp]
        have htpos :
            0 < min len (ctx.guardInterval - c % ctx.guardInterval) := by
          omega
        have hdc := stream_div_complete ctx.guardInterval c
          (min len (ctx.guardInterval - c % ctx.guardInterval)) hgi hcomp
        have hdata : readBytes
            (difGenerateBlocks ctx 0 (c / ctx.guardInterval) payload)
            (c / ctx.guardInterval * ctx.blockSize + c % ctx.guardInterval)
            (min len (ctx.guardInterval - c % ctx.guardInterval)) =
              readBytes payload
                (c / ctx.guardInterval * ctx.blockSize + c % ctx.guardInterval)
                (min len (ctx.guardInterval - c % ctx.guardInterval)) :=
          readBytes_difGenerateBlocks_data ctx hwf _ _ _ payload hblen
        have hint : ctxCrc ctx
            (if c % ctx.guardInterval = 0 then ctx.guardSeed
              else streamState ctx payload c)
            (readBytes
              (difGenerateBlocks ctx 0 (c / ctx.guardInterval) payload)
              (c / ctx.guardInterval * ctx.blockSize + c % ctx.guardInterval)
              (min len (ctx.guardInterval - c % ctx.guardInterval))) =
            computedGuard ctx payload (c / ctx.guardInterval) := by
          rw [hdata]
          by_cases hp0 : c % ctx.guardInterval = 0
          · rw [if_pos hp0]
            unfold computedGuard
            rw [hp0, Nat.add_zero]
            congr 2
            omega
          · rw [if_neg hp0]
            unfold streamState
            rw [if_neg hp0, ← ctxCrc_append, ← readBytes_split]
            unfold computedGuard
            congr 2
        rw [hint]
        have hsnoc : genPiBlockG ctx
            (difGenerateBlocks ctx 0 (c / ctx.guardInterval) payload)
            (c / ctx.guardInterval)
            (computedGuard ctx payload (c / ctx.guardInterval)) =
            difGenerateBlocks ctx 0 (c / ctx.guardInterval + 1) payload := by
          rw [show computedGuard ctx payload (c / ctx.guardInterval) =
              computedGuard ctx
                (difGenerateBlocks ctx 0 (c / ctx.guardInterval) payload)
                (c / ctx.guardInterval) from
            (computedGuard_difGenerateBlocks ctx hwf (c / ctx.guardInterval) 0
              (c / ctx.guardInterval) payload
              (by rw [Nat.zero_add]; exact hblen)).symm]
          rw [difGenerateBlocks_snoc ctx (c / ctx.guardInterval) 0 payload,
            Nat.zero_add]
          rfl
        rw [hsnoc]
        have hss : streamState ctx payload
            (c + min len (ctx.guardInterval - c % ctx.guardInterval)) =
            ctx.guardSeed := by
          unfold streamState
          rw [hdc.2]
          simp
        have hrec := ih
          (len - min len (ctx.guardInterval - c % ctx.guardInterval))
          (by omega) f
          (c + min len (ctx.guardInterval - c % ctx.guardInterval))
          (by omega) (by omega)
        rw [hdc.1, hss,
          show c + min len (ctx.guardInterval - c % ctx.guardInterval) +
            (len - min len (ctx.guardInterval - c % ctx.guardInterval)) =
            c + len by omega] at hrec
        exact hrec
      · rw [if_neg hcomp]
        have htl : min len (ctx.guardInterval - c % ctx.guardInterval) =
            len := by omega
        have hplen : c % ctx.guardInterval + len < ctx.guardInterval := by
          omega
        have hdp := stream_div_partial ctx.guardInterval c len hgi hplen
        rw [htl, hdp.1]
        have hdata : readBytes
            (difGenerateBlocks ctx 0 (c / ctx.guardInterval) payload)
            (c / ctx.guardInterval * ctx.blockSize + c % ctx.guardInterval)
            len =
              readBytes payload
                (c / ctx.guardInterval * ctx.blockSize + c % ctx.guardInterval)
                len :=
          readBytes_difGenerateBlocks_data ctx hwf _ _ _ payload hblen
        rw [hdata]
        have hstate : ctxCrc ctx
            (if c % ctx.guardInterval = 0 then ctx.guardSeed
              else streamState ctx payload c)
            (readBytes payload
              (c / ctx.guardInterval * ctx.blockSize + c % ctx.guardInterval)
              len) =
            streamState ctx payload (c + len) := by
          have hrhs : streamState ctx payload (c + len) =
              ctxCrc ctx ctx.guardSeed
                (readBytes payload
                  (c / ctx.guardInterval * ctx.blockSize)
                  (c % ctx.guardInterval + len)) := by
            unfold streamState
            rw [hdp.1, hdp.2, if_neg (by omega)]
          rw [hrhs]
          by_cases hp0 : c % ctx.guardInterval = 0
          · rw [if_pos hp0, hp0, Nat.add_zero, Nat.zero_add]
          · rw [if_neg hp0]
            unfold streamState
            rw [if_neg hp0, ← ctxCrc_append, ← readBytes_split]
        rw [hstate]

/-- Stream-verify invariant (spec §4.F vs §4.E): at data offset `c`, carrying
the stream state, the loop checks exactly the blocks the next `len` data
bytes complete, reporting the first failing block's record, else the state
at `c + len`. -/
theorem streamVerAux_inv (ctx : DifCtx) (hgi : 0 < ctx.guardInterval)
    (payload : List Nat) :
    ∀ (len fuel c : Nat), len ≤ fuel →
      streamVerAux ctx fuel payload c len (streamState ctx payload c) =
        match difVerifyBlocks ctx (c / ctx.guardInterval)
            ((c + len) / ctx.guardInterval - c / ctx.guardInterval) payload with
        | some e => Except.error e
        | none => Except.ok (streamState ctx payload (c + len)) := by
  intro len
  induction len using Nat.strong_induction_on with
  | _ len ih =>
    intro fuel c hfuel
    rcases Nat.eq_zero_or_pos len with rfl | hpos
    · rw [Nat.add_zero, Nat.sub_self]
      cases fuel with
      | zero => rfl
      | succ f =>
        simp [streamVerAux]
        rfl
    · obtain ⟨f, rfl⟩ : ∃ f, fuel = f + 1 := ⟨fuel - 1, by omega⟩
      have hplt : c % ctx.guardInterval < ctx.guardInterval := Nat.mod_lt _ hgi
      simp only [streamVerAux]
      rw [if_neg (by omega)]
      by_cases hcomp : c % ctx.guardInterval +
          min len (ctx.guardInterval - c % ctx.guardInterval) =
            ctx.guardInterval
      · rw [if_pos hcomp]
        have htpos :
            0 < min len (ctx.guardInterval - c % ctx.guardInterval) := by
          omega
        have hdc := stream_div_complete ctx.guardInterval c
          (min len (ctx.guardInterval - c % ctx.guardInterval)) hgi hcomp
        have hint : ctxCrc ctx
            (if c % ctx.guardInterval = 0 then ctx.guardSeed
              else streamState ctx payload c)
            (readBytes payload
              (c / ctx.guardInterval * ctx.blockSize + c % ctx.guardInterval)
              (min len (ctx.guardInterval - c % ctx.guardInterval))) =
            computedGuard ctx payload (c / ctx.guardInterval) := by
          by_cases hp0 : c % ctx.guardInterval = 0
          · rw [if_pos hp0]
            unfold computedGuard
            rw [hp0, Nat.add_zero]
            congr 2
            omega
          · rw [if_neg hp0]
            unfold streamState
            rw [if_neg hp0, ← ctxCrc_append, ← readBytes_split]
            unfold computedGuard
            congr 2
        rw [hint,
          show verifyBlockG ctx payload (c / ctx.guardInterval)
              (computedGuard ctx payload (c / ctx.guardInterval)) =
            verifyBlock ctx payload (c / ctx.guardInterval) from rfl]
        have hmono : c / ctx.guardInterval + 1 ≤
            (c + len) / ctx.guardInterval := by
          rw [← hdc.1]
          exact Nat.div_le_div_right (by omega)
        rw [show (c + len) / ctx.guardInterval - c / ctx.guardInterval =
            ((c + len) / ctx.guardInterval - (c / ctx.guardInterval + 1)) + 1
            from by omega]
        simp only [difVerifyBlocks]
        rcases hv : verifyBlock ctx payload (c / ctx.guardInterval) with _ | e
        · have hss : streamState ctx payload
              (c + min len (ctx.guardInterval - c % ctx.guardInterval)) =
              ctx.guardSeed := by
            unfold streamState
            rw [hdc.2]
            simp
          have hrec := ih
            (len - min len (ctx.guardInterval - c % ctx.guardInterval))
            (by omega) f
            (c + min len (ctx.guardInterval - c % ctx.guardInterval))
            (by omega)
          rw [hdc.1, hss,
            show c + min len (ctx.guardInterval - c % ctx.guardInterval) +
              (len - min len (ctx.guardInterval - c % ctx.guardInterval)) =
              c + len by omega] at hrec
          exact hrec
        · rfl
      · rw [if_neg hcomp]
        have htl : min len (ctx.guardInterval - c % ctx.guardInterval) =
            len := by omega
        have hplen : c % ctx.guardInterval + len < ctx.guardInterval := by
          omega
        have hdp := stream_div_partial ctx.guardInterval c len hgi hplen
        rw [htl, hdp.1, Nat.sub_self]
        have hstate : ctxCrc ctx
            (if c % ctx.guardInterval = 0 then ctx.guardSeed
              else streamState ctx payload c)
            (readBytes payload
              (c / ctx.guardInterval * ctx.blockSize + c % ctx.guardInterval)
              len) =
            streamState ctx payload (c + len) := by
          have hrhs : streamState ctx payload (c + len) =
              ctxCrc ctx ctx.guardSeed
                (readBytes payload
                  (c / ctx.guardInterval * ctx.blockSize)
                  (c % ctx.guardInterval + len)) := by
            unfold streamState
            rw [hdp.1, hdp.2, if_neg (by omega)]
          rw [hrhs]
          by_cases hp0 : c % ctx.guardInterval = 0
          · rw [if_pos hp0, hp0, Nat.add_zero, Nat.zero_add]
          · rw [if_neg hp0]
            unfold streamState
            rw [if_neg hp0, ← ctxCrc_append, ← readBytes_split]
        rw [hstate]
        rfl

/-- Folding `spdk_dif_generate_stream` over consecutive fragments tracks
bulk generation fragment by fragment. -/
theorem runGenStream_inv (ctx : DifCtx) (hwf : WfCtx ctx) (num : Nat)
    (payload : List Nat) (hlen : payload.length = num * ctx.blockSize) :
    ∀ (frags : List (Nat × Nat)) (c d : Nat),
      ConsecutiveFrom c frags →
      c + (frags.map Prod.snd).sum ≤ num * ctx.guardInterval →
      runGenStream
          { ctx with lastGuard := streamState ctx payload c, dataOffset := d }
          (difGenerateBlocks ctx 0 (c / ctx.guardInterval) payload) frags =
        (difGenerateBlocks ctx 0
            ((c + (frags.map Prod.snd).sum) / ctx.guardInterval) payload,
          { ctx with
            lastGuard := streamState ctx payload
              (c + (frags.map Prod.snd).sum),
            dataOffset := d + (frags.map Prod.snd).sum }) := by
  intro frags
  induction frags with
  | nil =>
    intro c d hcons hbound
    simp only [runGenStream, List.map_nil, List.sum_nil, Nat.add_zero]
  | cons fr fs ihf =>
    intro c d hcons hbound
    obtain ⟨hf1, hrest⟩ := hcons
    simp only [List.map_cons, List.sum_cons] at hbound ⊢
    simp only [runGenStream, spdk_dif_generate_stream, hf1]
    rw [streamGenAux_ctx_update ctx (streamState ctx payload c) d fr.2 _ c
      fr.2 (streamState ctx payload c)]
    rw [streamGenAux_inv ctx hwf num payload hlen fr.2 fr.2 c le_rfl
      (by omega)]
    have hres := ihf (c + fr.2) (d + fr.2) hrest (by omega)
    rw [show c + (fr.2 + (List.map Prod.snd fs).sum) =
        c + fr.2 + (List.map Prod.snd fs).sum from (Nat.add_assoc _ _ _).symm,
      show d + (fr.2 + (List.map Prod.snd fs).sum) =
        d + fr.2 + (List.map Prod.snd fs).sum from (Nat.add_assoc _ _ _).symm]
    exact hres

/-- Folding `spdk_dif_verify_stream` over consecutive fragments reports the
first failing block of the covered range, block by ascending block. -/
theorem runVerStream_inv (ctx : DifCtx) (hgi : 0 < ctx.guardInterval)
    (payload : List Nat) :
    ∀ (frags : List (Nat × Nat)) (c d : Nat),
      ConsecutiveFrom c frags →
      (runVerStream
          { ctx with lastGuard := streamState ctx payload c, dataOffset := d }
          payload frags).1 =
        difVerifyBlocks ctx (c / ctx.guardInterval)
          ((c + (frags.map Prod.snd).sum) / ctx.guardInterval -
            c / ctx.guardInterval) payload := by
  intro frags
  induction frags with
  | nil =>
    intro c d hcons
    simp only [runVerStream, List.map_nil, List.sum_nil, Nat.add_zero,
      Nat.sub_self]
    rfl
  | cons fr fs ihf =>
    intro c d hcons
    obtain ⟨hf1, hrest⟩ := hcons
    simp only [List.map_cons, List.sum_cons]
    have hm1 : c / ctx.guardInterval ≤ (c + fr.2) / ctx.guardInterval :=
      Nat.div_le_div_right (by omega)
    have hm2 : (c + fr.2) / ctx.guardInterval ≤
        (c + fr.2 + (List.map Prod.snd fs).sum) / ctx.guardInterval :=
      Nat.div_le_div_right (by omega)
    rcases hv : difVerifyBlocks ctx (c / ctx.guardInterval)
        ((c + fr.2) / ctx.guardInterval - c / ctx.guardInterval) payload
      with _ | e
    · have hfrag : streamVerAux ctx fr.2 payload c fr.2
          (streamState ctx payload c) =
          Except.ok (streamState ctx payload (c + fr.2)) := by
        rw [streamVerAux_inv ctx hgi payload fr.2 fr.2 c le_rfl, hv]
      simp only [runVerStream, spdk_dif_verify_stream, hf1]
      rw [streamVerAux_ctx_update ctx (streamState ctx payload c) d fr.2
        payload c fr.2 (streamState ctx payload c)]
      rw [hfrag]
      rw [show c + (fr.2 + (List.map Prod.snd fs).sum) =
          c + fr.2 + (List.map Prod.snd fs).sum from (Nat.add_assoc _ _ _).symm]
      rw [show (c + fr.2 + (List.map Prod.snd fs).sum) / ctx.guardInterval -
            c / ctx.guardInterval =
          ((c + fr.2) / ctx.guardInterval - c / ctx.guardInterval) +
            ((c + fr.2 + (List.map Prod.snd fs).sum) / ctx.guardInterval -
              (c + fr.2) / ctx.guardInterval) from by omega]
      rw [difVerifyBlocks_add ctx _ _ (c / ctx.guardInterval) payload, hv]
      rw [show c / ctx.guardInterval +
          ((c + fr.2) / ctx.guardInterval - c / ctx.guardInterval) =
        (c + fr.2) / ctx.guardInterval from by omega]
      exact ihf (c + fr.2) (d + fr.2) hrest
    · have hfrag : streamVerAux ctx fr.2 payload c fr.2
          (streamState ctx payload c) = Except.error e := by
        rw [streamVerAux_inv ctx hgi payload fr.2 fr.2 c le_rfl, hv]
      simp only [runVerStream, spdk_dif_verify_stream, hf1]
      rw [streamVerAux_ctx_update ctx (streamState ctx payload c) d fr.2
        payload c fr.2 (streamState ctx payload c)]
      rw [hfrag]
      rw [show c + (fr.2 + (List.map Prod.snd fs).sum) =
          c + fr.2 + (List.map Prod.snd fs).sum from (Nat.add_assoc _ _ _).symm]
      rw [show (c + fr.2 + (List.map Prod.snd fs).sum) / ctx.guardInterval -
            c / ctx.guardInterval =
          ((c + fr.2) / ctx.guardInterval - c / ctx.guardInterval) +
            ((c + fr.2 + (List.map Prod.snd fs).sum) / ctx.guardInterval -
              (c + fr.2) / ctx.guardInterval) from by omega]
      rw [difVerifyBlocks_add ctx _ _ (c / ctx.guardInterval) payload, hv]

/-! ## Claim C8 -/

/-- C8 counterexample: a correctly generated payload whose stored app tag is
the `0xFFFF` sentinel (TYPE2 context configured with `app_tag = 0xFFFF`)
defeats inject-then-detect: GUARD-flag injection flips a guard bit and
stores block index 0 in `*inject_offset`, yet `spdk_dif_verify` succeeds —
the sentinel skips the whole PI check of the block — instead of reporting a
GUARD error at block 0 as the claim demands for every generated payload. -/
theorem C8_counterexample :
    (spdk_dif_inject_error ctxT2FF 1
        (spdk_dif_generate ctxT2FF 1 (List.replicate 12 0)).2
        ⟨false, false, true, false⟩).2.2 = some 0 ∧
      spdk_dif_verify ctxT2FF 1
        (spdk_dif_inject_error ctxT2FF 1
          (spdk_dif_generate ctxT2FF 1 (List.replicate 12 0)).2
          ⟨false, false, true, false⟩).2.1 = (0, none) := by
  decide

/-- C8 (amended): over a correctly generated payload under a context with
all three checks enabled, metadata present, byte-ranged data, a full
app-tag mask, and a configured app tag that neither is the `0xFFFF` skip
sentinel nor becomes it under the injected bit flip (`app_tag ≠ 0xFEFF`),
each single-flag error injection stores block index 0 in `*inject_offset`
and a subsequent verify reports an error of the matching type at block 0:
GUARD for the GUARD flag, APPTAG for the APPTAG flag, REFTAG for the
REFTAG flag (non-DISABLE type), and GUARD for the DATA flag (the guard
covers the data); with all four flags set one flip per selected region is
performed — REFTAG, APPTAG, GUARD, DATA in order — and `*inject_offset`
stores the block index of the last flip.  The original claim fails for
generated payloads carrying the app-tag skip sentinel (see the
counterexample). -/
theorem C8_inject_then_detect (ctx : DifCtx) (num : Nat) (payload : List Nat)
    (hwf : WfCtx ctx)
    (hG : ctx.flags.guardCheck = true) (hA : ctx.flags.apptagCheck = true)
    (hR : ctx.flags.reftagCheck = true)
    (hlen : payload.length = num * ctx.blockSize) (hnum : 0 < num)
    (hmd : ctx.mdSize ≠ 0) (happ : ctx.appTag ≠ APPTAG_IGNORE)
    (hmask : ctx.apptagMask = 0xFFFF) (hfe : ctx.appTag ≠ 0xFEFF)
    (hty : ctx.difType ≠ .disable)
    (hbytes : ∀ b ∈ payload, b < 256) :
    ((spdk_dif_inject_error ctx num (spdk_dif_generate ctx num payload).2
        ⟨false, false, true, false⟩).2.2 = some 0 ∧
      ∃ e, spdk_dif_verify ctx num
          (spdk_dif_inject_error ctx num (spdk_dif_generate ctx num payload).2
            ⟨false, false, true, false⟩).2.1 = (-1, some e) ∧
        e.errType = .guard ∧ e.errOffset = 0) ∧
    ((spdk_dif_inject_error ctx num (spdk_dif_generate ctx num payload).2
        ⟨false, true, false, false⟩).2.2 = some 0 ∧
      ∃ e, spdk_dif_verify ctx num
          (spdk_dif_inject_error ctx num (spdk_dif_generate ctx num payload).2
            ⟨false, true, false, false⟩).2.1 = (-1, some e) ∧
        e.errType = .apptag ∧ e.errOffset = 0) ∧
    ((spdk_dif_inject_error ctx num (spdk_dif_generate ctx num payload).2
        ⟨true, false, false, false⟩).2.2 = some 0 ∧
      ∃ e, spdk_dif_verify ctx num
          (spdk_dif_inject_error ctx num (spdk_dif_generate ctx num payload).2
            ⟨true, false, false, false⟩).2.1 = (-1, some e) ∧
        e.errType = .reftag ∧ e.errOffset = 0) ∧
    ((spdk_dif_inject_error ctx num (spdk_dif_generate ctx num payload).2
        ⟨false, false, false, true⟩).2.2 = some 0 ∧
      ∃ e, spdk_dif_verify ctx num
          (spdk_dif_inject_error ctx num (spdk_dif_generate ctx num payload).2
            ⟨false, false, false, true⟩).2.1 = (-1, some e) ∧
        e.errType = .guard ∧ e.errOffset = 0) ∧
    ((spdk_dif_inject_error ctx num (spdk_dif_generate ctx num payload).2
        ⟨true, true, true, true⟩).2.2 = some 0 ∧
      (spdk_dif_inject_error ctx num (spdk_dif_generate ctx num payload).2
          ⟨true, true, true, true⟩).2.1 =
        flipBit (flipBit (flipBit (flipBit
          (spdk_dif_generate ctx num payload).2
          (piBase ctx 0 + refOffset ctx.piFormat))
          (piBase ctx 0 + guardBytes ctx.piFormat)) (piBase ctx 0)) 0) := by
  obtain ⟨hgeo1, hgeo2, hgw8, hsigle, hgbpos⟩ := fmt_geom ctx.piFormat
  have hrbpos : 0 < refBytes ctx.piFormat := by cases ctx.piFormat <;> decide
  have hgi : 0 < ctx.guardInterval := hwf.1
  have hpi : ctx.guardInterval + piSize ctx.piFormat ≤ ctx.blockSize := hwf.2.1
  have hmdlt : ctx.mdSize < ctx.blockSize := hwf.2.2.2.1
  have happlt : ctx.appTag < 2 ^ 16 := hwf.2.2.2.2.1
  have hseed : ctx.guardSeed < 2 ^ guardWidth ctx.piFormat := hwf.2.2.2.2.2.2
  simp only [spdk_dif_generate, if_pos hlen]
  set gen := difGenerateBlocks ctx 0 num payload with hgdef
  have hbulk : (0 + num) * ctx.blockSize ≤ payload.length := by
    rw [Nat.zero_add, hlen]
  have hglen : gen.length = payload.length :=
    length_difGenerateBlocks ctx hwf num 0 payload hbulk
  have hbsle : ctx.blockSize ≤ num * ctx.blockSize := by
    calc ctx.blockSize = 1 * ctx.blockSize := (Nat.one_mul _).symm
      _ ≤ num * ctx.blockSize := Nat.mul_le_mul_right _ hnum
  have hlenN : gen.length = num * ctx.blockSize := by rw [hglen, hlen]
  have hpb0 : piBase ctx 0 = ctx.guardInterval := by simp [piBase]
  have hfitlen : ctx.guardInterval + piSize ctx.piFormat ≤ gen.length := by
    rw [hlenN]
    omega
  have hsG : readGuard ctx gen 0 = computedGuard ctx payload 0 :=
    readGuard_difGenerateBlocks_self ctx hwf hG num 0 0 payload le_rfl
      (by omega) hbulk
  have hsA : readApp ctx gen 0 = ctx.appTag :=
    readApp_difGenerateBlocks_self ctx hwf hA num 0 0 payload le_rfl
      (by omega) hbulk
  have hsR : readRef ctx gen 0 = genRefTag ctx 0 :=
    readRef_difGenerateBlocks_self ctx hwf hR num 0 0 payload le_rfl
      (by omega) hbulk
  have hcg : computedGuard ctx gen 0 = computedGuard ctx payload 0 :=
    computedGuard_difGenerateBlocks ctx hwf num 0 0 payload hbulk
  have hgbytes : ∀ b ∈ gen, b < 256 :=
    mem_difGenerateBlocks_lt ctx num 0 payload hbytes
  have verdict : ∀ (q : List Nat) (e : DifError),
      q.length = num * ctx.blockSize → verifyBlock ctx q 0 = some e →
      spdk_dif_verify ctx num q = (-1, some e) := by
    intro q e hq hv
    unfold spdk_dif_verify
    rw [if_pos hq]
    have hdv : difVerifyBlocks ctx 0 num q = some e := by
      rw [difVerifyBlocks_eq_some_iff]
      exact ⟨0, le_rfl, by omega, hv, fun k hk1 hk2 => absurd hk2 (by omega)⟩
    rw [hdv]
  refine ⟨?_, ?_, ?_, ?_, ?_⟩
  · -- GUARD flag
    have h0G : piBase ctx 0 < gen.length := by
      rw [hpb0]
      omega
    have hinj : spdk_dif_inject_error ctx num gen ⟨false, false, true, false⟩ =
        (0, flipBit gen (piBase ctx 0), some 0) := by
      unfold spdk_dif_inject_error
      rw [if_neg hmd, if_neg (not_not_intro hlenN)]
      exact rfl
    have hflen : (flipBit gen (piBase ctx 0)).length = num * ctx.blockSize := by
      rw [length_flipBit gen _ h0G, hlenN]
    have hgflip : readGuard ctx (flipBit gen (piBase ctx 0)) 0 ≠
        readGuard ctx gen 0 := by
      unfold readGuard
      rw [readBytes_flipBit_head gen _ _ h0G (by omega),
        readBytes_cons gen _ _ h0G (by omega)]
      exact beVal_cons_ne _ _ _ (xor_one_ne _)
    have haeq : readApp ctx (flipBit gen (piBase ctx 0)) 0 =
        readApp ctx gen 0 := by
      unfold readApp
      congr 1
      exact readBytes_flipBit_disjoint gen _ _ _ h0G (Or.inr (by omega))
    have hceq : computedGuard ctx (flipBit gen (piBase ctx 0)) 0 =
        computedGuard ctx gen 0 := by
      unfold computedGuard
      congr 1
      exact readBytes_flipBit_disjoint gen _ _ _ h0G
        (Or.inl (by rw [hpb0]; omega))
    have hnoskip : ¬ skipPiCheck ctx (flipBit gen (piBase ctx 0)) 0 := by
      intro hsk
      exact happ (by rw [← hsA, ← haeq]; exact hsk.1)
    have hgf : guardSubFailsG ctx (flipBit gen (piBase ctx 0)) 0
        (computedGuard ctx (flipBit gen (piBase ctx 0)) 0) := by
      refine ⟨hG, ?_⟩
      rw [hceq, hcg, ← hsG]
      exact hgflip
    have hvb : verifyBlock ctx (flipBit gen (piBase ctx 0)) 0 =
        some ⟨.guard, readGuard ctx (flipBit gen (piBase ctx 0)) 0,
          computedGuard ctx (flipBit gen (piBase ctx 0)) 0, 0⟩ := by
      unfold verifyBlock
      rw [verifyBlockG_eq_some_iff]
      exact ⟨hnoskip, Or.inl ⟨hgf, rfl⟩⟩
    rw [hinj]
    exact ⟨rfl, ⟨_, verdict _ _ hflen hvb, rfl, rfl⟩⟩
  · -- APPTAG flag
    have hoA : piBase ctx 0 + guardBytes ctx.piFormat + 2 ≤ gen.length := by
      rw [hpb0]
      omega
    have hoAlt : piBase ctx 0 + guardBytes ctx.piFormat < gen.length := by omega
    have hb0 : byteAt gen (piBase ctx 0 + guardBytes ctx.piFormat) < 256 :=
      byteAt_lt gen _ hgbytes
    have hb1 : byteAt gen (piBase ctx 0 + guardBytes ctx.piFormat + 1) < 256 :=
      byteAt_lt gen _ hgbytes
    have hb0x : byteAt gen (piBase ctx 0 + guardBytes ctx.piFormat) ^^^ 1 < 256 := by
      have h := @Nat.xor_lt_two_pow
        (byteAt gen (piBase ctx 0 + guardBytes ctx.piFormat)) 1 8
        (by omega) (by omega)
      omega
    have hd2 : readBytes gen (piBase ctx 0 + guardBytes ctx.piFormat) 2 =
        [byteAt gen (piBase ctx 0 + guardBytes ctx.piFormat),
          byteAt gen (piBase ctx 0 + guardBytes ctx.piFormat + 1)] :=
      readBytes_two gen _ (by omega)
    have happv : byteAt gen (piBase ctx 0 + guardBytes ctx.piFormat) * 256 +
        byteAt gen (piBase ctx 0 + guardBytes ctx.piFormat + 1) =
          ctx.appTag := by
      have h := hsA
      unfold readApp at h
      rw [hd2, beVal_pair] at h
      exact h
    have hinj : spdk_dif_inject_error ctx num gen ⟨false, true, false, false⟩ =
        (0, flipBit gen (piBase ctx 0 + guardBytes ctx.piFormat), some 0) := by
      unfold spdk_dif_inject_error
      rw [if_neg hmd, if_neg (not_not_intro hlenN)]
      exact rfl
    have hflen : (flipBit gen (piBase ctx 0 + guardBytes ctx.piFormat)).length =
        num * ctx.blockSize := by
      rw [length_flipBit gen _ hoAlt, hlenN]
    have ha' : readApp ctx
        (flipBit gen (piBase ctx 0 + guardBytes ctx.piFormat)) 0 =
          (byteAt gen (piBase ctx 0 + guardBytes ctx.piFormat) ^^^ 1) * 256 +
            byteAt gen (piBase ctx 0 + guardBytes ctx.piFormat + 1) := by
      unfold readApp
      rw [readBytes_flipBit_head gen _ 2 hoAlt (by omega),
        show (2 : Nat) - 1 = 1 from rfl, readBytes_one gen _ (by omega),
        beVal_pair]
    have hgeq : readGuard ctx
        (flipBit gen (piBase ctx 0 + guardBytes ctx.piFormat)) 0 =
          readGuard ctx gen 0 := by
      unfold readGuard
      congr 1
      exact readBytes_flipBit_disjoint gen _ _ _ hoAlt (Or.inl le_rfl)
    have hceq : computedGuard ctx
        (flipBit gen (piBase ctx 0 + guardBytes ctx.piFormat)) 0 =
          computedGuard ctx gen 0 := by
      unfold computedGuard
      congr 1
      exact readBytes_flipBit_disjoint gen _ _ _ hoAlt
        (Or.inl (by rw [hpb0]; omega))
    have hnoskip : ¬ skipPiCheck ctx
        (flipBit gen (piBase ctx 0 + guardBytes ctx.piFormat)) 0 := by
      intro hsk
      have h1 := hsk.1
      rw [ha'] at h1
      have hAI : APPTAG_IGNORE = 65535 := rfl
      have hx1 : byteAt gen (piBase ctx 0 + guardBytes ctx.piFormat) ^^^ 1 =
          255 := by omega
      have hx2 : byteAt gen (piBase ctx 0 + guardBytes ctx.piFormat + 1) =
          255 := by omega
      have hb0v : byteAt gen (piBase ctx 0 + guardBytes ctx.piFormat) = 254 := by
        have h2 : byteAt gen (piBase ctx 0 + guardBytes ctx.piFormat) ^^^ 1 ^^^ 1 =
            255 ^^^ 1 := by rw [hx1]
        rw [Nat.xor_assoc, Nat.xor_self, Nat.xor_zero] at h2
        have h3 : (255 : Nat) ^^^ 1 = 254 := by decide
        omega
      exact hfe (by omega)
    have hnogf : ¬ guardSubFailsG ctx
        (flipBit gen (piBase ctx 0 + guardBytes ctx.piFormat)) 0
        (computedGuard ctx
          (flipBit gen (piBase ctx 0 + guardBytes ctx.piFormat)) 0) := by
      intro hgf
      exact hgf.2 (by rw [hgeq, hceq, hcg, hsG])
    have hm16 : ∀ x : Nat, x &&& 65535 = x % 2 ^ 16 := by
      intro x
      rw [show (65535 : Nat) = 2 ^ 16 - 1 by norm_num]
      exact Nat.and_pow_two_sub_one_eq_mod x 16
    have happ'lt :
        (byteAt gen (piBase ctx 0 + guardBytes ctx.piFormat) ^^^ 1) * 256 +
          byteAt gen (piBase ctx 0 + guardBytes ctx.piFormat + 1) < 2 ^ 16 := by
      omega
    have haf : apptagSubFails ctx
        (flipBit gen (piBase ctx 0 + guardBytes ctx.piFormat)) 0 := by
      refine ⟨hA, by rw [hmask]; norm_num, ?_⟩
      rw [ha', hmask, hm16, hm16, Nat.mod_eq_of_lt happ'lt,
        Nat.mod_eq_of_lt happlt]
      have hxne :=
        xor_one_ne (byteAt gen (piBase ctx 0 + guardBytes ctx.piFormat))
      omega
    have hvb : verifyBlock ctx
        (flipBit gen (piBase ctx 0 + guardBytes ctx.piFormat)) 0 =
          some ⟨.apptag, ctx.appTag &&& ctx.apptagMask,
            readApp ctx (flipBit gen (piBase ctx 0 + guardBytes ctx.piFormat)) 0
              &&& ctx.apptagMask, 0⟩ := by
      unfold verifyBlock
      rw [verifyBlockG_eq_some_iff]
      exact ⟨hnoskip, Or.inr (Or.inl ⟨hnogf, haf, rfl⟩)⟩
    rw [hinj]
    exact ⟨rfl, ⟨_, verdict _ _ hflen hvb, rfl, rfl⟩⟩
  · -- REFTAG flag
    have hoR : piBase ctx 0 + refOffset ctx.piFormat + refBytes ctx.piFormat ≤
        gen.length := by
      rw [hpb0]
      omega
    have hoRlt : piBase ctx 0 + refOffset ctx.piFormat < gen.length := by omega
    have hinj : spdk_dif_inject_error ctx num gen ⟨true, false, false, false⟩ =
        (0, flipBit gen (piBase ctx 0 + refOffset ctx.piFormat), some 0) := by
      unfold spdk_dif_inject_error
      rw [if_neg hmd, if_neg (not_not_intro hlenN)]
      exact rfl
    have hflen : (flipBit gen (piBase ctx 0 + refOffset ctx.piFormat)).length =
        num * ctx.blockSize := by
      rw [length_flipBit gen _ hoRlt, hlenN]
    have hrflip : readRef ctx
        (flipBit gen (piBase ctx 0 + refOffset ctx.piFormat)) 0 ≠
          readRef ctx gen 0 := by
      unfold readRef
      rw [readBytes_flipBit_head gen _ _ hoRlt (by omega),
        readBytes_cons gen _ _ hoRlt (by omega)]
      exact beVal_cons_ne _ _ _ (xor_one_ne _)
    have hgeq : readGuard ctx
        (flipBit gen (piBase ctx 0 + refOffset ctx.piFormat)) 0 =
          readGuard ctx gen 0 := by
      unfold readGuard
      congr 1
      exact readBytes_flipBit_disjoint gen _ _ _ hoRlt (Or.inl (by omega))
    have haeq : readApp ctx
        (flipBit gen (piBase ctx 0 + refOffset ctx.piFormat)) 0 =
          readApp ctx gen 0 := by
      unfold readApp
      congr 1
      exact readBytes_flipBit_disjoint gen _ _ _ hoRlt (Or.inl (by omega))
    have hceq : computedGuard ctx
        (flipBit gen (piBase ctx 0 + refOffset ctx.piFormat)) 0 =
          computedGuard ctx gen 0 := by
      unfold computedGuard
      congr 1
      exact readBytes_flipBit_disjoint gen _ _ _ hoRlt
        (Or.inl (by rw [hpb0]; omega))
    have hnoskip : ¬ skipPiCheck ctx
        (flipBit gen (piBase ctx 0 + refOffset ctx.piFormat)) 0 := by
      intro hsk
      exact happ (by rw [← hsA, ← haeq]; exact hsk.1)
    have hnogf : ¬ guardSubFailsG ctx
        (flipBit gen (piBase ctx 0 + refOffset ctx.piFormat)) 0
        (computedGuard ctx
          (flipBit gen (piBase ctx 0 + refOffset ctx.piFormat)) 0) := by
      intro hgf
      exact hgf.2 (by rw [hgeq, hceq, hcg, hsG])
    have hnoaf : ¬ apptagSubFails ctx
        (flipBit gen (piBase ctx 0 + refOffset ctx.piFormat)) 0 := by
      intro haf
      exact haf.2.2 (by rw [haeq, hsA])
    have hrf : reftagSubFails ctx
        (flipBit gen (piBase ctx 0 + refOffset ctx.piFormat)) 0 := by
      refine ⟨hR, ?_⟩
      have hne' : readRef ctx
          (flipBit gen (piBase ctx 0 + refOffset ctx.piFormat)) 0 ≠
            genRefTag ctx 0 := by
        rw [← hsR]
        exact hrflip
      unfold refMismatch
      rcases hdt : ctx.difType with _ | _ | _ | _
      · exact absurd hdt hty
      · refine Or.inl ⟨Or.inl rfl, ?_⟩
        have hg : genRefTag ctx 0 = expectedRefTag ctx 0 := by
          unfold genRefTag
          rw [hdt]
        rw [← hg]
        exact hne'
      · refine Or.inl ⟨Or.inr rfl, ?_⟩
        have hg : genRefTag ctx 0 = expectedRefTag ctx 0 := by
          unfold genRefTag
          rw [hdt]
        rw [← hg]
        exact hne'
      · refine Or.inr ⟨rfl, ?_⟩
        have hg : genRefTag ctx 0 = refSentinel ctx.piFormat := by
          unfold genRefTag
          rw [hdt]
        rw [← hg]
        exact hne'
    have hvb : verifyBlock ctx
        (flipBit gen (piBase ctx 0 + refOffset ctx.piFormat)) 0 =
          some ⟨.reftag, genRefTag ctx 0,
            readRef ctx (flipBit gen (piBase ctx 0 + refOffset ctx.piFormat)) 0,
            0⟩ := by
      unfold verifyBlock
      rw [verifyBlockG_eq_some_iff]
      exact ⟨hnoskip, Or.inr (Or.inr ⟨hnogf, hnoaf, hrf, rfl⟩)⟩
    rw [hinj]
    exact ⟨rfl, ⟨_, verdict _ _ hflen hvb, rfl, rfl⟩⟩
  · -- DATA flag
    have hbspos : 0 < ctx.blockSize := by omega
    have h0lt : 0 < gen.length := by
      rw [hlenN]
      have := Nat.mul_pos hnum hbspos
      omega
    have hd0x : byteAt gen 0 ^^^ 1 < 256 := by
      have hb0 : byteAt gen 0 < 256 := byteAt_lt gen 0 hgbytes
      have h := @Nat.xor_lt_two_pow (byteAt gen 0) 1 8 (by omega) (by omega)
      omega
    have hinj : spdk_dif_inject_error ctx num gen ⟨false, false, false, true⟩ =
        (0, flipBit gen 0, some 0) := by
      unfold spdk_dif_inject_error
      rw [if_neg hmd, if_neg (not_not_intro hlenN)]
      exact rfl
    have hflen : (flipBit gen 0).length = num * ctx.blockSize := by
      rw [length_flipBit gen 0 h0lt, hlenN]
    have hcflip : computedGuard ctx (flipBit gen 0) 0 ≠
        computedGuard ctx gen 0 := by
      unfold computedGuard ctxCrc
      rw [Nat.zero_mul, readBytes_flipBit_head gen 0 _ h0lt hgi,
        readBytes_cons gen 0 _ h0lt hgi]
      have h := crcBytes_flip_ne (guardWidth ctx.piFormat)
        (guardPoly ctx.piFormat) ctx.guardSeed []
        (readBytes gen (0 + 1) (ctx.guardInterval - 1))
        (byteAt gen 0 ^^^ 1) (byteAt gen 0) hgw8 (poly_facts ctx.piFormat).1
        (poly_facts ctx.piFormat).2 hseed (by intro x hx; cases hx)
        (fun x hx => hgbytes x (mem_readBytes gen _ _ x hx))
        hd0x (byteAt_lt gen 0 hgbytes) (xor_one_ne (byteAt gen 0))
      simpa using h
    have hgeq : readGuard ctx (flipBit gen 0) 0 = readGuard ctx gen 0 := by
      unfold readGuard
      congr 1
      exact readBytes_flipBit_disjoint gen _ _ _ h0lt
        (Or.inr (by rw [hpb0]; omega))
    have haeq : readApp ctx (flipBit gen 0) 0 = readApp ctx gen 0 := by
      unfold readApp
      congr 1
      exact readBytes_flipBit_disjoint gen _ _ _ h0lt
        (Or.inr (by rw [hpb0]; omega))
    have hnoskip : ¬ skipPiCheck ctx (flipBit gen 0) 0 := by
      intro hsk
      exact happ (by rw [← hsA, ← haeq]; exact hsk.1)
    have hgf : guardSubFailsG ctx (flipBit gen 0) 0
        (computedGuard ctx (flipBit gen 0) 0) := by
      refine ⟨hG, ?_⟩
      rw [hgeq, hsG, ← hcg]
      exact fun h => hcflip h.symm
    have hvb : verifyBlock ctx (flipBit gen 0) 0 =
        some ⟨.guard, readGuard ctx (flipBit gen 0) 0,
          computedGuard ctx (flipBit gen 0) 0, 0⟩ := by
      unfold verifyBlock
      rw [verifyBlockG_eq_some_iff]
      exact ⟨hnoskip, Or.inl ⟨hgf, rfl⟩⟩
    rw [hinj]
    exact ⟨rfl, ⟨_, verdict _ _ hflen hvb, rfl, rfl⟩⟩
  · -- all four flags
    have hinj : spdk_dif_inject_error ctx num gen ⟨true, true, true, true⟩ =
        (0, flipBit (flipBit (flipBit (flipBit gen
          (piBase ctx 0 + refOffset ctx.piFormat))
          (piBase ctx 0 + guardBytes ctx.piFormat)) (piBase ctx 0)) 0,
          some 0) := by
      unfold spdk_dif_inject_error
      rw [if_neg hmd, if_neg (not_not_intro hlenN)]
      exact rfl
    rw [hinj]
    exact ⟨rfl, rfl⟩

/-- Witness for C8: the amended inject-then-detect theorem applied to the
small TYPE1 context over two blocks of zero data, exhibiting the GUARD-flag
conjunct. -/
theorem C8_witness :
    WfCtx ctxT1 ∧ ctxT1.appTag ≠ APPTAG_IGNORE ∧
      ((spdk_dif_inject_error ctxT1 2 (spdk_dif_generate ctxT1 2 pay24).2
          ⟨false, false, true, false⟩).2.2 = some 0 ∧
        ∃ e, spdk_dif_verify ctxT1 2
            (spdk_dif_inject_error ctxT1 2 (spdk_dif_generate ctxT1 2 pay24).2
              ⟨false, false, true, false⟩).2.1 = (-1, some e) ∧
          e.errType = .guard ∧ e.errOffset = 0) :=
  ⟨by decide, by decide,
    (C8_inject_then_detect ctxT1 2 pay24 (by decide) rfl rfl rfl (by decide)
      (by decide) (by decide) (by decide) (by decide) (by decide) (by decide)
      (by decide)).1⟩

/-! ## Claim C2 -/

/-- C2: for every well-formed context with a fresh stream state
(`last_guard = guard_seed`) and every partition of the data range
`[0, num * guard_interval)` into consecutive fragments, folding
`spdk_dif_generate_stream` over the fragments in order produces exactly the
payload of a single bulk `spdk_dif_generate`, and folding
`spdk_dif_verify_stream` over the fragments returns exactly the verification
result of a single bulk `spdk_dif_verify`. -/
theorem C2_stream_bulk_equivalence (ctx : DifCtx) (num : Nat)
    (payload : List Nat) (frags : List (Nat × Nat)) (hwf : WfCtx ctx)
    (hlen : payload.length = num * ctx.blockSize)
    (hcons : ConsecutiveFrom 0 frags)
    (hsum : (frags.map Prod.snd).sum = num * ctx.guardInterval)
    (hlg : ctx.lastGuard = ctx.guardSeed) :
    (runGenStream ctx payload frags).1 =
      (spdk_dif_generate ctx num payload).2 ∧
    (runVerStream ctx payload frags).1 =
      (spdk_dif_verify ctx num payload).2 := by
  have hgi : 0 < ctx.guardInterval := hwf.1
  have hs0 : streamState ctx payload 0 = ctx.guardSeed := by
    unfold streamState
    rw [Nat.zero_mod, if_pos rfl]
  have hctx0 : ctx = { ctx with
      lastGuard := streamState ctx payload 0,
      dataOffset := ctx.dataOffset } := by
    rw [hs0]
    nth_rewrite 1 [← hlg]
    rfl
  have hdiv : (0 + (frags.map Prod.snd).sum) / ctx.guardInterval = num := by
    rw [Nat.zero_add, hsum, Nat.mul_div_cancel _ hgi]
  constructor
  · conv_lhs => rw [hctx0]
    have hq0 : difGenerateBlocks ctx 0 (0 / ctx.guardInterval) payload =
        payload := by
      rw [Nat.zero_div]
      simp only [difGenerateBlocks]
    have hrun := runGenStream_inv ctx hwf num payload hlen frags 0
      ctx.dataOffset hcons (by rw [Nat.zero_add, hsum])
    rw [hq0] at hrun
    rw [hrun, hdiv]
    simp only [spdk_dif_generate, if_pos hlen]
  · conv_lhs => rw [hctx0]
    have hrun := runVerStream_inv ctx hgi payload frags 0 ctx.dataOffset hcons
    rw [hrun, hdiv, Nat.zero_div, Nat.sub_zero]
    unfold spdk_dif_verify
    rw [if_pos hlen]
    rcases hdv : difVerifyBlocks ctx 0 num payload with _ | e
    · rfl
    · rfl

/-- Witness for C2: two blocks of zero data under the small TYPE1 context,
streamed as the fragment partition `(0, 3), (3, 5)`, match the bulk
generate and the bulk verify. -/
theorem C2_witness :
    WfCtx ctxT1 ∧ ConsecutiveFrom 0 [(0, 3), (3, 5)] ∧
      (List.map Prod.snd [((0 : Nat), (3 : Nat)), (3, 5)]).sum =
        2 * ctxT1.guardInterval ∧
      ((runGenStream ctxT1 pay24 [(0, 3), (3, 5)]).1 =
          (spdk_dif_generate ctxT1 2 pay24).2 ∧
        (runVerStream ctxT1 pay24 [(0, 3), (3, 5)]).1 =
          (spdk_dif_verify ctxT1 2 pay24).2) :=
  ⟨by decide, by decide, by decide,
    C2_stream_bulk_equivalence ctxT1 2 pay24 [(0, 3), (3, 5)] (by decide)
      (by decide) (by decide) (by decide) rfl⟩

end SpdkDif

